import Mathlib

/-!
# Verification of the PC-speaker PIT emulation and synthesis engine

Shallow embedding of `src/hardware/pcspeaker.cpp` (DOSBox Staging).
Floating-point quantities of the source (`float` timing values, buffer
contents) are modelled as exact rationals `ℚ`; the properties verified here
are the algorithmic ones, which are exact-arithmetic statements.

Conventions:
* the global `static struct { ... } spkr` becomes the `SpkrState` structure,
  passed and returned explicitly;
* the function-local `static` variables (`previous_output_level` in
  `AddDelayEntry`, `current_output_level` in `PCSPEAKER_CallBack`) are part
  of the persistent program state and are therefore fields of the state;
* the bounded array `entries[SPKR_ENTRIES]` with its fill counter `used`
  is modelled as a list whose length is the value of `used`;
* `PIC_TickIndex()` (the current fractional position inside the emulated
  millisecond tick), read at the top of each entry point in the source, is
  an explicit argument of the entry points;
* the `while (passed > 0)` loops of PIT modes 2 and 3 are encoded with an
  explicit fuel argument; the fuel chosen by `ForwardPIT` dominates the
  number of iterations the source performs in every state in which the
  source loop terminates at all (see `loopFuel`);
* a ghost field `trace` records every submission made to `AddDelayEntry`
  (the "emitted" edges, before deduplication and capacity drop); no
  modelled source behaviour reads it.
-/

namespace PCSpeaker

/-- `SPKR_ENTRIES`: capacity of the delay-entry (edge) log. -/
def SPKR_ENTRIES : ℕ := 1024

/-- `SPKR_POSITIVE_LEVEL`. -/
def SPKR_POSITIVE_LEVEL : ℤ := 20000

/-- `SPKR_NEGATIVE_LEVEL`. -/
def SPKR_NEGATIVE_LEVEL : ℤ := -20000

/-- `SPKR_FILTER_QUALITY`. -/
def SPKR_FILTER_QUALITY : ℕ := 100

/-- `SPKR_OVERSAMPLING`. -/
def SPKR_OVERSAMPLING : ℕ := 32

/-- `SPKR_FILTER_WIDTH = SPKR_FILTER_QUALITY * SPKR_OVERSAMPLING`. -/
def SPKR_FILTER_WIDTH : ℕ := SPKR_FILTER_QUALITY * SPKR_OVERSAMPLING

/-- `SPKR_HIGHPASS = 0.999f` (one-pole DC-blocking coefficient). -/
def SPKR_HIGHPASS : ℚ := 999 / 1000

/-- `PIT_TICK_RATE` (from `timer.h`): the PIT oscillator frequency in Hz. -/
def PIT_TICK_RATE : ℕ := 1193182

/-- `ms_per_pit_tick = 1000.0f / PIT_TICK_RATE`. -/
def ms_per_pit_tick : ℚ := 1000 / (PIT_TICK_RATE : ℚ)

/-- One `DelayEntry`: fractional position inside the tick and the output
level the speaker line switches to at that instant. -/
structure DelayEntry where
  index : ℚ
  output_level : ℤ
deriving Repr, DecidableEq

/-- The edge-log portion of the engine state: the bounded entry array with
its fill count (modelled as a list), the deduplication reference level
(the `static` local `previous_output_level` of `AddDelayEntry`), and the
ghost trace of all submissions. -/
structure LogState where
  entries : List DelayEntry
  prev_output_level : ℤ
  trace : List DelayEntry
deriving Repr, DecidableEq

/-- The whole mutable engine state (the fields of the `spkr` struct that
the verified code reads or writes, plus the two function-local statics). -/
structure SpkrState where
  output_buffer : List ℚ
  sampled_impulse : List ℚ
  pit_mode : ℕ
  rate : ℤ
  rate_per_ms : ℚ
  pit_output_enabled : Bool
  pit_clock_gate_enabled : Bool
  pit_output_level : ℤ
  pit_new_max : ℚ
  pit_new_half : ℚ
  pit_max : ℚ
  pit_half : ℚ
  pit_index : ℚ
  pit_mode1_waiting_for_counter : Bool
  pit_mode1_waiting_for_trigger : Bool
  pit_mode1_pending_max : ℚ
  pit_mode3_counting : Bool
  last_index : ℚ
  minimum_counter : ℤ
  log : LogState
  current_output_level : ℚ
deriving Repr, DecidableEq

/-- `AddDelayEntry(index, new_output_level)`: record the submission in the
ghost trace; drop it if it equals the previously submitted level
(deduplication); update the dedup reference; drop it if the log is full;
otherwise append it. -/
def AddDelayEntry (log : LogState) (index : ℚ) (new_output_level : ℤ) : LogState :=
  let log := { log with trace := log.trace ++ [⟨index, new_output_level⟩] }
  if new_output_level = log.prev_output_level then log
  else
    let log := { log with prev_output_level := new_output_level }
    if log.entries.length = SPKR_ENTRIES then log
    else { log with entries := log.entries ++ [⟨index, new_output_level⟩] }

/-- `AddPITOutput(index)`: submit the current PIT output level, but only
when the output is enabled. -/
def AddPITOutput (st : SpkrState) (index : ℚ) : SpkrState :=
  if st.pit_output_enabled then
    { st with log := AddDelayEntry st.log index st.pit_output_level }
  else st

/-- Body of `ForwardPIT` for mode 0 (after `last_index` was updated). -/
def forwardMode0 (st : SpkrState) (delay_base passed : ℚ) : SpkrState :=
  if st.pit_max ≤ st.pit_index then st
  else
    let idx := st.pit_index + passed
    if st.pit_max ≤ idx then
      let delay := delay_base + st.pit_max - idx + passed
      let st := { st with pit_index := idx,
                          pit_output_level := SPKR_POSITIVE_LEVEL }
      AddPITOutput st delay
    else { st with pit_index := idx }

/-- Body of `ForwardPIT` for mode 1. -/
def forwardMode1 (st : SpkrState) (delay_base passed : ℚ) : SpkrState :=
  if st.pit_mode1_waiting_for_counter then st
  else if st.pit_mode1_waiting_for_trigger then st
  else if st.pit_max ≤ st.pit_index then st
  else
    let idx := st.pit_index + passed
    if st.pit_max ≤ idx then
      let delay := delay_base + st.pit_max - idx + passed
      let st := { st with pit_index := idx,
                          pit_output_level := SPKR_POSITIVE_LEVEL,
                          pit_mode1_waiting_for_trigger := true }
      AddPITOutput st delay
    else { st with pit_index := idx }

/-- The `while (passed > 0)` loop of mode 2, with explicit fuel. -/
def forwardMode2Loop : ℕ → SpkrState → ℚ → ℚ → SpkrState
  | 0, st, _, _ => st
  | fuel + 1, st, delay_base, passed =>
    if 0 < passed then
      if st.pit_half ≤ st.pit_index then
        if st.pit_max ≤ st.pit_index + passed then
          let delay := st.pit_max - st.pit_index
          let db := delay_base + delay
          let p := passed - delay
          let st := { st with pit_output_level := SPKR_NEGATIVE_LEVEL }
          let st := AddPITOutput st db
          let st := { st with pit_index := 0 }
          forwardMode2Loop fuel st db p
        else { st with pit_index := st.pit_index + passed }
      else
        if st.pit_half ≤ st.pit_index + passed then
          let delay := st.pit_half - st.pit_index
          let db := delay_base + delay
          let p := passed - delay
          let st := { st with pit_output_level := SPKR_POSITIVE_LEVEL }
          let st := AddPITOutput st db
          let st := { st with pit_index := st.pit_half }
          forwardMode2Loop fuel st db p
        else { st with pit_index := st.pit_index + passed }
    else st

/-- The `while (passed > 0)` loop of mode 3, with explicit fuel.  At every
crossed sub-period boundary the staged `pit_new_half` / `pit_new_max`
values are loaded. -/
def forwardMode3Loop : ℕ → SpkrState → ℚ → ℚ → SpkrState
  | 0, st, _, _ => st
  | fuel + 1, st, delay_base, passed =>
    if 0 < passed then
      if st.pit_half ≤ st.pit_index then
        if st.pit_max ≤ st.pit_index + passed then
          let delay := st.pit_max - st.pit_index
          let db := delay_base + delay
          let p := passed - delay
          let st := { st with pit_output_level := SPKR_POSITIVE_LEVEL }
          let st := AddPITOutput st db
          let st := { st with pit_index := 0,
                              pit_half := st.pit_new_half,
                              pit_max := st.pit_new_max }
          forwardMode3Loop fuel st db p
        else { st with pit_index := st.pit_index + passed }
      else
        if st.pit_half ≤ st.pit_index + passed then
          let delay := st.pit_half - st.pit_index
          let db := delay_base + delay
          let p := passed - delay
          let st := { st with pit_output_level := SPKR_NEGATIVE_LEVEL }
          let st := AddPITOutput st db
          let st := { st with pit_index := st.pit_half,
                              pit_half := st.pit_new_half,
                              pit_max := st.pit_new_max }
          forwardMode3Loop fuel st db p
        else { st with pit_index := st.pit_index + passed }
    else st

/-- Body of `ForwardPIT` for mode 4 (software strobe). -/
def forwardMode4 (st : SpkrState) (delay_base passed : ℚ) : SpkrState :=
  if st.pit_index < st.pit_max then
    if st.pit_max ≤ st.pit_index + passed then
      let delay := st.pit_max - st.pit_index
      let db := delay_base + delay
      let st := { st with pit_output_level := SPKR_NEGATIVE_LEVEL }
      let st := AddPITOutput st db
      { st with pit_index := st.pit_max }
    else { st with pit_index := st.pit_index + passed }
  else st

/-- Fuel given to the mode-2/3 loops.  The source loops terminate for the
states reachable with sane counter loads (positive half/periods); this
bound dominates the number of iterations they perform there: every
iteration either returns or crosses a boundary, and the number of crossed
boundaries is bounded through the smallest half-period in play.  The flat
`1024` keeps the bound generous for the concrete computations below. -/
def loopFuel (idx passed half new_half : ℚ) : ℕ :=
  let h := min half new_half
  1024 + (if 0 < h then 3 * (Int.toNat ⌈(idx + passed + passed) / h⌉) else 0)

/-- `ForwardPIT(newindex)`: advance the PIT state machine from
`last_index` to `newindex`, emitting the edges crossed on the way. -/
def ForwardPIT (st : SpkrState) (newindex : ℚ) : SpkrState :=
  let passed := newindex - st.last_index
  let delay_base := st.last_index
  let st := { st with last_index := newindex }
  if st.pit_mode = 6 then st
  else if st.pit_mode = 0 then forwardMode0 st delay_base passed
  else if st.pit_mode = 1 then forwardMode1 st delay_base passed
  else if st.pit_mode = 2 then
    forwardMode2Loop
      (loopFuel st.pit_index passed st.pit_half st.pit_new_half) st delay_base passed
  else if st.pit_mode = 3 then
    if st.pit_mode3_counting then
      forwardMode3Loop
        (loopFuel st.pit_index passed st.pit_half st.pit_new_half) st delay_base passed
    else st
  else if st.pit_mode = 4 then forwardMode4 st delay_base passed
  else st

/-- `PCSPEAKER_SetPITControl(mode)`; `newindex` is `PIC_TickIndex()`. -/
def PCSPEAKER_SetPITControl (st : SpkrState) (newindex : ℚ) (mode : ℕ) : SpkrState :=
  let st := ForwardPIT st newindex
  if mode = 1 then
    let st := { st with pit_mode := 1,
                        pit_mode1_waiting_for_counter := true,
                        pit_mode1_waiting_for_trigger := false,
                        pit_output_level := SPKR_POSITIVE_LEVEL }
    AddPITOutput st newindex
  else if mode = 3 then
    let st := { st with pit_mode := 3,
                        pit_mode3_counting := false,
                        pit_output_level := SPKR_POSITIVE_LEVEL }
    AddPITOutput st newindex
  else st

/-- `PCSPEAKER_SetCounter(cntr, mode)`; `newindex` is `PIC_TickIndex()`. -/
def PCSPEAKER_SetCounter (st : SpkrState) (newindex : ℚ) (cntr : ℤ) (mode : ℕ) :
    SpkrState :=
  let duration_of_count_ms := ms_per_pit_tick * (cntr : ℚ)
  let st := ForwardPIT st newindex
  if mode = 0 then
    let st := { st with pit_output_level := SPKR_NEGATIVE_LEVEL,
                        pit_index := 0,
                        pit_max := duration_of_count_ms }
    let st := AddPITOutput st newindex
    { st with pit_mode := 0 }
  else if mode = 1 then
    let st := { st with pit_mode1_pending_max := duration_of_count_ms }
    let st :=
      if st.pit_mode1_waiting_for_counter then
        { st with pit_mode1_waiting_for_counter := false,
                  pit_mode1_waiting_for_trigger := true }
      else st
    { st with pit_mode := 1 }
  else if mode = 2 then
    let st := { st with pit_index := 0,
                        pit_output_level := SPKR_NEGATIVE_LEVEL }
    let st := AddPITOutput st newindex
    let st := { st with pit_half := ms_per_pit_tick,
                        pit_max := duration_of_count_ms }
    { st with pit_mode := 2 }
  else if mode = 3 then
    if cntr < st.minimum_counter then
      -- hack to save CPU cycles: dummy mode with constant high output,
      -- returning before the final mode assignment
      let st := { st with pit_output_level := SPKR_POSITIVE_LEVEL,
                          pit_mode := 6 }
      AddPITOutput st newindex
    else
      let st := { st with pit_new_max := duration_of_count_ms }
      let st := { st with pit_new_half := st.pit_new_max / 2 }
      let st :=
        if ¬ st.pit_mode3_counting then
          let st := { st with pit_index := 0,
                              pit_max := st.pit_new_max,
                              pit_half := st.pit_new_half }
          if st.pit_clock_gate_enabled then
            let st := { st with pit_mode3_counting := true,
                                pit_output_level := SPKR_POSITIVE_LEVEL }
            AddPITOutput st newindex
          else st
        else st
      { st with pit_mode := 3 }
  else if mode = 4 then
    let st := { st with pit_output_level := SPKR_POSITIVE_LEVEL }
    let st := AddPITOutput st newindex
    let st := { st with pit_index := 0,
                        pit_max := duration_of_count_ms }
    { st with pit_mode := 4 }
  else st

/-- `PCSPEAKER_SetType(clock_gate_enabled, output_enabled)`;
`newindex` is `PIC_TickIndex()`. -/
def PCSPEAKER_SetType (st : SpkrState) (newindex : ℚ)
    (clock_gate_enabled output_enabled : Bool) : SpkrState :=
  let st := ForwardPIT st newindex
  let pit_trigger := clock_gate_enabled ∧ ¬ st.pit_clock_gate_enabled
  let st := { st with pit_clock_gate_enabled := clock_gate_enabled,
                      pit_output_enabled := output_enabled }
  let st :=
    if pit_trigger then
      if st.pit_mode = 1 then
        if st.pit_mode1_waiting_for_counter then st
        else
          { st with pit_output_level := SPKR_NEGATIVE_LEVEL,
                    pit_index := 0,
                    pit_max := st.pit_mode1_pending_max,
                    pit_mode1_waiting_for_trigger := false }
      else if st.pit_mode = 3 then
        let st := { st with pit_mode3_counting := true }
        let st := { st with pit_new_half := st.pit_new_max / 2 }
        let st := { st with pit_index := 0,
                            pit_max := st.pit_new_max }
        { st with pit_half := st.pit_new_half,
                  pit_output_level := SPKR_POSITIVE_LEVEL }
      else st
    else if ¬ clock_gate_enabled then
      if st.pit_mode = 1 then st
      else if st.pit_mode = 3 then
        { st with pit_output_level := SPKR_POSITIVE_LEVEL,
                  pit_mode3_counting := false }
      else st
    else st
  if output_enabled then
    { st with log := AddDelayEntry st.log newindex st.pit_output_level }
  else
    { st with log := AddDelayEntry st.log newindex SPKR_NEGATIVE_LEVEL }

/-- `clamp(x, lo, hi)` from `support.h`. -/
def clampQ (x lo hi : ℚ) : ℚ := min (max x lo) hi

/-- `static_cast<int16_t>` applied to a float known (asserted in the
source) to lie inside the 16-bit range: truncation towards zero. -/
def ratTruncate (q : ℚ) : ℤ := if q < 0 then ⌈q⌉ else ⌊q⌋

/-- The offset/phase decomposition performed by `add_impulse` on
`samples_in_impulse = index * rate_per_ms` (a non-negative value in every
call the source makes: the caller clamps `index` to `[0,1]`). -/
def impulseOffsetPhase (samples_in_impulse : ℚ) : ℕ × ℕ :=
  let offset := (⌊samples_in_impulse⌋).toNat
  let phase := (⌊samples_in_impulse * (SPKR_OVERSAMPLING : ℚ)⌋).toNat % SPKR_OVERSAMPLING
  if phase ≠ 0 then (offset + 1, SPKR_OVERSAMPLING - phase)
  else (offset, phase)

/-- One tap of the accumulation loop of `add_impulse`: add
`amplitude * kernel[phase + i * SPKR_OVERSAMPLING]` into
`buf[offset + i]`.  (`List.set` leaves the list unchanged out of bounds;
claim C10 shows all source writes are in bounds.) -/
def tapStep (kernel : List ℚ) (offset phase : ℕ) (amplitude : ℚ)
    (b : List ℚ) (i : ℕ) : List ℚ :=
  b.set (offset + i)
    (b.getD (offset + i) 0 + amplitude * kernel.getD (phase + i * SPKR_OVERSAMPLING) 0)

/-- The tap-accumulation loop of `add_impulse`: for each of the
`SPKR_FILTER_QUALITY` taps, add `amplitude * kernel[phase + i * SPKR_OVERSAMPLING]`
into `buf[offset + i]`. -/
def addTaps (buf kernel : List ℚ) (offset phase : ℕ) (amplitude : ℚ) : List ℚ :=
  (List.range SPKR_FILTER_QUALITY).foldl (tapStep kernel offset phase amplitude) buf

/-- `add_impulse(index, amplitude)` (the non-`REFERENCE` branch). -/
def add_impulse (st : SpkrState) (index amplitude : ℚ) : SpkrState :=
  let samples_in_impulse := index * st.rate_per_ms
  let op := impulseOffsetPhase samples_in_impulse
  { st with output_buffer :=
      addTaps st.output_buffer st.sampled_impulse op.1 op.2 amplitude }

/-- The sample-consumption loop of `PCSPEAKER_CallBack`: for each of `len`
slots accumulate the running level, add the slot value, quantize to a
16-bit sample, then decay the level by `SPKR_HIGHPASS`.  Returns the
samples and the final running level. -/
def consume : List ℚ → ℚ → ℕ → List ℤ × ℚ
  | _, level, 0 => ([], level)
  | buf, level, n + 1 =>
    let level := level + buf.headD 0
    let sample := ratTruncate level
    let rest := consume buf.tail (level * SPKR_HIGHPASS) n
    (sample :: rest.1, rest.2)

/-- The shift-out loop of `PCSPEAKER_CallBack`:
`for (i = len; i < size; ++i) buf[i - len] = buf[i]`. -/
def shiftLoop (buf : List ℚ) (len : ℕ) : List ℚ :=
  (List.range' len (buf.length - len)).foldl
    (fun b i => b.set (i - len) (b.getD i 0)) buf

/-- The zero-fill loop of `PCSPEAKER_CallBack`:
`for (i = size - len; i < size; ++i) buf[i] = 0`. -/
def zeroTail (buf : List ℚ) (len : ℕ) : List ℚ :=
  (List.range' (buf.length - len) len).foldl (fun b i => b.set i 0) buf

/-- Lines 505–511 of `PCSPEAKER_CallBack`: force the PIT to tick-end,
reset `last_index` to the start of the next tick, synthesize every logged
edge (with its index clamped to `[0,1]`) into the accumulation buffer and
clear the edge log. -/
def spkrTickDrain (st : SpkrState) : SpkrState :=
  let st := ForwardPIT st 1
  let st := { st with last_index := 0 }
  let st := st.log.entries.foldl
    (fun s e => add_impulse s (clampQ e.index 0 1) (e.output_level : ℚ)) st
  { st with log := { st.log with entries := [] } }

/-- `PCSPEAKER_CallBack(len)`: returns the signed 16-bit samples handed to
the mixer and the post-call engine state.  The callback renders the
padding zeros and the consumed samples into its scratch `mix_buffer`, but
when the request exceeds the accumulation buffer's capacity the local
`len` has been reassigned to that capacity before the final
`AddSamples_m16(len, mix_buffer.data())` call, so the mixer is handed
only the first (clamped) `len` samples of the scratch buffer. -/
def PCSPEAKER_CallBack (st : SpkrState) (len : ℕ) : List ℤ × SpkrState :=
  let st := spkrTickDrain st
  let cap := st.output_buffer.length
  -- massive HACK: insert zeros if the callback wants too many samples
  let zeros : List ℤ := if cap < len then List.replicate (len - cap) 0 else []
  let len := if cap < len then cap else len
  let consumed := consume st.output_buffer st.current_output_level len
  let buf := zeroTail (shiftLoop st.output_buffer len) len
  ((zeros ++ consumed.1).take len,
   { st with output_buffer := buf, current_output_level := consumed.2 })

/-- Length of the accumulation buffer chosen by `init_interpolation`:
`SPKR_FILTER_QUALITY + rate / 1000 + 1` (C integer division; the `+1`
compensates for the rounding-down). -/
def output_buffer_length (rate : ℤ) : ℕ :=
  SPKR_FILTER_QUALITY + (rate / 1000).toNat + 1

/-- The engine state built by the `PCSPEAKER` constructor for a configured
sample rate (already clamped to at least 8000 by the caller).  The
windowed-sinc kernel values are transcendental floats; no claim verified
here depends on them, so the model keeps only the kernel's length
(`SPKR_FILTER_WIDTH`), zero-filled. -/
def initState (rate : ℤ) : SpkrState :=
  { output_buffer := List.replicate (output_buffer_length rate) 0
    sampled_impulse := List.replicate SPKR_FILTER_WIDTH 0
    pit_mode := 3
    rate := rate
    rate_per_ms := (rate : ℚ) / 1000
    pit_output_enabled := false
    pit_clock_gate_enabled := false
    pit_output_level := SPKR_POSITIVE_LEVEL
    pit_new_max := ms_per_pit_tick * 1320
    pit_new_half := ms_per_pit_tick * 1320 / 2
    pit_max := ms_per_pit_tick * 1320
    pit_half := ms_per_pit_tick * 1320 / 2
    pit_index := 0
    pit_mode1_waiting_for_counter := false
    pit_mode1_waiting_for_trigger := true
    pit_mode1_pending_max := 0
    pit_mode3_counting := false
    last_index := 0
    minimum_counter := 2 * (PIT_TICK_RATE : ℤ) / rate
    log := { entries := [], prev_output_level := SPKR_NEGATIVE_LEVEL, trace := [] }
    current_output_level := 0 }

/-- One inbound call into the engine: the three control entry points
(each carrying its `PIC_TickIndex()` timestamp) and the mixer render
callback. -/
inductive SpkrOp where
  | setPITControl (t : ℚ) (mode : ℕ)
  | setCounter (t : ℚ) (cntr : ℤ) (mode : ℕ)
  | setType (t : ℚ) (clock_gate_enabled output_enabled : Bool)
  | callback (len : ℕ)
deriving Repr, DecidableEq

/-- Apply one call to the engine state. -/
def applyOp (st : SpkrState) : SpkrOp → SpkrState
  | .setPITControl t mode => PCSPEAKER_SetPITControl st t mode
  | .setCounter t cntr mode => PCSPEAKER_SetCounter st t cntr mode
  | .setType t gate out => PCSPEAKER_SetType st t gate out
  | .callback len => (PCSPEAKER_CallBack st len).2

/-- Apply a sequence of calls. -/
def applyOps (st : SpkrState) (ops : List SpkrOp) : SpkrState :=
  ops.foldl applyOp st

/-- The timestamp a call carries, if any (the render callback takes none:
it always advances to tick-end). -/
def opTime : SpkrOp → Option ℚ
  | .setPITControl t _ => some t
  | .setCounter t _ _ => some t
  | .setType t _ _ => some t
  | .callback _ => none

/-- The last element of `d :: l` (structured for easy induction on `l`). -/
def lastD (d : ℚ) (l : List ℚ) : ℚ := l.foldl (fun _ x => x) d

/-- Edge-log times are in non-decreasing order. -/
def edgesOrdered : List DelayEntry → Bool
  | [] => true
  | [_] => true
  | a :: b :: t => decide (a.index ≤ b.index) && edgesOrdered (b :: t)

/-- No two consecutive edges carry the same level. -/
def edgesAlternating : List DelayEntry → Bool
  | [] => true
  | [_] => true
  | a :: b :: t => decide (a.output_level ≠ b.output_level) && edgesAlternating (b :: t)

/-- The sequence of edges a stable mode-3 square wave emits: `n` edges at
the consecutive half-period multiples `base + j * h` for
`j = jlo + 1, …, jlo + n`, high at even multiples of `h` (full-period
boundaries), low at odd ones. -/
def m3Edges (base h : ℚ) (jlo : ℤ) : ℕ → List DelayEntry
  | 0 => []
  | n + 1 =>
    ⟨base + ((jlo + 1 : ℤ) : ℚ) * h,
      if (jlo + 1) % 2 = 0 then SPKR_POSITIVE_LEVEL else SPKR_NEGATIVE_LEVEL⟩ ::
        m3Edges base h (jlo + 1) n

/-- The sane-input envelope for one inbound call, used by the amended
claim C4: timestamps stay inside the current tick and do not go
backwards; counter loads are non-negative (a latched PIT counter is
1..65536); a mode-2 load is at least one PIT tick; and a mode-3 load
staged while the square wave is counting is issued while the timer is
actually in mode 3 (the counting flag is not stale) and does not shrink
the period below the timer's current (or already staged) half-period —
the latter is the condition whose violation produces the C4
counterexample. -/
def validOp (st : SpkrState) : SpkrOp → Bool
  | .setPITControl t _ => decide (st.last_index ≤ t) && decide (t ≤ 1)
  | .setCounter t cntr mode =>
    decide (st.last_index ≤ t) && decide (t ≤ 1) &&
    (if mode = 2 then decide (1 ≤ cntr) else true) &&
    (if mode = 3 then
      decide (0 ≤ cntr) &&
      (if st.pit_mode3_counting then
        decide (st.pit_mode = 3) &&
        decide (st.pit_half ≤ ms_per_pit_tick * (cntr : ℚ)) &&
        decide (st.pit_new_half ≤ ms_per_pit_tick * (cntr : ℚ))
      else true)
    else true)
  | .setType t _ _ => decide (st.last_index ≤ t) && decide (t ≤ 1)
  | .callback _ => true

/-- A whole call sequence is valid when every call is valid in the state
it meets. -/
def validOps : SpkrState → List SpkrOp → Bool
  | _, [] => true
  | st, op :: rest => validOp st op && validOps (applyOp st op) rest

/-- A list of timestamps is monotonically non-decreasing. -/
def qsNonDecreasing : List ℚ → Bool
  | [] => true
  | [_] => true
  | a :: b :: t => decide (a ≤ b) && qsNonDecreasing (b :: t)

/-- Every logged edge lies at or before time `t`. -/
def entriesLE (l : List DelayEntry) (t : ℚ) : Prop := ∀ e ∈ l, e.index ≤ t

/-- The output level of the last entry of `l` (`d` when `l` is empty). -/
def lastLevel : List DelayEntry → ℤ → ℤ
  | [], d => d
  | e :: t, _ => lastLevel t e.output_level

/-- The alternation invariant of the edge log: consecutive entries carry
different levels, the log never exceeds its capacity, and — while the log
is not full — the last entry carries the deduplication reference level,
so the next appended entry is guaranteed to differ from it.  This holds
in every reachable state, whatever the inbound calls are. -/
def AltLog (log : LogState) : Prop :=
  edgesAlternating log.entries = true ∧
  log.entries.length ≤ SPKR_ENTRIES ∧
  (log.entries.length < SPKR_ENTRIES →
    lastLevel log.entries log.prev_output_level = log.prev_output_level)

/-- The reachability invariant behind the amended claim C4: the edge log
is time-ordered with all entries at or before the current position inside
the tick, the position stays inside `[0, 1]`, the staged mode-3 period is
positive with the staged half-period exactly half of it, the minimum
mode-3 counter is at least two PIT ticks, and — while the PIT is in the
duty-cycle modes 2 or 3 — the running index and the loaded half/full
periods are mutually consistent, so the loops of `ForwardPIT` only ever
step forward in time. -/
def C4Inv (st : SpkrState) : Prop :=
  edgesOrdered st.log.entries = true ∧
  entriesLE st.log.entries st.last_index ∧
  0 ≤ st.last_index ∧ st.last_index ≤ 1 ∧
  0 < st.pit_new_max ∧
  st.pit_new_half = st.pit_new_max / 2 ∧
  2 ≤ st.minimum_counter ∧
  (st.pit_mode = 2 →
    0 ≤ st.pit_index ∧ st.pit_index ≤ st.pit_max ∧ st.pit_half ≤ st.pit_max) ∧
  (st.pit_mode = 3 ∧ st.pit_mode3_counting = true →
    0 ≤ st.pit_index ∧ st.pit_index ≤ st.pit_max ∧ st.pit_half ≤ st.pit_max ∧
      st.pit_half ≤ st.pit_new_max)

/-- Call sequence refuting claim C4 on the engine started at rate 8000:
a mode-3 square wave with period `1000` PIT ticks is started, then a much
shorter period (`300` ticks, still above `minimum_counter = 298`) is
staged mid-cycle.  When the old half-period boundary is crossed, the
shrunken period is loaded while `pit_index` still sits at the old (much
larger) half-period, so the next full-period crossing computes a negative
delay and logs an edge earlier than its predecessor. -/
def c4Ops : List SpkrOp :=
  [ .setCounter 0 1000 3
  , .setType 0 true true
  , .setCounter (3/10) 300 3
  , .setType (1/2) true true ]

/-- State refuting claim C7: the PIT sits in dummy mode (so the forced
tick-end advance itself changes nothing but `last_index`) with one edge
pending in the log and a non-zero synthesis kernel. -/
def c7State : SpkrState :=
  { initState 8000 with
      pit_mode := 6
      sampled_impulse := List.replicate SPKR_FILTER_WIDTH 1
      log := { entries := [⟨1/2, SPKR_POSITIVE_LEVEL⟩],
               prev_output_level := SPKR_POSITIVE_LEVEL, trace := [] } }

/-- Concrete state used by the witness of claim C9: fresh engine placed in
mode 1, waiting for its first counter load, gate disabled. -/
def w9State : SpkrState :=
  { initState 8000 with
      pit_mode := 1
      pit_mode1_waiting_for_counter := true }

/-- Concrete state used by the witness of claim C3: fresh engine with the
PIT output enabled. -/
def w3State : SpkrState :=
  { initState 8000 with pit_output_enabled := true }

/-- Concrete state used by the witness of claim C8: dummy mode with a
completely full edge log of high edges. -/
def w8State : SpkrState :=
  { initState 8000 with
      pit_mode := 6
      log := { entries := List.replicate SPKR_ENTRIES ⟨0, SPKR_POSITIVE_LEVEL⟩,
               prev_output_level := SPKR_POSITIVE_LEVEL, trace := [] } }

/-- Concrete state used by the witness of claim C2: engine running a
stable mode-3 square wave of period 1 ms, observed right at the start of
a period. -/
def w2State : SpkrState :=
  { initState 8000 with
      pit_mode := 3
      pit_mode3_counting := true
      pit_clock_gate_enabled := true
      pit_output_enabled := true
      pit_half := 1/2
      pit_max := 1
      pit_new_half := 1/2
      pit_new_max := 1
      pit_index := 0
      last_index := 0 }

/-- The engine-state fields `ForwardPIT` can never change (everything
except `pit_index`, `pit_output_level`, `pit_half`, `pit_max`,
`pit_mode1_waiting_for_trigger` and the edge log), collected for frame
reasoning. -/
structure PitQuiet where
  pit_mode : ℕ
  pit_output_enabled : Bool
  pit_clock_gate_enabled : Bool
  pit_mode3_counting : Bool
  pit_mode1_waiting_for_counter : Bool
  pit_mode1_pending_max : ℚ
  pit_new_max : ℚ
  pit_new_half : ℚ
  minimum_counter : ℤ
  rate : ℤ
  rate_per_ms : ℚ
  output_buffer : List ℚ
  sampled_impulse : List ℚ
  current_output_level : ℚ
  last_index : ℚ
deriving Repr, DecidableEq

/-- Projection of a state onto its `ForwardPIT`-invariant fields. -/
def quiet (st : SpkrState) : PitQuiet :=
  { pit_mode := st.pit_mode
    pit_output_enabled := st.pit_output_enabled
    pit_clock_gate_enabled := st.pit_clock_gate_enabled
    pit_mode3_counting := st.pit_mode3_counting
    pit_mode1_waiting_for_counter := st.pit_mode1_waiting_for_counter
    pit_mode1_pending_max := st.pit_mode1_pending_max
    pit_new_max := st.pit_new_max
    pit_new_half := st.pit_new_half
    minimum_counter := st.minimum_counter
    rate := st.rate
    rate_per_ms := st.rate_per_ms
    output_buffer := st.output_buffer
    sampled_impulse := st.sampled_impulse
    current_output_level := st.current_output_level
    last_index := st.last_index }

/-!
## Helper lemmas
-/

theorem AddDelayEntry_trace (log : LogState) (i : ℚ) (lvl : ℤ) :
    (AddDelayEntry log i lvl).trace = log.trace ++ [⟨i, lvl⟩] := by
  simp only [AddDelayEntry]
  split
  · rfl
  · split <;> rfl

theorem AddDelayEntry_prev (log : LogState) (i : ℚ) (lvl : ℤ) :
    (AddDelayEntry log i lvl).prev_output_level = lvl := by
  simp only [AddDelayEntry]
  split
  · simp_all
  · split <;> rfl

theorem AddDelayEntry_entries (log : LogState) (i : ℚ) (lvl : ℤ) :
    (AddDelayEntry log i lvl).entries =
      if lvl = log.prev_output_level then log.entries
      else if log.entries.length = SPKR_ENTRIES then log.entries
      else log.entries ++ [⟨i, lvl⟩] := by
  simp only [AddDelayEntry]
  split
  · rfl
  · split <;> rfl

theorem AddPITOutput_eq (st : SpkrState) (i : ℚ) :
    AddPITOutput st i =
      { st with log := if st.pit_output_enabled then
                         AddDelayEntry st.log i st.pit_output_level
                       else st.log } := by
  unfold AddPITOutput
  split <;> rfl

@[simp] theorem AddPITOutput_log (st : SpkrState) (i : ℚ) :
    (AddPITOutput st i).log =
      if st.pit_output_enabled then AddDelayEntry st.log i st.pit_output_level
      else st.log := by
  rw [AddPITOutput_eq]

theorem quiet_AddPITOutput (st : SpkrState) (i : ℚ) :
    quiet (AddPITOutput st i) = quiet st := by
  rw [AddPITOutput_eq]; rfl

theorem quiet_forwardMode0 (st : SpkrState) (db p : ℚ) :
    quiet (forwardMode0 st db p) = quiet st := by
  unfold forwardMode0
  dsimp only
  split
  · rfl
  · split
    · exact quiet_AddPITOutput _ _
    · rfl

theorem quiet_forwardMode1 (st : SpkrState) (db p : ℚ) :
    quiet (forwardMode1 st db p) = quiet st := by
  unfold forwardMode1
  dsimp only
  split
  · rfl
  · split
    · rfl
    · split
      · rfl
      · split
        · exact quiet_AddPITOutput _ _
        · rfl

theorem quiet_forwardMode4 (st : SpkrState) (db p : ℚ) :
    quiet (forwardMode4 st db p) = quiet st := by
  unfold forwardMode4
  dsimp only
  split
  · split
    · exact quiet_AddPITOutput _ _
    · rfl
  · rfl

theorem quiet_forwardMode2Loop (fuel : ℕ) (st : SpkrState) (db p : ℚ) :
    quiet (forwardMode2Loop fuel st db p) = quiet st := by
  induction fuel generalizing st db p with
  | zero => rfl
  | succ n ih =>
    unfold forwardMode2Loop
    dsimp only
    split
    · split
      · split
        · rw [ih]; exact quiet_AddPITOutput _ _
        · rfl
      · split
        · rw [ih]; exact quiet_AddPITOutput _ _
        · rfl
    · rfl

theorem quiet_forwardMode3Loop (fuel : ℕ) (st : SpkrState) (db p : ℚ) :
    quiet (forwardMode3Loop fuel st db p) = quiet st := by
  induction fuel generalizing st db p with
  | zero => rfl
  | succ n ih =>
    unfold forwardMode3Loop
    dsimp only
    split
    · split
      · split
        · rw [ih]; exact quiet_AddPITOutput _ _
        · rfl
      · split
        · rw [ih]; exact quiet_AddPITOutput _ _
        · rfl
    · rfl

theorem quiet_ForwardPIT (st : SpkrState) (t : ℚ) :
    quiet (ForwardPIT st t) = quiet { st with last_index := t } := by
  unfold ForwardPIT
  dsimp only
  split
  · rfl
  · split
    · exact quiet_forwardMode0 _ _ _
    · split
      · exact quiet_forwardMode1 _ _ _
      · split
        · exact quiet_forwardMode2Loop _ _ _ _
        · split
          · split
            · exact quiet_forwardMode3Loop _ _ _ _
            · rfl
          · split
            · exact quiet_forwardMode4 _ _ _
            · rfl

@[simp] theorem ForwardPIT_pit_mode (st : SpkrState) (t : ℚ) :
    (ForwardPIT st t).pit_mode = st.pit_mode :=
  congrArg PitQuiet.pit_mode (quiet_ForwardPIT st t)

@[simp] theorem ForwardPIT_pit_output_enabled (st : SpkrState) (t : ℚ) :
    (ForwardPIT st t).pit_output_enabled = st.pit_output_enabled :=
  congrArg PitQuiet.pit_output_enabled (quiet_ForwardPIT st t)

@[simp] theorem ForwardPIT_pit_clock_gate_enabled (st : SpkrState) (t : ℚ) :
    (ForwardPIT st t).pit_clock_gate_enabled = st.pit_clock_gate_enabled :=
  congrArg PitQuiet.pit_clock_gate_enabled (quiet_ForwardPIT st t)

@[simp] theorem ForwardPIT_pit_mode3_counting (st : SpkrState) (t : ℚ) :
    (ForwardPIT st t).pit_mode3_counting = st.pit_mode3_counting :=
  congrArg PitQuiet.pit_mode3_counting (quiet_ForwardPIT st t)

@[simp] theorem ForwardPIT_pit_mode1_waiting_for_counter (st : SpkrState) (t : ℚ) :
    (ForwardPIT st t).pit_mode1_waiting_for_counter =
      st.pit_mode1_waiting_for_counter :=
  congrArg PitQuiet.pit_mode1_waiting_for_counter (quiet_ForwardPIT st t)

@[simp] theorem ForwardPIT_pit_mode1_pending_max (st : SpkrState) (t : ℚ) :
    (ForwardPIT st t).pit_mode1_pending_max = st.pit_mode1_pending_max :=
  congrArg PitQuiet.pit_mode1_pending_max (quiet_ForwardPIT st t)

@[simp] theorem ForwardPIT_pit_new_max (st : SpkrState) (t : ℚ) :
    (ForwardPIT st t).pit_new_max = st.pit_new_max :=
  congrArg PitQuiet.pit_new_max (quiet_ForwardPIT st t)

@[simp] theorem ForwardPIT_pit_new_half (st : SpkrState) (t : ℚ) :
    (ForwardPIT st t).pit_new_half = st.pit_new_half :=
  congrArg PitQuiet.pit_new_half (quiet_ForwardPIT st t)

@[simp] theorem ForwardPIT_minimum_counter (st : SpkrState) (t : ℚ) :
    (ForwardPIT st t).minimum_counter = st.minimum_counter :=
  congrArg PitQuiet.minimum_counter (quiet_ForwardPIT st t)

@[simp] theorem ForwardPIT_rate (st : SpkrState) (t : ℚ) :
    (ForwardPIT st t).rate = st.rate :=
  congrArg PitQuiet.rate (quiet_ForwardPIT st t)

@[simp] theorem ForwardPIT_rate_per_ms (st : SpkrState) (t : ℚ) :
    (ForwardPIT st t).rate_per_ms = st.rate_per_ms :=
  congrArg PitQuiet.rate_per_ms (quiet_ForwardPIT st t)

@[simp] theorem ForwardPIT_output_buffer (st : SpkrState) (t : ℚ) :
    (ForwardPIT st t).output_buffer = st.output_buffer :=
  congrArg PitQuiet.output_buffer (quiet_ForwardPIT st t)

@[simp] theorem ForwardPIT_sampled_impulse (st : SpkrState) (t : ℚ) :
    (ForwardPIT st t).sampled_impulse = st.sampled_impulse :=
  congrArg PitQuiet.sampled_impulse (quiet_ForwardPIT st t)

@[simp] theorem ForwardPIT_current_output_level (st : SpkrState) (t : ℚ) :
    (ForwardPIT st t).current_output_level = st.current_output_level :=
  congrArg PitQuiet.current_output_level (quiet_ForwardPIT st t)

@[simp] theorem ForwardPIT_last_index (st : SpkrState) (t : ℚ) :
    (ForwardPIT st t).last_index = t :=
  congrArg PitQuiet.last_index (quiet_ForwardPIT st t)

theorem ForwardPIT_mode6 (st : SpkrState) (t : ℚ) (h : st.pit_mode = 6) :
    ForwardPIT st t = { st with last_index := t } := by
  unfold ForwardPIT
  simp [h]

theorem ForwardPIT_mode1_waiting (st : SpkrState) (t : ℚ)
    (h1 : st.pit_mode = 1) (h2 : st.pit_mode1_waiting_for_counter = true) :
    ForwardPIT st t = { st with last_index := t } := by
  unfold ForwardPIT forwardMode1
  simp [h1, h2]

/-!
## Claim C9
-/

/-- C9: a gate rising edge (trigger) delivered by `PCSPEAKER_SetType`
while the timer is in mode 1 and still waiting for its first counter load
leaves the mode-1 timing state unchanged: no pending period is loaded
into the active period (`pit_max` keeps its value), the internal output
level stays high, the running index is not reset, and the
waiting-for-counter flag remains set. -/
theorem claim_c9 (st : SpkrState) (t : ℚ) (out : Bool)
    (hmode : st.pit_mode = 1)
    (hwait : st.pit_mode1_waiting_for_counter = true)
    (hgate : st.pit_clock_gate_enabled = false)
    (hlvl : st.pit_output_level = SPKR_POSITIVE_LEVEL) :
    (PCSPEAKER_SetType st t true out).pit_max = st.pit_max ∧
    (PCSPEAKER_SetType st t true out).pit_output_level = SPKR_POSITIVE_LEVEL ∧
    (PCSPEAKER_SetType st t true out).pit_index = st.pit_index ∧
    (PCSPEAKER_SetType st t true out).pit_mode1_waiting_for_counter = true ∧
    (PCSPEAKER_SetType st t true out).pit_mode1_waiting_for_trigger =
      st.pit_mode1_waiting_for_trigger := by
  unfold PCSPEAKER_SetType
  rw [ForwardPIT_mode1_waiting st t hmode hwait]
  simp only [hmode, hwait, hgate]
  split <;> simp_all

/-- Witness for C9 at a concrete state. -/
theorem claim_c9_witness :
    (PCSPEAKER_SetType w9State (1/2) true true).pit_max = w9State.pit_max ∧
    (PCSPEAKER_SetType w9State (1/2) true true).pit_output_level =
      SPKR_POSITIVE_LEVEL ∧
    (PCSPEAKER_SetType w9State (1/2) true true).pit_index = w9State.pit_index ∧
    (PCSPEAKER_SetType w9State (1/2) true true).pit_mode1_waiting_for_counter = true ∧
    (PCSPEAKER_SetType w9State (1/2) true true).pit_mode1_waiting_for_trigger =
      w9State.pit_mode1_waiting_for_trigger :=
  claim_c9 _ _ _ rfl rfl rfl rfl

/-!
## Claim C3
-/

theorem foldl_ForwardPIT_mode6 (st : SpkrState) (h : st.pit_mode = 6)
    (ts : List ℚ) :
    (ts.foldl ForwardPIT st).log = st.log ∧ (ts.foldl ForwardPIT st).pit_mode = 6 := by
  induction ts generalizing st with
  | nil => exact ⟨rfl, h⟩
  | cons a l ih =>
    rw [List.foldl_cons, ForwardPIT_mode6 st a h]
    exact ih _ h

/-- C3: `PCSPEAKER_SetCounter` called with mode 3 and a count below
`minimum_counter` degrades to the dummy constant-high mode: the output
level is forced high, one edge is emitted at the call instant, the call
returns early without loading any period (`pit_max`, `pit_half`,
`pit_new_max`, `pit_new_half` keep the values the preceding tick-forward
left), and every subsequent sequence of forward advancements emits no
further edge until the mode is changed. -/
theorem claim_c3 (st : SpkrState) (t : ℚ) (cntr : ℤ)
    (hcnt : cntr < st.minimum_counter)
    (hout : st.pit_output_enabled = true) :
    (PCSPEAKER_SetCounter st t cntr 3).pit_mode = 6 ∧
    (PCSPEAKER_SetCounter st t cntr 3).pit_output_level = SPKR_POSITIVE_LEVEL ∧
    (PCSPEAKER_SetCounter st t cntr 3).log.trace =
      (ForwardPIT st t).log.trace ++ [⟨t, SPKR_POSITIVE_LEVEL⟩] ∧
    (PCSPEAKER_SetCounter st t cntr 3).pit_max = (ForwardPIT st t).pit_max ∧
    (PCSPEAKER_SetCounter st t cntr 3).pit_half = (ForwardPIT st t).pit_half ∧
    (PCSPEAKER_SetCounter st t cntr 3).pit_new_max = st.pit_new_max ∧
    (PCSPEAKER_SetCounter st t cntr 3).pit_new_half = st.pit_new_half ∧
    ∀ ts : List ℚ,
      (ts.foldl ForwardPIT (PCSPEAKER_SetCounter st t cntr 3)).log =
        (PCSPEAKER_SetCounter st t cntr 3).log := by
  have hmode :
      PCSPEAKER_SetCounter st t cntr 3 =
        AddPITOutput
          { ForwardPIT st t with
              pit_output_level := SPKR_POSITIVE_LEVEL, pit_mode := 6 } t := by
    unfold PCSPEAKER_SetCounter
    simp only [ForwardPIT_minimum_counter]
    norm_num [hcnt]
  rw [hmode]
  rw [AddPITOutput_eq]
  refine ⟨rfl, rfl, ?_, rfl, rfl, by simp, by simp, ?_⟩
  · rw [if_pos (show (ForwardPIT st t).pit_output_enabled = true by simp [hout])]
    exact AddDelayEntry_trace _ _ _
  · intro ts
    exact (foldl_ForwardPIT_mode6 _ rfl ts).1

/-- Witness for C3 at a concrete state (count 100 is below the minimum
counter 298 of an 8000 Hz engine). -/
theorem claim_c3_witness :
    (PCSPEAKER_SetCounter w3State (1/4) 100 3).pit_mode = 6 ∧
    (PCSPEAKER_SetCounter w3State (1/4) 100 3).pit_output_level =
      SPKR_POSITIVE_LEVEL ∧
    (PCSPEAKER_SetCounter w3State (1/4) 100 3).log.trace =
      (ForwardPIT w3State (1/4)).log.trace ++ [⟨1/4, SPKR_POSITIVE_LEVEL⟩] ∧
    (PCSPEAKER_SetCounter w3State (1/4) 100 3).pit_max =
      (ForwardPIT w3State (1/4)).pit_max ∧
    (PCSPEAKER_SetCounter w3State (1/4) 100 3).pit_half =
      (ForwardPIT w3State (1/4)).pit_half ∧
    (PCSPEAKER_SetCounter w3State (1/4) 100 3).pit_new_max = w3State.pit_new_max ∧
    (PCSPEAKER_SetCounter w3State (1/4) 100 3).pit_new_half = w3State.pit_new_half ∧
    ∀ ts : List ℚ,
      (ts.foldl ForwardPIT (PCSPEAKER_SetCounter w3State (1/4) 100 3)).log =
        (PCSPEAKER_SetCounter w3State (1/4) 100 3).log :=
  claim_c3 w3State (1/4) 100 (by decide) rfl

/-!
## Claim C8
-/

theorem add_impulse_log (st : SpkrState) (i a : ℚ) :
    (add_impulse st i a).log = st.log := by
  unfold add_impulse
  rfl

theorem foldl_add_impulse_log (l : List DelayEntry) (st : SpkrState) :
    (l.foldl (fun s e => add_impulse s (clampQ e.index 0 1) (e.output_level : ℚ))
        st).log = st.log := by
  induction l generalizing st with
  | nil => rfl
  | cons a l ih =>
    rw [List.foldl_cons, ih]
    exact add_impulse_log _ _ _

theorem spkrTickDrain_log_mode6 (st : SpkrState) (h : st.pit_mode = 6) :
    (spkrTickDrain st).log = { st.log with entries := [] } := by
  unfold spkrTickDrain
  rw [ForwardPIT_mode6 st 1 h]
  dsimp only
  rw [foldl_add_impulse_log]

theorem CallBack_log_mode6 (st : SpkrState) (n : ℕ) (h : st.pit_mode = 6) :
    ((PCSPEAKER_CallBack st n).2).log = { st.log with entries := [] } := by
  unfold PCSPEAKER_CallBack
  dsimp only
  exact spkrTickDrain_log_mode6 st h

/-- C8: the deduplication reference level used by `AddDelayEntry` is
updated to the submitted level before the capacity check and is never
reset: when the log is full (`SPKR_ENTRIES` entries used) a submission
with a fresh level is silently discarded yet still updates the reference;
a following submission of the same level is dropped, both directly and
after the log has been drained by the render callback. -/
theorem claim_c8 (st : SpkrState) (i1 i2 : ℚ) (lvl : ℤ) (n : ℕ)
    (hne : lvl ≠ st.log.prev_output_level)
    (hfull : st.log.entries.length = SPKR_ENTRIES)
    (hmode : st.pit_mode = 6) :
    (AddDelayEntry st.log i1 lvl).prev_output_level = lvl ∧
    (AddDelayEntry st.log i1 lvl).entries = st.log.entries ∧
    (AddDelayEntry (AddDelayEntry st.log i1 lvl) i2 lvl).entries =
      (AddDelayEntry st.log i1 lvl).entries ∧
    ((PCSPEAKER_CallBack { st with log := AddDelayEntry st.log i1 lvl } n).2).log.entries
      = [] ∧
    ((PCSPEAKER_CallBack { st with log := AddDelayEntry st.log i1 lvl } n).2).log.prev_output_level
      = lvl ∧
    (AddDelayEntry
        ((PCSPEAKER_CallBack { st with log := AddDelayEntry st.log i1 lvl } n).2).log
        i2 lvl).entries = [] := by
  have hcb :
      ((PCSPEAKER_CallBack { st with log := AddDelayEntry st.log i1 lvl } n).2).log =
        { AddDelayEntry st.log i1 lvl with entries := [] } :=
    CallBack_log_mode6 _ n hmode
  have hprev : (AddDelayEntry st.log i1 lvl).prev_output_level = lvl :=
    AddDelayEntry_prev _ _ _
  refine ⟨hprev, ?_, ?_, ?_, ?_, ?_⟩
  · rw [AddDelayEntry_entries, if_neg hne, if_pos hfull]
  · rw [AddDelayEntry_entries, if_pos hprev.symm]
  · rw [hcb]
  · rw [hcb]; exact hprev
  · rw [hcb]
    rw [AddDelayEntry_entries]
    rw [if_pos]
    show lvl = ({ AddDelayEntry st.log i1 lvl with
      entries := ([] : List DelayEntry) } : LogState).prev_output_level
    show lvl = (AddDelayEntry st.log i1 lvl).prev_output_level
    exact hprev.symm

set_option maxRecDepth 100000 in
/-- Witness for C8 at a concrete full-log state. -/
theorem claim_c8_witness :
    (AddDelayEntry w8State.log (1/4) SPKR_NEGATIVE_LEVEL).prev_output_level =
      SPKR_NEGATIVE_LEVEL ∧
    (AddDelayEntry w8State.log (1/4) SPKR_NEGATIVE_LEVEL).entries =
      w8State.log.entries ∧
    (AddDelayEntry (AddDelayEntry w8State.log (1/4) SPKR_NEGATIVE_LEVEL) (1/2)
        SPKR_NEGATIVE_LEVEL).entries =
      (AddDelayEntry w8State.log (1/4) SPKR_NEGATIVE_LEVEL).entries ∧
    ((PCSPEAKER_CallBack
        { w8State with log := AddDelayEntry w8State.log (1/4) SPKR_NEGATIVE_LEVEL }
        3).2).log.entries = [] ∧
    ((PCSPEAKER_CallBack
        { w8State with log := AddDelayEntry w8State.log (1/4) SPKR_NEGATIVE_LEVEL }
        3).2).log.prev_output_level = SPKR_NEGATIVE_LEVEL ∧
    (AddDelayEntry
        ((PCSPEAKER_CallBack
            { w8State with log := AddDelayEntry w8State.log (1/4) SPKR_NEGATIVE_LEVEL }
            3).2).log
        (1/2) SPKR_NEGATIVE_LEVEL).entries = [] :=
  claim_c8 w8State (1/4) (1/2) SPKR_NEGATIVE_LEVEL 3 (by decide)
    (by simp [w8State]) rfl

/-!
## Claims C7 and C1: the output stage
-/

theorem set_getD_self (l : List ℚ) (i : ℕ) : l.set i (l.getD i 0) = l := by
  induction l generalizing i with
  | nil => rfl
  | cons a t ih =>
    cases i with
    | zero => rfl
    | succ n =>
      show a :: t.set n (t.getD n 0) = a :: t
      rw [ih]

theorem foldl_set_getD_self (inds : List ℕ) (buf : List ℚ) :
    inds.foldl (fun b i => b.set i (b.getD i 0)) buf = buf := by
  induction inds generalizing buf with
  | nil => rfl
  | cons a t ih =>
    rw [List.foldl_cons, set_getD_self]
    exact ih buf

theorem shiftLoop_zero (buf : List ℚ) : shiftLoop buf 0 = buf := by
  unfold shiftLoop
  have h : (fun (b : List ℚ) (i : ℕ) => b.set (i - 0) (b.getD i 0)) =
      fun (b : List ℚ) (i : ℕ) => b.set i (b.getD i 0) := by
    funext b i
    rw [Nat.sub_zero]
  rw [h]
  exact foldl_set_getD_self _ _

theorem zeroTail_zero (buf : List ℚ) : zeroTail buf 0 = buf := rfl

/-- Counterexample to C7 as stated: at requested length 0 the render
callback still drains the pending edge into the accumulation buffer and
clears the Edge Log, although the forced advance itself (dummy mode here)
changes nothing. -/
theorem claim_c7_counterexample :
    c7State.log.entries ≠ [] ∧
    (PCSPEAKER_CallBack c7State 0).2.log.entries = [] ∧
    (PCSPEAKER_CallBack c7State 0).2.output_buffer ≠ c7State.output_buffer := by
  refine ⟨by decide, ?_, ?_⟩
  · rw [CallBack_log_mode6 c7State 0 rfl]
  · set_option maxRecDepth 100000 in with_unfolding_all decide

/-- C7 amended: calling the render callback with requested length 0
produces no samples and performs exactly the tick-drain step — the forced
advance of the PIT state machine to tick-end, the reset of `last_index`
to the start of the next tick, and the draining of the Edge Log into the
accumulation buffer (log cleared) — while the consume, shift-out and
zero-fill stages change nothing. -/
theorem claim_c7 (st : SpkrState) :
    PCSPEAKER_CallBack st 0 = ([], spkrTickDrain st) := by
  unfold PCSPEAKER_CallBack
  dsimp only
  rw [if_neg (Nat.not_lt_zero _), if_neg (Nat.not_lt_zero _)]
  show ((([] : List ℤ) ++ (consume _ _ 0).1).take 0, _) = _
  rw [shiftLoop_zero, zeroTail_zero]
  simp only [consume, List.nil_append, List.take_zero]

theorem consume_length (n : ℕ) : ∀ (buf : List ℚ) (lvl : ℚ),
    (consume buf lvl n).1.length = n := by
  induction n with
  | zero => intro buf lvl; rfl
  | succ m ih =>
    intro buf lvl
    show ((ratTruncate (lvl + buf.headD 0)) ::
      (consume buf.tail ((lvl + buf.headD 0) * SPKR_HIGHPASS) m).1).length = m + 1
    rw [List.length_cons, ih]

theorem foldl_set_length (inds : List ℕ) (buf : List ℚ) (f : List ℚ → ℕ → ℚ) :
    (inds.foldl (fun b i => b.set i (f b i)) buf).length = buf.length := by
  induction inds generalizing buf with
  | nil => rfl
  | cons a t ih =>
    rw [List.foldl_cons, ih, List.length_set]

theorem foldl_tapStep_length (inds : List ℕ) (buf kernel : List ℚ)
    (off ph : ℕ) (amp : ℚ) :
    (inds.foldl (tapStep kernel off ph amp) buf).length = buf.length := by
  induction inds generalizing buf with
  | nil => rfl
  | cons a t ih =>
    rw [List.foldl_cons, ih, tapStep, List.length_set]

theorem addTaps_length (buf kernel : List ℚ) (off ph : ℕ) (amp : ℚ) :
    (addTaps buf kernel off ph amp).length = buf.length := by
  unfold addTaps
  exact foldl_tapStep_length _ _ _ _ _ _

theorem add_impulse_buffer_length (st : SpkrState) (i a : ℚ) :
    (add_impulse st i a).output_buffer.length = st.output_buffer.length := by
  unfold add_impulse
  dsimp only
  exact addTaps_length _ _ _ _ _

theorem foldl_add_impulse_buffer_length (l : List DelayEntry) (st : SpkrState) :
    (l.foldl (fun s e => add_impulse s (clampQ e.index 0 1) (e.output_level : ℚ))
        st).output_buffer.length = st.output_buffer.length := by
  induction l generalizing st with
  | nil => rfl
  | cons a l ih =>
    rw [List.foldl_cons, ih]
    exact add_impulse_buffer_length _ _ _

theorem spkrTickDrain_buffer_length (st : SpkrState) :
    (spkrTickDrain st).output_buffer.length = st.output_buffer.length := by
  unfold spkrTickDrain
  dsimp only
  rw [foldl_add_impulse_buffer_length, ForwardPIT_output_buffer]

set_option maxRecDepth 100000 in
/-- Counterexample to C1 as stated: the fresh 8000 Hz engine has an
accumulation buffer of 109 slots; a render request for 200 samples hands
the mixer only 109 of them — the `len` passed to `AddSamples_m16` was
reassigned to the buffer capacity — so the caller does receive fewer
samples than it requested. -/
theorem claim_c1_counterexample :
    (initState 8000).output_buffer.length = 109 ∧
    (PCSPEAKER_CallBack (initState 8000) 200).1.length = 109 ∧ (109 : ℕ) < 200 := by
  with_unfolding_all decide

/-- C1 (amended): the render callback hands the mixer exactly
`min len capacity` signed 16-bit samples.  Within capacity that is the
`len` samples rendered from the drained accumulation buffer, exactly as
requested; when `len` exceeds the capacity, the callback renders
`len - capacity` padding zeros followed by the `capacity` rendered
samples into its scratch buffer but — the local `len` having been
reassigned to the capacity before `AddSamples_m16` — delivers only the
first `capacity` of them, so the caller receives fewer samples than it
requested. -/
theorem claim_c1 (st : SpkrState) (len : ℕ) :
    (PCSPEAKER_CallBack st len).1.length = min len st.output_buffer.length ∧
    (len ≤ st.output_buffer.length →
      (PCSPEAKER_CallBack st len).1 =
        (consume (spkrTickDrain st).output_buffer
            (spkrTickDrain st).current_output_level len).1) ∧
    (st.output_buffer.length < len →
      (PCSPEAKER_CallBack st len).1 =
        (List.replicate (len - st.output_buffer.length) 0 ++
          (consume (spkrTickDrain st).output_buffer
              (spkrTickDrain st).current_output_level
              st.output_buffer.length).1).take st.output_buffer.length) := by
  have hlen : (spkrTickDrain st).output_buffer.length = st.output_buffer.length :=
    spkrTickDrain_buffer_length st
  refine ⟨?_, ?_, ?_⟩
  · unfold PCSPEAKER_CallBack
    dsimp only
    split
    · next h =>
      rw [List.length_take, List.length_append, List.length_replicate,
        consume_length]
      rw [hlen] at h ⊢
      omega
    · next h =>
      rw [List.nil_append, List.length_take, consume_length]
      rw [hlen] at h
      omega
  · intro h
    have h' : ¬ (spkrTickDrain st).output_buffer.length < len := by
      rw [hlen]
      omega
    unfold PCSPEAKER_CallBack
    dsimp only
    rw [if_neg h', if_neg h', List.nil_append]
    exact List.take_of_length_le (le_of_eq (consume_length _ _ _))
  · intro h
    have h' : (spkrTickDrain st).output_buffer.length < len := by
      rw [hlen]
      exact h
    unfold PCSPEAKER_CallBack
    dsimp only
    rw [if_pos h', if_pos h', hlen]

/-- Witness for C1: a state whose buffer holds 2 samples, asked for 5,
hands the mixer only 2 samples: the truncated prefix of the 3 padding
zeros followed by the 2 rendered samples. -/
theorem claim_c1_witness :
    (PCSPEAKER_CallBack { initState 8000 with output_buffer := [1/2, 1/3] } 5).1.length
      = min 5 ({ initState 8000 with output_buffer := [1/2, 1/3] } : SpkrState).output_buffer.length ∧
    (5 ≤ ({ initState 8000 with output_buffer := [1/2, 1/3] } : SpkrState).output_buffer.length →
      (PCSPEAKER_CallBack { initState 8000 with output_buffer := [1/2, 1/3] } 5).1 =
        (consume
            (spkrTickDrain { initState 8000 with output_buffer := [1/2, 1/3] }).output_buffer
            (spkrTickDrain { initState 8000 with output_buffer := [1/2, 1/3] }).current_output_level
            5).1) ∧
    (({ initState 8000 with output_buffer := [1/2, 1/3] } : SpkrState).output_buffer.length < 5 →
      (PCSPEAKER_CallBack { initState 8000 with output_buffer := [1/2, 1/3] } 5).1 =
        (List.replicate
            (5 - ({ initState 8000 with output_buffer := [1/2, 1/3] } : SpkrState).output_buffer.length) 0 ++
          (consume
              (spkrTickDrain { initState 8000 with output_buffer := [1/2, 1/3] }).output_buffer
              (spkrTickDrain { initState 8000 with output_buffer := [1/2, 1/3] }).current_output_level
              ({ initState 8000 with output_buffer := [1/2, 1/3] } : SpkrState).output_buffer.length).1).take
          ({ initState 8000 with output_buffer := [1/2, 1/3] } : SpkrState).output_buffer.length) :=
  claim_c1 { initState 8000 with output_buffer := [1/2, 1/3] } 5

/-!
## Claims C10 and C6: the impulse synthesizer
-/

theorem impulseOffsetPhase_spec (s : ℚ) :
    (impulseOffsetPhase s).2 < SPKR_OVERSAMPLING ∧
    SPKR_OVERSAMPLING * (impulseOffsetPhase s).1 =
      (⌊s * (SPKR_OVERSAMPLING : ℚ)⌋).toNat + (impulseOffsetPhase s).2 ∧
    (impulseOffsetPhase s).1 ≤ (⌊s⌋).toNat + 1 := by
  have hcast : ((SPKR_OVERSAMPLING : ℕ) : ℚ) = (32 : ℚ) := by
    norm_num [SPKR_OVERSAMPLING]
  have hfd : ⌊s * ((SPKR_OVERSAMPLING : ℕ) : ℚ)⌋₊ / SPKR_OVERSAMPLING = ⌊s⌋₊ := by
    have h := Nat.floor_div_nat (s * ((SPKR_OVERSAMPLING : ℕ) : ℚ)) SPKR_OVERSAMPLING
    rw [hcast] at h
    rw [mul_div_cancel_right₀ s (by norm_num : (32 : ℚ) ≠ 0)] at h
    rw [hcast]
    exact h.symm
  have hIf : (⌊s⌋).toNat = ⌊s⌋₊ := Int.floor_toNat s
  have hIg : (⌊s * ((SPKR_OVERSAMPLING : ℕ) : ℚ)⌋).toNat =
      ⌊s * ((SPKR_OVERSAMPLING : ℕ) : ℚ)⌋₊ := Int.floor_toNat _
  unfold impulseOffsetPhase
  dsimp only
  have hoff : (⌊s⌋).toNat =
      (⌊s * ((SPKR_OVERSAMPLING : ℕ) : ℚ)⌋).toNat / SPKR_OVERSAMPLING := by
    rw [hIf, hIg, hfd]
  set g := (⌊s * ((SPKR_OVERSAMPLING : ℕ) : ℚ)⌋).toNat with hgdef
  have hso : SPKR_OVERSAMPLING = 32 := rfl
  split
  · next hph =>
    have hr : g % SPKR_OVERSAMPLING ≠ 0 := hph
    rw [hso] at hr
    refine ⟨by simp only [hso]; omega, ?_, by omega⟩
    dsimp only
    rw [hoff]
    simp only [hso]
    omega
  · next hph =>
    rw [not_not] at hph
    have hr : g % SPKR_OVERSAMPLING = 0 := hph
    rw [hso] at hr
    refine ⟨by simp only [hso]; omega, ?_, by omega⟩
    dsimp only
    rw [hoff, hph]
    simp only [hso]
    omega

/-- C10: the render callback clamps every logged edge's time index into
`[0, 1]`; with the accumulation buffer sized by `init_interpolation` to
`SPKR_FILTER_QUALITY + rate / 1000 + 1` slots, every tap write performed
by `add_impulse` for a clamped edge lands strictly inside the buffer, and
every kernel read lands strictly inside the `SPKR_FILTER_WIDTH`-long
kernel — the source's asserted bounds checks hold. -/
theorem claim_c10 (st : SpkrState) (raw : ℚ) (i : ℕ)
    (hrate : 0 ≤ st.rate)
    (hrpm : st.rate_per_ms = (st.rate : ℚ) / 1000)
    (hbuf : st.output_buffer.length = output_buffer_length st.rate)
    (hi : i < SPKR_FILTER_QUALITY) :
    0 ≤ clampQ raw 0 1 ∧ clampQ raw 0 1 ≤ 1 ∧
    (impulseOffsetPhase (clampQ raw 0 1 * st.rate_per_ms)).1 + i <
      st.output_buffer.length ∧
    (impulseOffsetPhase (clampQ raw 0 1 * st.rate_per_ms)).2 +
      i * SPKR_OVERSAMPLING < SPKR_FILTER_WIDTH := by
  have hc0 : 0 ≤ clampQ raw 0 1 := le_min (le_max_right raw 0) zero_le_one
  have hc1 : clampQ raw 0 1 ≤ 1 := min_le_right _ _
  have hrpm0 : 0 ≤ st.rate_per_ms := by
    rw [hrpm]
    positivity
  have hs0 : 0 ≤ clampQ raw 0 1 * st.rate_per_ms := mul_nonneg hc0 hrpm0
  have hsB : clampQ raw 0 1 * st.rate_per_ms ≤ (st.rate : ℚ) / 1000 := by
    rw [hrpm]
    exact mul_le_of_le_one_left (by positivity) hc1
  have hfl : (⌊clampQ raw 0 1 * st.rate_per_ms⌋).toNat ≤ st.rate.toNat / 1000 := by
    rw [Int.floor_toNat]
    have h1 : ⌊clampQ raw 0 1 * st.rate_per_ms⌋₊ ≤ ⌊((st.rate : ℚ)) / 1000⌋₊ :=
      Nat.floor_le_floor hsB
    have h2 : ((st.rate : ℚ)) = ((st.rate.toNat : ℕ) : ℚ) := by
      norm_cast
      exact (Int.toNat_of_nonneg hrate).symm
    have h3 : ⌊((st.rate.toNat : ℕ) : ℚ) / ((1000 : ℕ) : ℚ)⌋₊ = st.rate.toNat / 1000 :=
      Nat.floor_div_eq_div st.rate.toNat 1000
    rw [h2] at h1
    rw [show (((1000 : ℕ) : ℚ)) = (1000 : ℚ) from by norm_num] at h3
    exact h1.trans (le_of_eq h3)
  obtain ⟨hph, hdec, hoff⟩ := impulseOffsetPhase_spec (clampQ raw 0 1 * st.rate_per_ms)
  have hq : SPKR_FILTER_QUALITY = 100 := rfl
  have ho : SPKR_OVERSAMPLING = 32 := rfl
  have hw : SPKR_FILTER_WIDTH = 3200 := rfl
  rw [ho] at hph hdec
  rw [hq] at hi
  refine ⟨hc0, hc1, ?_, ?_⟩
  · rw [hbuf]
    unfold output_buffer_length
    have hdn : ((st.rate / 1000 : ℤ)).toNat = st.rate.toNat / 1000 := by omega
    rw [hdn, hq]
    omega
  · rw [hw, ho]
    omega

/-- Witness for C10: fresh 44100 Hz engine, raw index 2 (clamped to 1),
last tap. -/
theorem claim_c10_witness :
    0 ≤ clampQ 2 0 1 ∧ clampQ 2 0 1 ≤ 1 ∧
    (impulseOffsetPhase (clampQ 2 0 1 * (initState 44100).rate_per_ms)).1 + 99 <
      (initState 44100).output_buffer.length ∧
    (impulseOffsetPhase (clampQ 2 0 1 * (initState 44100).rate_per_ms)).2 +
      99 * SPKR_OVERSAMPLING < SPKR_FILTER_WIDTH :=
  claim_c10 (initState 44100) 2 99 (by decide) rfl
    (by simp [initState, output_buffer_length]) (by decide)

theorem getD_set_self (l : List ℚ) (i : ℕ) (a : ℚ) (h : i < l.length) :
    (l.set i a).getD i 0 = a := by
  rw [List.getD_eq_getElem?_getD, List.getElem?_set_self h]
  rfl

theorem getD_set_ne (l : List ℚ) (i j : ℕ) (a : ℚ) (h : i ≠ j) :
    (l.set i a).getD j 0 = l.getD j 0 := by
  rw [List.getD_eq_getElem?_getD, List.getD_eq_getElem?_getD,
    List.getElem?_set_ne h]

theorem foldl_tapStep_getD (kernel : List ℚ) (off ph : ℕ) (amp : ℚ) (n : ℕ) :
    ∀ (buf : List ℚ), off + n ≤ buf.length → ∀ j : ℕ,
      ((List.range n).foldl (tapStep kernel off ph amp) buf).getD j 0 =
        if off ≤ j ∧ j < off + n then
          buf.getD j 0 + amp * kernel.getD (ph + (j - off) * SPKR_OVERSAMPLING) 0
        else buf.getD j 0 := by
  induction n with
  | zero =>
    intro buf hb j
    rw [if_neg (by omega)]
    rfl
  | succ m ih =>
    intro buf hb j
    rw [List.range_succ, List.foldl_append, List.foldl_cons, List.foldl_nil]
    have hBlen : ((List.range m).foldl (tapStep kernel off ph amp) buf).length =
        buf.length := foldl_tapStep_length _ _ _ _ _ _
    by_cases hj : j = off + m
    · subst hj
      rw [tapStep, getD_set_self _ _ _ (by omega)]
      rw [ih buf (by omega) (off + m)]
      rw [if_neg (by omega), if_pos (by omega), Nat.add_sub_cancel_left]
    · rw [tapStep, getD_set_ne _ _ _ _ (fun hEq => hj hEq.symm)]
      rw [ih buf (by omega) j]
      by_cases hcond : off ≤ j ∧ j < off + m
      · rw [if_pos hcond, if_pos (by omega)]
      · rw [if_neg hcond, if_neg (by omega)]

theorem add_impulse_buffer (st : SpkrState) (index amplitude : ℚ) :
    (add_impulse st index amplitude).output_buffer =
      addTaps st.output_buffer st.sampled_impulse
        (impulseOffsetPhase (index * st.rate_per_ms)).1
        (impulseOffsetPhase (index * st.rate_per_ms)).2 amplitude := by
  unfold add_impulse
  dsimp only

/-- Counterexample to C6 as stated: the sub-sample phase is not chosen by
rounding to the nearest available phase.  At sample rate 32000
(`rate_per_ms = 32`) and edge index `19/400`, the oversampled position is
`48.64` phase steps; `add_impulse` picks offset 2 with phase 16, i.e.
grid position 48, although grid position 49 is strictly nearer. -/
theorem claim_c6_counterexample :
    impulseOffsetPhase ((19/400 : ℚ) * (initState 32000).rate_per_ms) = (2, 16) ∧
    SPKR_OVERSAMPLING * 2 - 16 = 48 ∧
    |(19/400 : ℚ) * (initState 32000).rate_per_ms * (SPKR_OVERSAMPLING : ℚ) - 49| <
      |(19/400 : ℚ) * (initState 32000).rate_per_ms * (SPKR_OVERSAMPLING : ℚ) - 48| := by
  with_unfolding_all decide

/-- C6 amended: for each logged edge at clamped time `t` with signed
amplitude `a`, `add_impulse` computes the fractional sample offset
`t * rate_per_ms`, splits it into an integer sample offset and one of the
`SPKR_OVERSAMPLING` discrete sub-sample phases chosen by TRUNCATING the
oversampled position to the next available phase at or below it (the
floor of `t * rate_per_ms * SPKR_OVERSAMPLING`; phase 0 means exactly on
a sample boundary), and adds `a * kernel[phase + i * SPKR_OVERSAMPLING]`
into `AccumulationBuffer[offset + i]` for every tap `i`, touching no
other slot. -/
theorem claim_c6 (st : SpkrState) (index amplitude : ℚ) (i : ℕ)
    (hi : i < SPKR_FILTER_QUALITY)
    (hbound : (impulseOffsetPhase (index * st.rate_per_ms)).1 + SPKR_FILTER_QUALITY ≤
      st.output_buffer.length) :
    SPKR_OVERSAMPLING * (impulseOffsetPhase (index * st.rate_per_ms)).1 =
      (⌊index * st.rate_per_ms * (SPKR_OVERSAMPLING : ℚ)⌋).toNat +
        (impulseOffsetPhase (index * st.rate_per_ms)).2 ∧
    (impulseOffsetPhase (index * st.rate_per_ms)).2 < SPKR_OVERSAMPLING ∧
    (add_impulse st index amplitude).output_buffer.getD
        ((impulseOffsetPhase (index * st.rate_per_ms)).1 + i) 0 =
      st.output_buffer.getD ((impulseOffsetPhase (index * st.rate_per_ms)).1 + i) 0 +
        amplitude * st.sampled_impulse.getD
          ((impulseOffsetPhase (index * st.rate_per_ms)).2 + i * SPKR_OVERSAMPLING) 0 ∧
    ∀ j : ℕ,
      (j < (impulseOffsetPhase (index * st.rate_per_ms)).1 ∨
        (impulseOffsetPhase (index * st.rate_per_ms)).1 + SPKR_FILTER_QUALITY ≤ j) →
      (add_impulse st index amplitude).output_buffer.getD j 0 =
        st.output_buffer.getD j 0 := by
  obtain ⟨hph, hdec, hoff⟩ := impulseOffsetPhase_spec (index * st.rate_per_ms)
  refine ⟨hdec, hph, ?_, ?_⟩
  · rw [add_impulse_buffer]
    unfold addTaps
    rw [foldl_tapStep_getD _ _ _ _ _ _ hbound]
    rw [if_pos (by omega), Nat.add_sub_cancel_left]
  · intro j hj
    rw [add_impulse_buffer]
    unfold addTaps
    rw [foldl_tapStep_getD _ _ _ _ _ _ hbound]
    rw [if_neg (by omega)]

/-- Witness for C6 at a concrete state (8000 Hz engine, edge at index
1/2, first tap). -/
theorem claim_c6_witness :
    SPKR_OVERSAMPLING * (impulseOffsetPhase ((1/2) * (initState 8000).rate_per_ms)).1 =
      (⌊(1/2 : ℚ) * (initState 8000).rate_per_ms * (SPKR_OVERSAMPLING : ℚ)⌋).toNat +
        (impulseOffsetPhase ((1/2) * (initState 8000).rate_per_ms)).2 ∧
    (impulseOffsetPhase ((1/2) * (initState 8000).rate_per_ms)).2 < SPKR_OVERSAMPLING ∧
    (add_impulse (initState 8000) (1/2) 20000).output_buffer.getD
        ((impulseOffsetPhase ((1/2) * (initState 8000).rate_per_ms)).1 + 0) 0 =
      (initState 8000).output_buffer.getD
        ((impulseOffsetPhase ((1/2) * (initState 8000).rate_per_ms)).1 + 0) 0 +
        20000 * (initState 8000).sampled_impulse.getD
          ((impulseOffsetPhase ((1/2) * (initState 8000).rate_per_ms)).2 +
            0 * SPKR_OVERSAMPLING) 0 ∧
    ∀ j : ℕ,
      (j < (impulseOffsetPhase ((1/2) * (initState 8000).rate_per_ms)).1 ∨
        (impulseOffsetPhase ((1/2) * (initState 8000).rate_per_ms)).1 +
          SPKR_FILTER_QUALITY ≤ j) →
      (add_impulse (initState 8000) (1/2) 20000).output_buffer.getD j 0 =
        (initState 8000).output_buffer.getD j 0 :=
  claim_c6 (initState 8000) (1/2) 20000 0 (by decide)
    (by with_unfolding_all decide)

/-!
## Claim C5: the mode-4 one-shot strobe
-/

theorem lastD_nil (d : ℚ) : lastD d [] = d := rfl

theorem lastD_cons (d a : ℚ) (l : List ℚ) : lastD d (a :: l) = lastD a l := rfl

theorem le_lastD (a : ℚ) (l : List ℚ) (h : List.Chain (· ≤ ·) a l) :
    a ≤ lastD a l := by
  induction l generalizing a with
  | nil => exact le_refl a
  | cons b t ih =>
    obtain ⟨hab, ht⟩ := List.chain_cons.mp h
    rw [lastD_cons]
    exact hab.trans (ih b ht)

theorem ForwardPIT_mode4_done (st : SpkrState) (t : ℚ)
    (h4 : st.pit_mode = 4) (hge : st.pit_max ≤ st.pit_index) :
    ForwardPIT st t = { st with last_index := t } := by
  simp [ForwardPIT, forwardMode4, h4, not_lt.mpr hge]

theorem ForwardPIT_mode4_nocross (st : SpkrState) (t : ℚ)
    (h4 : st.pit_mode = 4) (hlt : st.pit_index < st.pit_max)
    (hnc : st.pit_index + (t - st.last_index) < st.pit_max) :
    ForwardPIT st t =
      { st with last_index := t,
                pit_index := st.pit_index + (t - st.last_index) } := by
  simp [ForwardPIT, forwardMode4, h4, hlt, not_le.mpr hnc]

theorem ForwardPIT_mode4_cross (st : SpkrState) (t : ℚ)
    (h4 : st.pit_mode = 4) (hout : st.pit_output_enabled = true)
    (hlt : st.pit_index < st.pit_max)
    (hc : st.pit_max ≤ st.pit_index + (t - st.last_index)) :
    ForwardPIT st t =
      { st with last_index := t,
                pit_index := st.pit_max,
                pit_output_level := SPKR_NEGATIVE_LEVEL,
                log := AddDelayEntry st.log
                  (st.last_index + (st.pit_max - st.pit_index))
                  SPKR_NEGATIVE_LEVEL } := by
  simp [ForwardPIT, forwardMode4, h4, hlt, hc, AddPITOutput_eq, hout]

theorem foldl_ForwardPIT_mode4_done (ts : List ℚ) (st : SpkrState)
    (h4 : st.pit_mode = 4) (hge : st.pit_max ≤ st.pit_index) :
    (ts.foldl ForwardPIT st).log = st.log := by
  induction ts generalizing st with
  | nil => rfl
  | cons a l ih =>
    rw [List.foldl_cons, ForwardPIT_mode4_done st a h4 hge]
    exact ih _ h4 hge

theorem claim_c5_aux (t0 M : ℚ) (ts : List ℚ) :
    ∀ (st : SpkrState) (u : ℚ),
      st.pit_mode = 4 → st.pit_output_enabled = true → st.pit_max = M →
      st.last_index = u →
      st.pit_index = u - t0 → st.pit_index < M →
      List.Chain (· ≤ ·) u ts →
      (ts.foldl ForwardPIT st).log.trace =
        st.log.trace ++
          (if t0 + M ≤ lastD u ts then
            [⟨t0 + M, SPKR_NEGATIVE_LEVEL⟩] else []) := by
  induction ts with
  | nil =>
    intro st u h4 hout hmax hu hrel hlt _
    rw [List.foldl_nil, lastD_nil, if_neg (by rw [hrel] at hlt; linarith)]
    rw [List.append_nil]
  | cons a l ih =>
    intro st u h4 hout hmax hu hrel hlt hchain
    obtain ⟨ha, hchain'⟩ := List.chain_cons.mp hchain
    rw [List.foldl_cons, lastD_cons]
    by_cases hc : st.pit_index + (a - u) < M
    · rw [ForwardPIT_mode4_nocross st a h4 (by rw [hmax]; exact hlt) (by rw [hmax, hu]; exact hc)]
      exact ih { st with last_index := a, pit_index := st.pit_index + (a - st.last_index) } a h4 hout hmax rfl (by dsimp only; rw [hrel, hu]; ring) (by dsimp only; rw [hu]; exact hc) hchain'
    · rw [not_lt] at hc
      rw [ForwardPIT_mode4_cross st a h4 hout (by rw [hmax]; exact hlt) (by rw [hmax, hu]; exact hc)]
      have hdone := foldl_ForwardPIT_mode4_done l { st with last_index := a, pit_index := st.pit_max, pit_output_level := SPKR_NEGATIVE_LEVEL, log := AddDelayEntry st.log (st.last_index + (st.pit_max - st.pit_index)) SPKR_NEGATIVE_LEVEL } h4 (le_refl _)
      rw [hdone]
      show (AddDelayEntry st.log (st.last_index + (st.pit_max - st.pit_index))
        SPKR_NEGATIVE_LEVEL).trace = _
      rw [AddDelayEntry_trace]
      have hedge : st.last_index + (st.pit_max - st.pit_index) = t0 + M := by
        rw [hmax, hrel, hu]
        ring
      rw [hedge]
      have hcond : t0 + M ≤ lastD a l := by
        have haM : t0 + M ≤ a := by
          rw [hrel] at hc
          linarith
        exact haM.trans (le_lastD a l hchain')
      rw [if_pos hcond]

/-- C5: after `PCSPEAKER_SetCounter` with mode 4 (counter at least 1),
any sequence of forward advancements with non-decreasing positions emits
exactly one falling edge, at the exact instant the running index crosses
the loaded maximum (`t0 + cntr * ms_per_pit_tick`), and emits it only
once the span reaches that instant; no further edge is ever emitted by
any number of subsequent forward calls until the timer is reprogrammed. -/
theorem claim_c5 (st : SpkrState) (t0 : ℚ) (cntr : ℤ) (ts : List ℚ)
    (hout : st.pit_output_enabled = true)
    (hcnt : 1 ≤ cntr)
    (hchain : List.Chain (· ≤ ·) t0 ts) :
    (ts.foldl ForwardPIT (PCSPEAKER_SetCounter st t0 cntr 4)).log.trace =
      (PCSPEAKER_SetCounter st t0 cntr 4).log.trace ++
        (if t0 + ms_per_pit_tick * (cntr : ℚ) ≤ lastD t0 ts then
          [⟨t0 + ms_per_pit_tick * (cntr : ℚ), SPKR_NEGATIVE_LEVEL⟩] else []) := by
  have hM : 0 < ms_per_pit_tick * (cntr : ℚ) := by
    have h1 : (0 : ℚ) < ms_per_pit_tick := by
      norm_num [ms_per_pit_tick, PIT_TICK_RATE]
    have h2 : (1 : ℚ) ≤ (cntr : ℚ) := by exact_mod_cast hcnt
    nlinarith
  have heq : PCSPEAKER_SetCounter st t0 cntr 4 =
      { AddPITOutput
          { ForwardPIT st t0 with pit_output_level := SPKR_POSITIVE_LEVEL } t0 with
        pit_index := 0,
        pit_max := ms_per_pit_tick * (cntr : ℚ),
        pit_mode := 4 } := by
    unfold PCSPEAKER_SetCounter
    norm_num
  rw [heq]
  rw [AddPITOutput_eq]
  refine claim_c5_aux t0 (ms_per_pit_tick * (cntr : ℚ)) ts _ t0 ?_ ?_ ?_ ?_ ?_ ?_ hchain
  · rfl
  · show (ForwardPIT st t0).pit_output_enabled = true
    rw [ForwardPIT_pit_output_enabled]
    exact hout
  · rfl
  · show (ForwardPIT st t0).last_index = t0
    rw [ForwardPIT_last_index]
  · show (0 : ℚ) = t0 - t0
    ring
  · show (0 : ℚ) < ms_per_pit_tick * (cntr : ℚ)
    exact hM

/-- Witness for C5: fresh engine with output enabled, strobe loaded at
time 0 with count 1000, forwarded to 1/4 then 1 (the strobe period is
about 0.838 ms, so the crossing falls inside the second advance). -/
theorem claim_c5_witness :
    ([(1/4 : ℚ), 1].foldl ForwardPIT (PCSPEAKER_SetCounter w3State 0 1000 4)).log.trace =
      (PCSPEAKER_SetCounter w3State 0 1000 4).log.trace ++
        (if 0 + ms_per_pit_tick * ((1000 : ℤ) : ℚ) ≤ lastD 0 [1/4, 1] then
          [⟨0 + ms_per_pit_tick * ((1000 : ℤ) : ℚ), SPKR_NEGATIVE_LEVEL⟩] else []) :=
  claim_c5 w3State 0 1000 [1/4, 1] rfl (by decide)
    (by constructor <;> norm_num)

/-!
## Claim C2: the stable mode-3 square wave
-/

theorem m3Edges_length (base h : ℚ) : ∀ (n : ℕ) (jlo : ℤ),
    (m3Edges base h jlo n).length = n := by
  intro n
  induction n with
  | zero => intro jlo; rfl
  | succ m ih =>
    intro jlo
    rw [m3Edges, List.length_cons, ih]

theorem m3Edges_append (base h : ℚ) : ∀ (n m : ℕ) (jlo : ℤ),
    m3Edges base h jlo n ++ m3Edges base h (jlo + (n : ℤ)) m =
      m3Edges base h jlo (n + m) := by
  intro n
  induction n with
  | zero =>
    intro m jlo
    rw [m3Edges, List.nil_append, Nat.zero_add]
    norm_num
  | succ k ih =>
    intro m jlo
    rw [m3Edges, List.cons_append]
    rw [show (k + 1 + m) = (k + m) + 1 from by omega, m3Edges]
    have hc : jlo + ((k + 1 : ℕ) : ℤ) = (jlo + 1) + (k : ℤ) := by
      push_cast
      ring
    rw [hc, ih m (jlo + 1)]

theorem m3Edges_rebase (base h : ℚ) (M : ℤ) : ∀ (n : ℕ) (jlo : ℤ),
    m3Edges (base + 2 * (M : ℚ) * h) h (jlo - 2 * M) n = m3Edges base h jlo n := by
  intro n
  induction n with
  | zero => intro jlo; rfl
  | succ m ih =>
    intro jlo
    rw [m3Edges, m3Edges]
    have htime : base + 2 * (M : ℚ) * h + ((jlo - 2 * M + 1 : ℤ) : ℚ) * h =
        base + ((jlo + 1 : ℤ) : ℚ) * h := by
      push_cast
      ring
    have hpar : (jlo - 2 * M + 1) % 2 = (jlo + 1) % 2 := by omega
    rw [htime, hpar]
    rw [show jlo - 2 * M + 1 = (jlo + 1) - 2 * M from by ring]
    rw [ih (jlo + 1)]

theorem floor_div_eq_zero (x y : ℚ) (hy : 0 < y) (h0 : 0 ≤ x) (h1 : x < y) :
    ⌊x / y⌋ = 0 :=
  Int.floor_eq_zero_iff.mpr ⟨div_nonneg h0 hy.le, (div_lt_one hy).mpr h1⟩

theorem floor_div_eq_one (x y : ℚ) (hy : 0 < y) (h0 : y ≤ x) (h1 : x < 2 * y) :
    ⌊x / y⌋ = 1 := by
  rw [Int.floor_eq_iff]
  constructor
  · rw [Int.cast_one, le_div_iff₀ hy, one_mul]
    exact h0
  · rw [div_lt_iff₀ hy]
    push_cast
    linarith

theorem sub_twice_div (x y : ℚ) (hy : y ≠ 0) : (x - 2 * y) / y = x / y - 2 := by
  field_simp
  ring

theorem sub_once_div (x y : ℚ) (hy : y ≠ 0) : (x - y) / y = x / y - 1 := by
  field_simp

theorem m3loop_stop (f : ℕ) (st : SpkrState) (db p : ℚ) (hp : ¬ 0 < p) :
    forwardMode3Loop (f + 1) st db p = st := by
  simp only [forwardMode3Loop]
  rw [if_neg hp]

theorem m3loop_high_cross (f : ℕ) (st : SpkrState) (db p : ℚ)
    (hp : 0 < p) (hbr : st.pit_half ≤ st.pit_index)
    (hcr : st.pit_max ≤ st.pit_index + p)
    (hout : st.pit_output_enabled = true) :
    forwardMode3Loop (f + 1) st db p =
      forwardMode3Loop f
        { st with pit_output_level := SPKR_POSITIVE_LEVEL,
                  log := AddDelayEntry st.log (db + (st.pit_max - st.pit_index))
                    SPKR_POSITIVE_LEVEL,
                  pit_index := 0,
                  pit_half := st.pit_new_half,
                  pit_max := st.pit_new_max }
        (db + (st.pit_max - st.pit_index)) (p - (st.pit_max - st.pit_index)) := by
  simp only [forwardMode3Loop]
  rw [if_pos hp, if_pos hbr, if_pos hcr, AddPITOutput_eq]
  rw [if_pos (show ({ st with pit_output_level := SPKR_POSITIVE_LEVEL } :
    SpkrState).pit_output_enabled = true from hout)]

theorem m3loop_high_nocross (f : ℕ) (st : SpkrState) (db p : ℚ)
    (hp : 0 < p) (hbr : st.pit_half ≤ st.pit_index)
    (hcr : ¬ st.pit_max ≤ st.pit_index + p) :
    forwardMode3Loop (f + 1) st db p = { st with pit_index := st.pit_index + p } := by
  simp only [forwardMode3Loop]
  rw [if_pos hp, if_pos hbr, if_neg hcr]

theorem m3loop_low_cross (f : ℕ) (st : SpkrState) (db p : ℚ)
    (hp : 0 < p) (hbr : ¬ st.pit_half ≤ st.pit_index)
    (hcr : st.pit_half ≤ st.pit_index + p)
    (hout : st.pit_output_enabled = true) :
    forwardMode3Loop (f + 1) st db p =
      forwardMode3Loop f
        { st with pit_output_level := SPKR_NEGATIVE_LEVEL,
                  log := AddDelayEntry st.log (db + (st.pit_half - st.pit_index))
                    SPKR_NEGATIVE_LEVEL,
                  pit_index := st.pit_half,
                  pit_half := st.pit_new_half,
                  pit_max := st.pit_new_max }
        (db + (st.pit_half - st.pit_index)) (p - (st.pit_half - st.pit_index)) := by
  simp only [forwardMode3Loop]
  rw [if_pos hp, if_neg hbr, if_pos hcr, AddPITOutput_eq]
  rw [if_pos (show ({ st with pit_output_level := SPKR_NEGATIVE_LEVEL } :
    SpkrState).pit_output_enabled = true from hout)]

theorem m3loop_low_nocross (f : ℕ) (st : SpkrState) (db p : ℚ)
    (hp : 0 < p) (hbr : ¬ st.pit_half ≤ st.pit_index)
    (hcr : ¬ st.pit_half ≤ st.pit_index + p) :
    forwardMode3Loop (f + 1) st db p = { st with pit_index := st.pit_index + p } := by
  simp only [forwardMode3Loop]
  rw [if_pos hp, if_neg hbr, if_neg hcr]

/-- Characterization of the mode-3 loop when the staged period equals the
active period (stable square wave of half-period `h`): starting at phase
`pit_index` with `delay_base = db`, the loop appends exactly one edge per
half-period boundary crossed in `(pit_index, pit_index + passed]`, at the
exact boundary times, alternating high (even multiples of `h`) and low
(odd multiples), and ends at the position reduced modulo the full period
`2h`. -/
theorem m3loop_stable (h : ℚ) (hh : 0 < h) : ∀ (fuel : ℕ) (st : SpkrState) (db p : ℚ),
    st.pit_half = h → st.pit_max = 2 * h →
    st.pit_new_half = h → st.pit_new_max = 2 * h →
    st.pit_output_enabled = true →
    0 ≤ st.pit_index → st.pit_index < 2 * h → 0 ≤ p →
    (⌊(st.pit_index + p) / h⌋ - ⌊st.pit_index / h⌋).toNat + 1 ≤ fuel →
    (forwardMode3Loop fuel st db p).log.trace =
      st.log.trace ++
        m3Edges (db - st.pit_index) h ⌊st.pit_index / h⌋
          ((⌊(st.pit_index + p) / h⌋ - ⌊st.pit_index / h⌋).toNat) ∧
    (forwardMode3Loop fuel st db p).pit_index =
      st.pit_index + p - ⌊(st.pit_index + p) / (2 * h)⌋ * (2 * h) ∧
    (forwardMode3Loop fuel st db p).pit_half = h ∧
    (forwardMode3Loop fuel st db p).pit_max = 2 * h ∧
    (forwardMode3Loop fuel st db p).last_index = st.last_index := by
  intro fuel
  induction fuel with
  | zero => intro st db p _ _ _ _ _ _ _ _ hfuel; omega
  | succ f ih =>
    intro st db p hhalf hmax hnh hnm hout hi0 hi2 hp0 hfuel
    have hh2 : (0 : ℚ) < 2 * h := by linarith
    by_cases hp : 0 < p
    case neg =>
      have hpz : p = 0 := le_antisymm (not_lt.mp hp) hp0
      subst hpz
      rw [m3loop_stop f st db 0 hp]
      have hn0 : (⌊(st.pit_index + 0) / h⌋ - ⌊st.pit_index / h⌋).toNat = 0 := by
        rw [add_zero]
        omega
      have hf0 : ⌊(st.pit_index + 0) / (2 * h)⌋ = 0 := by
        rw [add_zero]
        exact floor_div_eq_zero _ _ hh2 hi0 hi2
      refine ⟨?_, ?_, hhalf, hmax, rfl⟩
      · rw [hn0]
        rw [show m3Edges (db - st.pit_index) h ⌊st.pit_index / h⌋ 0 = [] from rfl]
        rw [List.append_nil]
      · rw [hf0, Int.cast_zero, zero_mul, sub_zero, add_zero]
    case pos =>
      by_cases hbr : st.pit_half ≤ st.pit_index
      case pos =>
        have hbr' : h ≤ st.pit_index := by rw [← hhalf]; exact hbr
        have hjlo : ⌊st.pit_index / h⌋ = 1 := floor_div_eq_one _ _ hh hbr' hi2
        by_cases hcr : st.pit_max ≤ st.pit_index + p
        case pos =>
          have hcr' : 2 * h ≤ st.pit_index + p := by rw [← hmax]; exact hcr
          rw [m3loop_high_cross f st db p hp hbr hcr hout]
          set db' := db + (st.pit_max - st.pit_index) with hdb'
          set p' := p - (st.pit_max - st.pit_index) with hp'
          set st' : SpkrState := { st with pit_output_level := SPKR_POSITIVE_LEVEL, log := AddDelayEntry st.log db' SPKR_POSITIVE_LEVEL, pit_index := 0, pit_half := st.pit_new_half, pit_max := st.pit_new_max } with hst'
          have hst'i : st'.pit_index = 0 := by rw [hst']
          have hst'h : st'.pit_half = h := by rw [hst']; exact hnh
          have hst'm : st'.pit_max = 2 * h := by rw [hst']; exact hnm
          have hst'nh : st'.pit_new_half = h := by rw [hst']; exact hnh
          have hst'nm : st'.pit_new_max = 2 * h := by rw [hst']; exact hnm
          have hst'o : st'.pit_output_enabled = true := by rw [hst']; exact hout
          have hst'l : st'.last_index = st.last_index := by rw [hst']
          have hst'tr : st'.log.trace =
              st.log.trace ++ [⟨db', SPKR_POSITIVE_LEVEL⟩] := by
            rw [hst']
            exact AddDelayEntry_trace _ _ _
          have hfb : 2 ≤ ⌊(st.pit_index + p) / h⌋ := by
            have h2d : (2 : ℚ) ≤ (st.pit_index + p) / h := by
              rw [le_div_iff₀ hh]
              linarith
            exact Int.le_floor.mpr (by push_cast; exact h2d)
          have hP : st'.pit_index + p' = st.pit_index + p - 2 * h := by
            rw [hst'i, hp', hmax]
            ring
          have hfb2 : ⌊(st.pit_index + p - 2 * h) / h⌋ = ⌊(st.pit_index + p) / h⌋ - 2 := by
            rw [sub_twice_div _ _ (ne_of_gt hh)]
            have hfs := Int.floor_sub_int ((st.pit_index + p) / h) 2
            push_cast at hfs
            exact hfs
          have hfb2' : ⌊(st.pit_index + p - 2 * h) / (2 * h)⌋ =
              ⌊(st.pit_index + p) / (2 * h)⌋ - 1 := by
            rw [sub_once_div _ _ (ne_of_gt hh2)]
            have hfs := Int.floor_sub_int ((st.pit_index + p) / (2 * h)) 1
            push_cast at hfs
            exact hfs
          have hz : ⌊(0 : ℚ) / h⌋ = 0 := by
            rw [zero_div, Int.floor_zero]
          have hzi : ⌊st'.pit_index / h⌋ = 0 := by rw [hst'i]; exact hz
          have hp'0 : 0 ≤ p' := by rw [hp', hmax]; linarith
          have hfuel' : (⌊(st'.pit_index + p') / h⌋ - ⌊st'.pit_index / h⌋).toNat + 1 ≤ f := by
            rw [hP, hfb2, hzi]
            rw [hjlo] at hfuel
            omega
          have hIH := ih st' db' p' hst'h hst'm hst'nh hst'nm hst'o
            (by rw [hst'i]) (by rw [hst'i]; exact hh2) hp'0 hfuel'
          obtain ⟨ihtr, ihidx, ihh', ihm', ihl'⟩ := hIH
          have hcnt : (⌊(st.pit_index + p) / h⌋ - ⌊st.pit_index / h⌋).toNat =
              ((⌊(st.pit_index + p) / h⌋ - 2 - 0).toNat) + 1 := by
            rw [hjlo]
            omega
          refine ⟨?_, ?_, ihh', ihm', ?_⟩
          · rw [ihtr, hst'tr, hP, hzi, hfb2]
            rw [List.append_assoc, List.singleton_append]
            rw [hcnt, hjlo, m3Edges]
            have hpar : ((1 : ℤ) + 1) % 2 = 0 := by decide
            rw [hpar, if_pos rfl]
            have hhead : db - st.pit_index + (((1 : ℤ) + 1 : ℤ) : ℚ) * h = db' := by
              rw [hdb', hmax]
              push_cast
              ring
            have htail :
                m3Edges (db' - st'.pit_index) h 0 ((⌊(st.pit_index + p) / h⌋ - 2 - 0).toNat) =
                  m3Edges (db - st.pit_index) h (1 + 1)
                    ((⌊(st.pit_index + p) / h⌋ - 2 - 0).toNat) := by
              have hbase : db' - st'.pit_index =
                  db - st.pit_index + 2 * ((1 : ℤ) : ℚ) * h := by
                rw [hst'i, hdb', hmax]
                push_cast
                ring
              have hjl : (0 : ℤ) = (1 + 1) - 2 * 1 := by decide
              rw [hbase, hjl]
              exact m3Edges_rebase (db - st.pit_index) h 1 _ (1 + 1)
            rw [htail, hhead]
          · rw [ihidx, hP, hfb2']
            push_cast
            ring
          · rw [ihl', hst'l]
        case neg =>
          rw [m3loop_high_nocross f st db p hp hbr hcr]
          have hcr' : st.pit_index + p < 2 * h := by
            rw [not_le, hmax] at hcr
            exact hcr
          have hjb : ⌊(st.pit_index + p) / h⌋ = 1 :=
            floor_div_eq_one _ _ hh (by linarith) hcr'
          refine ⟨?_, ?_, hhalf, hmax, rfl⟩
          · rw [hjb, hjlo]
            rw [show ((1 : ℤ) - 1).toNat = 0 from rfl]
            rw [show m3Edges (db - st.pit_index) h 1 0 = [] from rfl]
            rw [List.append_nil]
          · rw [floor_div_eq_zero _ _ hh2 (by linarith) hcr']
            rw [Int.cast_zero, zero_mul, sub_zero]
      case neg =>
        have hbr' : st.pit_index < h := by rw [← hhalf]; exact not_le.mp hbr
        have hjlo : ⌊st.pit_index / h⌋ = 0 := floor_div_eq_zero _ _ hh hi0 hbr'
        by_cases hcr : st.pit_half ≤ st.pit_index + p
        case pos =>
          have hcr' : h ≤ st.pit_index + p := by rw [← hhalf]; exact hcr
          rw [m3loop_low_cross f st db p hp hbr hcr hout]
          set db' := db + (st.pit_half - st.pit_index) with hdb'
          set p' := p - (st.pit_half - st.pit_index) with hp'
          set st' : SpkrState := { st with pit_output_level := SPKR_NEGATIVE_LEVEL, log := AddDelayEntry st.log db' SPKR_NEGATIVE_LEVEL, pit_index := st.pit_half, pit_half := st.pit_new_half, pit_max := st.pit_new_max } with hst'
          have hst'i : st'.pit_index = h := by rw [hst']; exact hhalf
          have hst'h : st'.pit_half = h := by rw [hst']; exact hnh
          have hst'm : st'.pit_max = 2 * h := by rw [hst']; exact hnm
          have hst'nh : st'.pit_new_half = h := by rw [hst']; exact hnh
          have hst'nm : st'.pit_new_max = 2 * h := by rw [hst']; exact hnm
          have hst'o : st'.pit_output_enabled = true := by rw [hst']; exact hout
          have hst'l : st'.last_index = st.last_index := by rw [hst']
          have hst'tr : st'.log.trace =
              st.log.trace ++ [⟨db', SPKR_NEGATIVE_LEVEL⟩] := by
            rw [hst']
            exact AddDelayEntry_trace _ _ _
          have hfb : 1 ≤ ⌊(st.pit_index + p) / h⌋ := by
            have h1d : (1 : ℚ) ≤ (st.pit_index + p) / h := by
              rw [le_div_iff₀ hh]
              linarith
            exact Int.le_floor.mpr (by push_cast; exact h1d)
          have hP : st'.pit_index + p' = st.pit_index + p := by
            rw [hst'i, hp', hhalf]
            ring
          have hone : ⌊st'.pit_index / h⌋ = 1 := by
            rw [hst'i]
            exact floor_div_eq_one h h hh (le_refl h) (by linarith)
          have hp'0 : 0 ≤ p' := by rw [hp', hhalf]; linarith
          have hfuel' : (⌊(st'.pit_index + p') / h⌋ - ⌊st'.pit_index / h⌋).toNat + 1 ≤ f := by
            rw [hP, hone]
            rw [hjlo] at hfuel
            omega
          have hIH := ih st' db' p' hst'h hst'm hst'nh hst'nm hst'o
            (by rw [hst'i]; exact hh.le) (by rw [hst'i]; linarith) hp'0 hfuel'
          obtain ⟨ihtr, ihidx, ihh', ihm', ihl'⟩ := hIH
          have hcnt : (⌊(st.pit_index + p) / h⌋ - ⌊st.pit_index / h⌋).toNat =
              ((⌊(st.pit_index + p) / h⌋ - 1).toNat) + 1 := by
            rw [hjlo]
            omega
          refine ⟨?_, ?_, ihh', ihm', ?_⟩
          · rw [ihtr, hst'tr, hP, hone]
            rw [List.append_assoc, List.singleton_append]
            rw [hcnt, hjlo, m3Edges]
            have hpar : ((0 : ℤ) + 1) % 2 = 1 := by decide
            rw [hpar, if_neg (by decide)]
            have hhead : db - st.pit_index + (((0 : ℤ) + 1 : ℤ) : ℚ) * h = db' := by
              rw [hdb', hhalf]
              push_cast
              ring
            have hbase : db' - st'.pit_index = db - st.pit_index := by
              rw [hst'i, hdb']
              rw [hhalf]
              ring
            rw [hbase, hhead]
            norm_num
          · rw [ihidx, hP]
          · rw [ihl', hst'l]
        case neg =>
          rw [m3loop_low_nocross f st db p hp hbr hcr]
          have hcr' : st.pit_index + p < h := by rw [← hhalf]; exact not_le.mp hcr
          have hjb : ⌊(st.pit_index + p) / h⌋ = 0 :=
            floor_div_eq_zero _ _ hh (by linarith) hcr'
          refine ⟨?_, ?_, hhalf, hmax, rfl⟩
          · rw [hjb, hjlo]
            rw [show ((0 : ℤ) - 0).toNat = 0 from rfl]
            rw [show m3Edges (db - st.pit_index) h 0 0 = [] from rfl]
            rw [List.append_nil]
          · rw [floor_div_eq_zero _ _ hh2 (by linarith) (by linarith)]
            rw [Int.cast_zero, zero_mul, sub_zero]

theorem ForwardPIT_m3_stable (h : ℚ) (hh : 0 < h) (st : SpkrState) (t : ℚ)
    (hmode : st.pit_mode = 3) (hcnt : st.pit_mode3_counting = true)
    (hhalf : st.pit_half = h) (hmax : st.pit_max = 2 * h)
    (hnh : st.pit_new_half = h) (hnm : st.pit_new_max = 2 * h)
    (hout : st.pit_output_enabled = true)
    (hi0 : 0 ≤ st.pit_index) (hi2 : st.pit_index < 2 * h)
    (hle : st.last_index ≤ t) :
    (ForwardPIT st t).log.trace =
      st.log.trace ++
        m3Edges (st.last_index - st.pit_index) h ⌊st.pit_index / h⌋
          ((⌊(st.pit_index + (t - st.last_index)) / h⌋ - ⌊st.pit_index / h⌋).toNat) ∧
    (ForwardPIT st t).pit_index =
      st.pit_index + (t - st.last_index) -
        ⌊(st.pit_index + (t - st.last_index)) / (2 * h)⌋ * (2 * h) ∧
    (ForwardPIT st t).pit_half = h ∧
    (ForwardPIT st t).pit_max = 2 * h ∧
    (ForwardPIT st t).last_index = t := by
  have hp0 : 0 ≤ t - st.last_index := by linarith
  have hfuelbound :
      (⌊(st.pit_index + (t - st.last_index)) / h⌋ - ⌊st.pit_index / h⌋).toNat + 1 ≤
        loopFuel st.pit_index (t - st.last_index) st.pit_half st.pit_new_half := by
    rw [hhalf, hnh]
    simp only [loopFuel, min_self]
    rw [if_pos hh]
    have hjlo0 : 0 ≤ ⌊st.pit_index / h⌋ :=
      Int.floor_nonneg.mpr (div_nonneg hi0 hh.le)
    have hfc : ⌊(st.pit_index + (t - st.last_index)) / h⌋ ≤
        ⌈(st.pit_index + (t - st.last_index) + (t - st.last_index)) / h⌉ := by
      refine le_trans (Int.floor_le_ceil _) (Int.ceil_le_ceil ?_)
      gcongr
      linarith
    omega
  have hml := m3loop_stable h hh
    (loopFuel st.pit_index (t - st.last_index) st.pit_half st.pit_new_half)
    { st with last_index := t } st.last_index (t - st.last_index)
    hhalf hmax hnh hnm hout hi0 hi2 hp0 hfuelbound
  obtain ⟨htr, hidx, hhf, hmx, hls⟩ := hml
  unfold ForwardPIT
  dsimp only
  rw [hmode]
  rw [if_neg (by decide : ¬ (3 : ℕ) = 6), if_neg (by decide : ¬ (3 : ℕ) = 0),
    if_neg (by decide : ¬ (3 : ℕ) = 1), if_neg (by decide : ¬ (3 : ℕ) = 2),
    if_pos (rfl : (3 : ℕ) = 3)]
  rw [show ({ st with last_index := t } : SpkrState).pit_mode3_counting =
    st.pit_mode3_counting from rfl, hcnt]
  rw [if_pos rfl]
  rw [hmode, hcnt] at htr hidx hhf hmx hls
  refine ⟨?_, ?_, ?_, ?_, ?_⟩
  · exact htr
  · exact hidx
  · exact hhf
  · exact hmx
  · exact hls

/-- Consecutive edges of the stable mode-3 boundary sequence are exactly
one half-period apart and carry opposite levels. -/
theorem m3Edges_chain (base h : ℚ) : ∀ (n : ℕ) (jlo : ℤ),
    List.Chain' (fun a b : DelayEntry =>
      b.index = a.index + h ∧ b.output_level = -a.output_level)
      (m3Edges base h jlo n) := by
  intro n
  induction n with
  | zero => intro jlo; exact List.chain'_nil
  | succ m ih =>
    intro jlo
    cases m with
    | zero => exact List.chain'_singleton _
    | succ k =>
      rw [m3Edges, m3Edges, List.chain'_cons]
      refine ⟨⟨?_, ?_⟩, ?_⟩
      · dsimp only
        push_cast
        ring
      · dsimp only
        by_cases hpar : (jlo + 1) % 2 = 0
        · rw [if_pos hpar, if_neg (by omega : ¬ (jlo + 1 + 1) % 2 = 0)]
          decide
        · rw [if_neg hpar, if_pos (by omega : (jlo + 1 + 1) % 2 = 0)]
          decide
      · have hrest := ih (jlo + 1)
        rw [m3Edges] at hrest
        exact hrest

/-- Folding `ForwardPIT` over a non-decreasing list of target times keeps
a stable mode-3 square wave in phase: starting from the beginning of a
period at time `t0`, the cumulative ghost trace is exactly the
half-period boundary sequence up to the last target time, independently
of how the time span is split into calls. -/
theorem foldl_ForwardPIT_m3_stable (h : ℚ) (hh : 0 < h) (t0 : ℚ)
    (init : List DelayEntry) :
    ∀ (ts : List ℚ) (st : SpkrState) (u : ℚ),
    st.pit_mode = 3 → st.pit_mode3_counting = true →
    st.pit_half = h → st.pit_max = 2 * h →
    st.pit_new_half = h → st.pit_new_max = 2 * h →
    st.pit_output_enabled = true →
    st.last_index = u → t0 ≤ u →
    st.pit_index = (u - t0) - ⌊(u - t0) / (2 * h)⌋ * (2 * h) →
    st.log.trace = init ++ m3Edges t0 h 0 (⌊(u - t0) / h⌋.toNat) →
    List.Chain (· ≤ ·) u ts →
    (ts.foldl ForwardPIT st).log.trace =
      init ++ m3Edges t0 h 0 (⌊(lastD u ts - t0) / h⌋.toNat) ∧
    (ts.foldl ForwardPIT st).pit_index =
      (lastD u ts - t0) - ⌊(lastD u ts - t0) / (2 * h)⌋ * (2 * h) ∧
    (ts.foldl ForwardPIT st).last_index = lastD u ts := by
  intro ts
  induction ts with
  | nil =>
    intro st u _ _ _ _ _ _ _ hlast _ hidx0 htr0 _
    exact ⟨htr0, hidx0, hlast⟩
  | cons a rest ih =>
    intro st u hmode hcnt hhalf hmax hnh hnm hout hlast ht0u hidx0 htr0 hch
    rw [List.chain_cons] at hch
    obtain ⟨hua, hch2⟩ := hch
    have hh2 : (0 : ℚ) < 2 * h := by linarith
    have hne : h ≠ 0 := ne_of_gt hh
    have hne2 : (2 * h) ≠ 0 := ne_of_gt hh2
    have hi0 : 0 ≤ st.pit_index := by
      rw [hidx0]
      exact Int.sub_floor_div_mul_nonneg (u - t0) hh2
    have hi2 : st.pit_index < 2 * h := by
      rw [hidx0]
      exact Int.sub_floor_div_mul_lt (u - t0) hh2
    have hle : st.last_index ≤ a := by rw [hlast]; exact hua
    obtain ⟨htr, hidx, hhf, hmx, hls⟩ :=
      ForwardPIT_m3_stable h hh st a hmode hcnt hhalf hmax hnh hnm hout hi0 hi2 hle
    set M := ⌊(u - t0) / (2 * h)⌋ with hM
    have hcast : (M : ℚ) * (2 * h) = ((2 * M : ℤ) : ℚ) * h := by push_cast; ring
    have hsum : st.pit_index + (a - st.last_index) =
        (a - t0) - (M : ℚ) * (2 * h) := by
      rw [hidx0, hlast]; ring
    have hd1 : st.pit_index / h = (u - t0) / h - ((2 * M : ℤ) : ℚ) := by
      rw [hidx0, sub_div, hcast, mul_div_assoc, div_self hne, mul_one]
    have hj1 : ⌊st.pit_index / h⌋ = ⌊(u - t0) / h⌋ - 2 * M := by
      rw [hd1, Int.floor_sub_int]
    have hd2 : (st.pit_index + (a - st.last_index)) / h =
        (a - t0) / h - ((2 * M : ℤ) : ℚ) := by
      rw [hsum, sub_div, hcast, mul_div_assoc, div_self hne, mul_one]
    have hj2 : ⌊(st.pit_index + (a - st.last_index)) / h⌋ =
        ⌊(a - t0) / h⌋ - 2 * M := by
      rw [hd2, Int.floor_sub_int]
    have hd3 : (st.pit_index + (a - st.last_index)) / (2 * h) =
        (a - t0) / (2 * h) - (M : ℚ) := by
      rw [hsum, sub_div, mul_div_assoc, div_self hne2, mul_one]
    have hj3 : ⌊(st.pit_index + (a - st.last_index)) / (2 * h)⌋ =
        ⌊(a - t0) / (2 * h)⌋ - M := by
      rw [hd3, Int.floor_sub_int]
    have hbase : st.last_index - st.pit_index = t0 + 2 * (M : ℚ) * h := by
      rw [hlast, hidx0]; ring
    rw [hbase, hj1, hj2] at htr
    rw [show ⌊(a - t0) / h⌋ - 2 * M - (⌊(u - t0) / h⌋ - 2 * M) =
        ⌊(a - t0) / h⌋ - ⌊(u - t0) / h⌋ from by ring] at htr
    rw [m3Edges_rebase t0 h M] at htr
    rw [htr0, List.append_assoc] at htr
    have hA : ((⌊(u - t0) / h⌋.toNat : ℕ) : ℤ) = ⌊(u - t0) / h⌋ :=
      Int.toNat_of_nonneg (Int.floor_nonneg.mpr (div_nonneg (by linarith) hh.le))
    have hmono : ⌊(u - t0) / h⌋ ≤ ⌊(a - t0) / h⌋ := by
      apply Int.floor_le_floor
      gcongr
    have happ := m3Edges_append t0 h (⌊(u - t0) / h⌋.toNat)
      ((⌊(a - t0) / h⌋ - ⌊(u - t0) / h⌋).toNat) 0
    rw [show (0 : ℤ) + ((⌊(u - t0) / h⌋.toNat : ℕ) : ℤ) = ⌊(u - t0) / h⌋
      from by omega] at happ
    rw [show ⌊(u - t0) / h⌋.toNat + (⌊(a - t0) / h⌋ - ⌊(u - t0) / h⌋).toNat =
        ⌊(a - t0) / h⌋.toNat from by omega] at happ
    rw [happ] at htr
    have hidx2 : (ForwardPIT st a).pit_index =
        (a - t0) - ⌊(a - t0) / (2 * h)⌋ * (2 * h) := by
      rw [hidx, hj3, hsum]
      push_cast
      ring
    have hstep := ih (ForwardPIT st a) a
      (by rw [ForwardPIT_pit_mode]; exact hmode)
      (by rw [ForwardPIT_pit_mode3_counting]; exact hcnt)
      hhf hmx
      (by rw [ForwardPIT_pit_new_half]; exact hnh)
      (by rw [ForwardPIT_pit_new_max]; exact hnm)
      (by rw [ForwardPIT_pit_output_enabled]; exact hout)
      hls (le_trans ht0u hua) hidx2 htr hch2
    rw [List.foldl_cons, lastD_cons]
    exact hstep

/-- C2: in mode 3 with the clock gate enabled, the output enabled and a
stable period `P` milliseconds (active and staged half-periods both equal
to `P / 2`), forwarding the PIT from the start of a period at time `t0`
across any non-decreasing sequence of target times that spans `N * P`
milliseconds emits exactly `2 * N` edges — the half-period boundary
sequence `m3Edges t0 (P / 2) 0 (2 * N)` — regardless of how the span is
split into `ForwardPIT` calls; consecutive edges are exactly `P / 2`
apart and their levels alternate. -/
theorem claim_c2 (P : ℚ) (hP : 0 < P) (N : ℕ) (t0 : ℚ)
    (st : SpkrState) (ts : List ℚ)
    (hmode : st.pit_mode = 3) (hgate : st.pit_clock_gate_enabled = true)
    (hcnt : st.pit_mode3_counting = true)
    (hout : st.pit_output_enabled = true)
    (hhalf : st.pit_half = P / 2) (hmax : st.pit_max = P)
    (hnh : st.pit_new_half = P / 2) (hnm : st.pit_new_max = P)
    (hidx0 : st.pit_index = 0) (hlast : st.last_index = t0)
    (hch : List.Chain (· ≤ ·) t0 ts)
    (hspan : lastD t0 ts = t0 + (N : ℚ) * P) :
    (ts.foldl ForwardPIT st).log.trace =
      st.log.trace ++ m3Edges t0 (P / 2) 0 (2 * N) ∧
    (m3Edges t0 (P / 2) 0 (2 * N)).length = 2 * N ∧
    List.Chain' (fun a b : DelayEntry =>
      b.index = a.index + P / 2 ∧ b.output_level = -a.output_level)
      (m3Edges t0 (P / 2) 0 (2 * N)) := by
  have hh : (0 : ℚ) < P / 2 := by linarith
  have hmax2 : st.pit_max = 2 * (P / 2) := by rw [hmax]; ring
  have hnm2 : st.pit_new_max = 2 * (P / 2) := by rw [hnm]; ring
  have hidx0q : st.pit_index =
      (t0 - t0) - ⌊(t0 - t0) / (2 * (P / 2))⌋ * (2 * (P / 2)) := by
    rw [hidx0, sub_self, zero_div, Int.floor_zero]
    norm_num
  have htr0 : st.log.trace =
      st.log.trace ++ m3Edges t0 (P / 2) 0 (⌊(t0 - t0) / (P / 2)⌋.toNat) := by
    rw [sub_self, zero_div, Int.floor_zero, Int.toNat_zero, m3Edges,
      List.append_nil]
  obtain ⟨htr, h2, h3⟩ := foldl_ForwardPIT_m3_stable (P / 2) hh t0
    st.log.trace ts st t0 hmode hcnt hhalf hmax2 hnh hnm2 hout hlast le_rfl
    hidx0q htr0 hch
  have hcount : ⌊(lastD t0 ts - t0) / (P / 2)⌋.toNat = 2 * N := by
    rw [hspan]
    have h1 : (t0 + (N : ℚ) * P - t0) / (P / 2) = ((2 * N : ℕ) : ℚ) := by
      rw [div_eq_iff (ne_of_gt hh)]
      push_cast
      ring
    rw [h1, Int.floor_natCast]
    omega
  rw [hcount] at htr
  exact ⟨htr, m3Edges_length t0 (P / 2) (2 * N) 0, m3Edges_chain t0 (P / 2) (2 * N) 0⟩

/-- Witness for C2: the stable 1 ms square wave of `w2State`, forwarded
in two calls covering one full period, emits exactly its two half-period
boundary edges. -/
theorem claim_c2_witness :
    (([1/2, 1] : List ℚ).foldl ForwardPIT w2State).log.trace =
      w2State.log.trace ++ m3Edges 0 (1 / 2) 0 (2 * 1) ∧
    (m3Edges 0 (1 / 2) 0 (2 * 1)).length = 2 * 1 ∧
    List.Chain' (fun a b : DelayEntry =>
      b.index = a.index + 1 / 2 ∧ b.output_level = -a.output_level)
      (m3Edges 0 (1 / 2) 0 (2 * 1)) :=
  claim_c2 1 one_pos 1 0 w2State [1/2, 1] rfl rfl rfl rfl rfl rfl rfl rfl rfl rfl
    (List.Chain.cons (by norm_num) (List.Chain.cons (by norm_num) List.Chain.nil))
    (by rw [lastD_cons, lastD_cons, lastD_nil]; norm_num)

/-!
## Claim C4: log-level helper lemmas
-/

theorem entriesLE_mono {l : List DelayEntry} {t u : ℚ}
    (h : entriesLE l t) (htu : t ≤ u) : entriesLE l u :=
  fun e he => le_trans (h e he) htu

theorem entriesLE_append {l : List DelayEntry} {t : ℚ} (i : ℚ) (lvl : ℤ)
    (h : entriesLE l t) (hit : i ≤ t) : entriesLE (l ++ [⟨i, lvl⟩]) t := by
  intro e he
  rcases List.mem_append.mp he with h1 | h1
  · exact h e h1
  · rcases List.mem_singleton.mp h1 with rfl
    exact hit

theorem edgesOrdered_append (l : List DelayEntry) (i : ℚ) (lvl : ℤ)
    (ho : edgesOrdered l = true) (hb : entriesLE l i) :
    edgesOrdered (l ++ [⟨i, lvl⟩]) = true := by
  induction l with
  | nil => rfl
  | cons a t ih =>
    cases t with
    | nil =>
      have ha := hb a (List.mem_singleton_self a)
      simp [edgesOrdered, ha]
    | cons b t2 =>
      rw [List.cons_append, List.cons_append]
      rw [show edgesOrdered (a :: b :: (t2 ++ [(⟨i, lvl⟩ : DelayEntry)])) =
        (decide (a.index ≤ b.index) &&
          edgesOrdered (b :: (t2 ++ [(⟨i, lvl⟩ : DelayEntry)]))) from rfl]
      rw [show edgesOrdered (a :: b :: t2) =
        (decide (a.index ≤ b.index) && edgesOrdered (b :: t2)) from rfl] at ho
      rw [Bool.and_eq_true] at ho
      obtain ⟨h1, h2⟩ := ho
      have h3 := ih h2 (fun e he => hb e (List.mem_cons_of_mem a he))
      rw [List.cons_append] at h3
      rw [h1, h3]
      rfl

theorem edgesAlternating_append (l : List DelayEntry) (i : ℚ) (lvl : ℤ) :
    ∀ d : ℤ, edgesAlternating l = true → lastLevel l d ≠ lvl →
    edgesAlternating (l ++ [⟨i, lvl⟩]) = true := by
  induction l with
  | nil => intro d _ _; rfl
  | cons a t ih =>
    intro d ha hl
    cases t with
    | nil =>
      have hne : a.output_level ≠ lvl := hl
      simp [edgesAlternating, hne]
    | cons b t2 =>
      rw [List.cons_append, List.cons_append]
      rw [show edgesAlternating (a :: b :: (t2 ++ [(⟨i, lvl⟩ : DelayEntry)])) =
        (decide (a.output_level ≠ b.output_level) &&
          edgesAlternating (b :: (t2 ++ [(⟨i, lvl⟩ : DelayEntry)]))) from rfl]
      rw [show edgesAlternating (a :: b :: t2) =
        (decide (a.output_level ≠ b.output_level) &&
          edgesAlternating (b :: t2)) from rfl] at ha
      rw [Bool.and_eq_true] at ha
      obtain ⟨h1, h2⟩ := ha
      have h3 := ih a.output_level h2 hl
      rw [List.cons_append] at h3
      rw [h1, h3]
      rfl

theorem lastLevel_append (l : List DelayEntry) (i : ℚ) (lvl : ℤ) :
    ∀ d : ℤ, lastLevel (l ++ [⟨i, lvl⟩]) d = lvl := by
  induction l with
  | nil => intro d; rfl
  | cons a t ih => intro d; exact ih a.output_level

theorem ord_AddDelayEntry (log : LogState) (i : ℚ) (lvl : ℤ)
    (ho : edgesOrdered log.entries = true) (hb : entriesLE log.entries i) :
    edgesOrdered (AddDelayEntry log i lvl).entries = true ∧
    entriesLE (AddDelayEntry log i lvl).entries i := by
  rw [AddDelayEntry_entries]
  split
  · exact ⟨ho, hb⟩
  · split
    · exact ⟨ho, hb⟩
    · exact ⟨edgesOrdered_append _ _ _ ho hb, entriesLE_append i lvl hb le_rfl⟩

theorem altLog_AddDelayEntry (log : LogState) (i : ℚ) (lvl : ℤ)
    (h : AltLog log) : AltLog (AddDelayEntry log i lvl) := by
  obtain ⟨ha, hlen, hlast⟩ := h
  refine ⟨?_, ?_, ?_⟩ <;> rw [AddDelayEntry_entries]
  · split
    · exact ha
    · split
      · exact ha
      · rename_i hne hfull
        refine edgesAlternating_append _ _ _ log.prev_output_level ha ?_
        have hlt : log.entries.length < SPKR_ENTRIES := lt_of_le_of_ne hlen hfull
        rw [hlast hlt]
        exact fun hc => hne hc.symm
  · split
    · exact hlen
    · split
      · exact hlen
      · rename_i hne hfull
        rw [List.length_append, List.length_singleton]
        omega
  · split
    · rw [AddDelayEntry_prev]
      rename_i heq
      rw [heq]
      exact hlast
    · split
      · rename_i hne hfull
        intro hlt
        rw [hfull] at hlt
        exact absurd hlt (lt_irrefl _)
      · intro _
        rw [AddDelayEntry_prev]
        exact lastLevel_append _ _ _ _

theorem ord_logIf (c : Bool) (log : LogState) (i : ℚ) (lvl : ℤ)
    (ho : edgesOrdered log.entries = true) (hb : entriesLE log.entries i) :
    edgesOrdered (if c = true then AddDelayEntry log i lvl else log).entries = true ∧
    entriesLE (if c = true then AddDelayEntry log i lvl else log).entries i := by
  split
  · exact ord_AddDelayEntry log i lvl ho hb
  · exact ⟨ho, hb⟩

theorem altLog_logIf (c : Bool) (log : LogState) (i : ℚ) (lvl : ℤ)
    (h : AltLog log) : AltLog (if c = true then AddDelayEntry log i lvl else log) := by
  split
  · exact altLog_AddDelayEntry log i lvl h
  · exact h

theorem AddPITOutput_pit_index (st : SpkrState) (i : ℚ) :
    (AddPITOutput st i).pit_index = st.pit_index := by
  rw [AddPITOutput_eq]

theorem AddPITOutput_pit_half (st : SpkrState) (i : ℚ) :
    (AddPITOutput st i).pit_half = st.pit_half := by
  rw [AddPITOutput_eq]

theorem AddPITOutput_pit_max (st : SpkrState) (i : ℚ) :
    (AddPITOutput st i).pit_max = st.pit_max := by
  rw [AddPITOutput_eq]

/-!
## Claim C4: one-iteration unfoldings of the mode-2/3 loops
-/

theorem m2loop_stop (f : ℕ) (st : SpkrState) (db p : ℚ) (hp : ¬ 0 < p) :
    forwardMode2Loop (f + 1) st db p = st := by
  simp only [forwardMode2Loop]
  rw [if_neg hp]

theorem m2loop_high_cross_gen (f : ℕ) (st : SpkrState) (db p : ℚ)
    (hp : 0 < p) (hbr : st.pit_half ≤ st.pit_index)
    (hcr : st.pit_max ≤ st.pit_index + p) :
    forwardMode2Loop (f + 1) st db p =
      forwardMode2Loop f
        { st with pit_output_level := SPKR_NEGATIVE_LEVEL,
                  log := if st.pit_output_enabled = true then
                      AddDelayEntry st.log (db + (st.pit_max - st.pit_index))
                        SPKR_NEGATIVE_LEVEL
                    else st.log,
                  pit_index := 0 }
        (db + (st.pit_max - st.pit_index)) (p - (st.pit_max - st.pit_index)) := by
  simp only [forwardMode2Loop]
  rw [if_pos hp, if_pos hbr, if_pos hcr, AddPITOutput_eq]

theorem m2loop_high_nocross (f : ℕ) (st : SpkrState) (db p : ℚ)
    (hp : 0 < p) (hbr : st.pit_half ≤ st.pit_index)
    (hcr : ¬ st.pit_max ≤ st.pit_index + p) :
    forwardMode2Loop (f + 1) st db p = { st with pit_index := st.pit_index + p } := by
  simp only [forwardMode2Loop]
  rw [if_pos hp, if_pos hbr, if_neg hcr]

theorem m2loop_low_cross_gen (f : ℕ) (st : SpkrState) (db p : ℚ)
    (hp : 0 < p) (hbr : ¬ st.pit_half ≤ st.pit_index)
    (hcr : st.pit_half ≤ st.pit_index + p) :
    forwardMode2Loop (f + 1) st db p =
      forwardMode2Loop f
        { st with pit_output_level := SPKR_POSITIVE_LEVEL,
                  log := if st.pit_output_enabled = true then
                      AddDelayEntry st.log (db + (st.pit_half - st.pit_index))
                        SPKR_POSITIVE_LEVEL
                    else st.log,
                  pit_index := st.pit_half }
        (db + (st.pit_half - st.pit_index)) (p - (st.pit_half - st.pit_index)) := by
  simp only [forwardMode2Loop]
  rw [if_pos hp, if_neg hbr, if_pos hcr, AddPITOutput_eq]

theorem m2loop_low_nocross (f : ℕ) (st : SpkrState) (db p : ℚ)
    (hp : 0 < p) (hbr : ¬ st.pit_half ≤ st.pit_index)
    (hcr : ¬ st.pit_half ≤ st.pit_index + p) :
    forwardMode2Loop (f + 1) st db p = { st with pit_index := st.pit_index + p } := by
  simp only [forwardMode2Loop]
  rw [if_pos hp, if_neg hbr, if_neg hcr]

theorem m3loop_high_cross_gen (f : ℕ) (st : SpkrState) (db p : ℚ)
    (hp : 0 < p) (hbr : st.pit_half ≤ st.pit_index)
    (hcr : st.pit_max ≤ st.pit_index + p) :
    forwardMode3Loop (f + 1) st db p =
      forwardMode3Loop f
        { st with pit_output_level := SPKR_POSITIVE_LEVEL,
                  log := if st.pit_output_enabled = true then
                      AddDelayEntry st.log (db + (st.pit_max - st.pit_index))
                        SPKR_POSITIVE_LEVEL
                    else st.log,
                  pit_index := 0,
                  pit_half := st.pit_new_half,
                  pit_max := st.pit_new_max }
        (db + (st.pit_max - st.pit_index)) (p - (st.pit_max - st.pit_index)) := by
  simp only [forwardMode3Loop]
  rw [if_pos hp, if_pos hbr, if_pos hcr, AddPITOutput_eq]

theorem m3loop_low_cross_gen (f : ℕ) (st : SpkrState) (db p : ℚ)
    (hp : 0 < p) (hbr : ¬ st.pit_half ≤ st.pit_index)
    (hcr : st.pit_half ≤ st.pit_index + p) :
    forwardMode3Loop (f + 1) st db p =
      forwardMode3Loop f
        { st with pit_output_level := SPKR_NEGATIVE_LEVEL,
                  log := if st.pit_output_enabled = true then
                      AddDelayEntry st.log (db + (st.pit_half - st.pit_index))
                        SPKR_NEGATIVE_LEVEL
                    else st.log,
                  pit_index := st.pit_half,
                  pit_half := st.pit_new_half,
                  pit_max := st.pit_new_max }
        (db + (st.pit_half - st.pit_index)) (p - (st.pit_half - st.pit_index)) := by
  simp only [forwardMode3Loop]
  rw [if_pos hp, if_neg hbr, if_pos hcr, AddPITOutput_eq]

/-!
## Claim C4: log preservation through the mode-2/3 loops
-/

theorem alt_m2loop : ∀ (fuel : ℕ) (st : SpkrState) (db p : ℚ),
    AltLog st.log → AltLog (forwardMode2Loop fuel st db p).log := by
  intro fuel
  induction fuel with
  | zero => intro st db p h; exact h
  | succ f ih =>
    intro st db p h
    by_cases hpp : 0 < p
    case neg =>
      rw [m2loop_stop f st db p hpp]
      exact h
    case pos =>
      by_cases hbr : st.pit_half ≤ st.pit_index
      · by_cases hcr : st.pit_max ≤ st.pit_index + p
        · rw [m2loop_high_cross_gen f st db p hpp hbr hcr]
          exact ih _ _ _ (altLog_logIf _ _ _ _ h)
        · rw [m2loop_high_nocross f st db p hpp hbr hcr]
          exact h
      · by_cases hcr : st.pit_half ≤ st.pit_index + p
        · rw [m2loop_low_cross_gen f st db p hpp hbr hcr]
          exact ih _ _ _ (altLog_logIf _ _ _ _ h)
        · rw [m2loop_low_nocross f st db p hpp hbr hcr]
          exact h

theorem alt_m3loop : ∀ (fuel : ℕ) (st : SpkrState) (db p : ℚ),
    AltLog st.log → AltLog (forwardMode3Loop fuel st db p).log := by
  intro fuel
  induction fuel with
  | zero => intro st db p h; exact h
  | succ f ih =>
    intro st db p h
    by_cases hpp : 0 < p
    case neg =>
      rw [m3loop_stop f st db p hpp]
      exact h
    case pos =>
      by_cases hbr : st.pit_half ≤ st.pit_index
      · by_cases hcr : st.pit_max ≤ st.pit_index + p
        · rw [m3loop_high_cross_gen f st db p hpp hbr hcr]
          exact ih _ _ _ (altLog_logIf _ _ _ _ h)
        · rw [m3loop_high_nocross f st db p hpp hbr hcr]
          exact h
      · by_cases hcr : st.pit_half ≤ st.pit_index + p
        · rw [m3loop_low_cross_gen f st db p hpp hbr hcr]
          exact ih _ _ _ (altLog_logIf _ _ _ _ h)
        · rw [m3loop_low_nocross f st db p hpp hbr hcr]
          exact h

theorem ord_m2loop : ∀ (fuel : ℕ) (st : SpkrState) (db p : ℚ),
    0 ≤ st.pit_index → st.pit_index ≤ st.pit_max → st.pit_half ≤ st.pit_max →
    0 ≤ p →
    edgesOrdered st.log.entries = true → entriesLE st.log.entries db →
    edgesOrdered (forwardMode2Loop fuel st db p).log.entries = true ∧
    entriesLE (forwardMode2Loop fuel st db p).log.entries (db + p) ∧
    0 ≤ (forwardMode2Loop fuel st db p).pit_index ∧
    (forwardMode2Loop fuel st db p).pit_index ≤
      (forwardMode2Loop fuel st db p).pit_max ∧
    (forwardMode2Loop fuel st db p).pit_half = st.pit_half ∧
    (forwardMode2Loop fuel st db p).pit_max = st.pit_max := by
  intro fuel
  induction fuel with
  | zero =>
    intro st db p h1 h2 h3 hp ho hb
    exact ⟨ho, entriesLE_mono hb (by linarith), h1, h2, rfl, rfl⟩
  | succ f ih =>
    intro st db p h1 h2 h3 hp ho hb
    by_cases hpp : 0 < p
    case neg =>
      rw [m2loop_stop f st db p hpp]
      exact ⟨ho, entriesLE_mono hb (by linarith), h1, h2, rfl, rfl⟩
    case pos =>
      by_cases hbr : st.pit_half ≤ st.pit_index
      · by_cases hcr : st.pit_max ≤ st.pit_index + p
        · rw [m2loop_high_cross_gen f st db p hpp hbr hcr]
          obtain ⟨hoI, hbI⟩ := ord_logIf st.pit_output_enabled st.log
            (db + (st.pit_max - st.pit_index)) SPKR_NEGATIVE_LEVEL ho
            (entriesLE_mono hb (by linarith))
          obtain ⟨c1, c2, c3, c4, c5, c6⟩ := ih
            { st with
                pit_output_level := SPKR_NEGATIVE_LEVEL
                log := if st.pit_output_enabled = true then
                    AddDelayEntry st.log (db + (st.pit_max - st.pit_index))
                      SPKR_NEGATIVE_LEVEL
                  else st.log
                pit_index := 0 }
            (db + (st.pit_max - st.pit_index)) (p - (st.pit_max - st.pit_index))
            le_rfl (by show (0 : ℚ) ≤ st.pit_max; linarith) h3
            (by show (0 : ℚ) ≤ p - (st.pit_max - st.pit_index); linarith)
            hoI hbI
          rw [show db + (st.pit_max - st.pit_index) +
            (p - (st.pit_max - st.pit_index)) = db + p from by ring] at c2
          exact ⟨c1, c2, c3, c4, c5, c6⟩
        · rw [m2loop_high_nocross f st db p hpp hbr hcr]
          refine ⟨ho, entriesLE_mono hb (by linarith), ?_, ?_, rfl, rfl⟩
          · show (0 : ℚ) ≤ st.pit_index + p
            linarith
          · show st.pit_index + p ≤ st.pit_max
            linarith [not_le.mp hcr]
      · by_cases hcr : st.pit_half ≤ st.pit_index + p
        · rw [m2loop_low_cross_gen f st db p hpp hbr hcr]
          have hih : (0 : ℚ) ≤ st.pit_half := by linarith [not_le.mp hbr]
          obtain ⟨hoI, hbI⟩ := ord_logIf st.pit_output_enabled st.log
            (db + (st.pit_half - st.pit_index)) SPKR_POSITIVE_LEVEL ho
            (entriesLE_mono hb (by linarith [not_le.mp hbr]))
          obtain ⟨c1, c2, c3, c4, c5, c6⟩ := ih
            { st with
                pit_output_level := SPKR_POSITIVE_LEVEL
                log := if st.pit_output_enabled = true then
                    AddDelayEntry st.log (db + (st.pit_half - st.pit_index))
                      SPKR_POSITIVE_LEVEL
                  else st.log
                pit_index := st.pit_half }
            (db + (st.pit_half - st.pit_index)) (p - (st.pit_half - st.pit_index))
            hih h3 h3
            (by show (0 : ℚ) ≤ p - (st.pit_half - st.pit_index); linarith)
            hoI hbI
          rw [show db + (st.pit_half - st.pit_index) +
            (p - (st.pit_half - st.pit_index)) = db + p from by ring] at c2
          exact ⟨c1, c2, c3, c4, c5, c6⟩
        · rw [m2loop_low_nocross f st db p hpp hbr hcr]
          refine ⟨ho, entriesLE_mono hb (by linarith), ?_, ?_, rfl, rfl⟩
          · show (0 : ℚ) ≤ st.pit_index + p
            linarith
          · show st.pit_index + p ≤ st.pit_max
            linarith [not_le.mp hcr]

theorem ord_m3loop : ∀ (fuel : ℕ) (st : SpkrState) (db p : ℚ),
    0 ≤ st.pit_index → st.pit_index ≤ st.pit_max → st.pit_half ≤ st.pit_max →
    st.pit_half ≤ st.pit_new_max → 0 < st.pit_new_max →
    st.pit_new_half = st.pit_new_max / 2 → 0 ≤ p →
    edgesOrdered st.log.entries = true → entriesLE st.log.entries db →
    edgesOrdered (forwardMode3Loop fuel st db p).log.entries = true ∧
    entriesLE (forwardMode3Loop fuel st db p).log.entries (db + p) ∧
    0 ≤ (forwardMode3Loop fuel st db p).pit_index ∧
    (forwardMode3Loop fuel st db p).pit_index ≤
      (forwardMode3Loop fuel st db p).pit_max ∧
    (forwardMode3Loop fuel st db p).pit_half ≤
      (forwardMode3Loop fuel st db p).pit_max ∧
    (forwardMode3Loop fuel st db p).pit_half ≤ st.pit_new_max ∧
    ((forwardMode3Loop fuel st db p).pit_half = st.pit_half ∨
      (forwardMode3Loop fuel st db p).pit_half = st.pit_new_half) := by
  intro fuel
  induction fuel with
  | zero =>
    intro st db p h1 h2 h3 h4 h5 h6 hp ho hb
    exact ⟨ho, entriesLE_mono hb (by linarith), h1, h2, h3, h4, Or.inl rfl⟩
  | succ f ih =>
    intro st db p h1 h2 h3 h4 h5 h6 hp ho hb
    by_cases hpp : 0 < p
    case neg =>
      rw [m3loop_stop f st db p hpp]
      exact ⟨ho, entriesLE_mono hb (by linarith), h1, h2, h3, h4, Or.inl rfl⟩
    case pos =>
      by_cases hbr : st.pit_half ≤ st.pit_index
      · by_cases hcr : st.pit_max ≤ st.pit_index + p
        · rw [m3loop_high_cross_gen f st db p hpp hbr hcr]
          obtain ⟨hoI, hbI⟩ := ord_logIf st.pit_output_enabled st.log
            (db + (st.pit_max - st.pit_index)) SPKR_POSITIVE_LEVEL ho
            (entriesLE_mono hb (by linarith))
          obtain ⟨c1, c2, c3, c4, c5, c6, c7⟩ := ih
            { st with
                pit_output_level := SPKR_POSITIVE_LEVEL
                log := if st.pit_output_enabled = true then
                    AddDelayEntry st.log (db + (st.pit_max - st.pit_index))
                      SPKR_POSITIVE_LEVEL
                  else st.log
                pit_index := 0
                pit_half := st.pit_new_half
                pit_max := st.pit_new_max }
            (db + (st.pit_max - st.pit_index)) (p - (st.pit_max - st.pit_index))
            le_rfl (by show (0 : ℚ) ≤ st.pit_new_max; linarith)
            (by show st.pit_new_half ≤ st.pit_new_max; rw [h6]; linarith)
            (by show st.pit_new_half ≤ st.pit_new_max; rw [h6]; linarith)
            h5 h6
            (by show (0 : ℚ) ≤ p - (st.pit_max - st.pit_index); linarith)
            hoI hbI
          rw [show db + (st.pit_max - st.pit_index) +
            (p - (st.pit_max - st.pit_index)) = db + p from by ring] at c2
          refine ⟨c1, c2, c3, c4, c5, c6, ?_⟩
          rcases c7 with h | h
          · exact Or.inr h
          · exact Or.inr h
        · rw [m3loop_high_nocross f st db p hpp hbr hcr]
          refine ⟨ho, entriesLE_mono hb (by linarith), ?_, ?_, h3, h4, Or.inl rfl⟩
          · show (0 : ℚ) ≤ st.pit_index + p
            linarith
          · show st.pit_index + p ≤ st.pit_max
            linarith [not_le.mp hcr]
      · by_cases hcr : st.pit_half ≤ st.pit_index + p
        · rw [m3loop_low_cross_gen f st db p hpp hbr hcr]
          have hih : (0 : ℚ) ≤ st.pit_half := by linarith [not_le.mp hbr]
          obtain ⟨hoI, hbI⟩ := ord_logIf st.pit_output_enabled st.log
            (db + (st.pit_half - st.pit_index)) SPKR_NEGATIVE_LEVEL ho
            (entriesLE_mono hb (by linarith [not_le.mp hbr]))
          obtain ⟨c1, c2, c3, c4, c5, c6, c7⟩ := ih
            { st with
                pit_output_level := SPKR_NEGATIVE_LEVEL
                log := if st.pit_output_enabled = true then
                    AddDelayEntry st.log (db + (st.pit_half - st.pit_index))
                      SPKR_NEGATIVE_LEVEL
                  else st.log
                pit_index := st.pit_half
                pit_half := st.pit_new_half
                pit_max := st.pit_new_max }
            (db + (st.pit_half - st.pit_index)) (p - (st.pit_half - st.pit_index))
            hih h4
            (by show st.pit_new_half ≤ st.pit_new_max; rw [h6]; linarith)
            (by show st.pit_new_half ≤ st.pit_new_max; rw [h6]; linarith)
            h5 h6
            (by show (0 : ℚ) ≤ p - (st.pit_half - st.pit_index); linarith)
            hoI hbI
          rw [show db + (st.pit_half - st.pit_index) +
            (p - (st.pit_half - st.pit_index)) = db + p from by ring] at c2
          refine ⟨c1, c2, c3, c4, c5, c6, ?_⟩
          rcases c7 with h | h
          · exact Or.inr h
          · exact Or.inr h
        · rw [m3loop_low_nocross f st db p hpp hbr hcr]
          refine ⟨ho, entriesLE_mono hb (by linarith), ?_, ?_, h3, h4, Or.inl rfl⟩
          · show (0 : ℚ) ≤ st.pit_index + p
            linarith
          · show st.pit_index + p ≤ st.pit_max
            linarith [not_le.mp hcr, not_le.mp hbr]

/-!
## Claim C4: log preservation through the one-shot modes and `ForwardPIT`
-/

theorem forwardMode0_pit_half (st : SpkrState) (db p : ℚ) :
    (forwardMode0 st db p).pit_half = st.pit_half := by
  unfold forwardMode0
  dsimp only
  split
  · rfl
  · split
    · rw [AddPITOutput_pit_half]
    · rfl

theorem forwardMode1_pit_half (st : SpkrState) (db p : ℚ) :
    (forwardMode1 st db p).pit_half = st.pit_half := by
  unfold forwardMode1
  dsimp only
  split
  · rfl
  · split
    · rfl
    · split
      · rfl
      · split
        · rw [AddPITOutput_pit_half]
        · rfl

theorem forwardMode4_pit_half (st : SpkrState) (db p : ℚ) :
    (forwardMode4 st db p).pit_half = st.pit_half := by
  unfold forwardMode4
  dsimp only
  split
  · split
    · rw [AddPITOutput_pit_half]
    · rfl
  · rfl

theorem alt_forwardMode0 (st : SpkrState) (db p : ℚ) (h : AltLog st.log) :
    AltLog (forwardMode0 st db p).log := by
  unfold forwardMode0
  dsimp only
  split
  · exact h
  · split
    · rw [AddPITOutput_log]
      exact altLog_logIf _ _ _ _ h
    · exact h

theorem alt_forwardMode1 (st : SpkrState) (db p : ℚ) (h : AltLog st.log) :
    AltLog (forwardMode1 st db p).log := by
  unfold forwardMode1
  dsimp only
  split
  · exact h
  · split
    · exact h
    · split
      · exact h
      · split
        · rw [AddPITOutput_log]
          exact altLog_logIf _ _ _ _ h
        · exact h

theorem alt_forwardMode4 (st : SpkrState) (db p : ℚ) (h : AltLog st.log) :
    AltLog (forwardMode4 st db p).log := by
  unfold forwardMode4
  dsimp only
  split
  · split
    · rw [AddPITOutput_log]
      exact altLog_logIf _ _ _ _ h
    · exact h
  · exact h

theorem ord_forwardMode0 (st : SpkrState) (db p : ℚ) (hp : 0 ≤ p)
    (ho : edgesOrdered st.log.entries = true) (hb : entriesLE st.log.entries db) :
    edgesOrdered (forwardMode0 st db p).log.entries = true ∧
    entriesLE (forwardMode0 st db p).log.entries (db + p) := by
  unfold forwardMode0
  dsimp only
  split
  · exact ⟨ho, entriesLE_mono hb (by linarith)⟩
  · rename_i hnc
    split
    · rename_i hcr
      rw [AddPITOutput_log]
      obtain ⟨o1, o2⟩ := ord_logIf st.pit_output_enabled st.log
        (db + st.pit_max - (st.pit_index + p) + p) SPKR_POSITIVE_LEVEL ho
        (entriesLE_mono hb (by linarith [not_le.mp hnc]))
      exact ⟨o1, entriesLE_mono o2 (by linarith)⟩
    · exact ⟨ho, entriesLE_mono hb (by linarith)⟩

theorem ord_forwardMode1 (st : SpkrState) (db p : ℚ) (hp : 0 ≤ p)
    (ho : edgesOrdered st.log.entries = true) (hb : entriesLE st.log.entries db) :
    edgesOrdered (forwardMode1 st db p).log.entries = true ∧
    entriesLE (forwardMode1 st db p).log.entries (db + p) := by
  unfold forwardMode1
  dsimp only
  split
  · exact ⟨ho, entriesLE_mono hb (by linarith)⟩
  · split
    · exact ⟨ho, entriesLE_mono hb (by linarith)⟩
    · rename_i hnc
      split
      · exact ⟨ho, entriesLE_mono hb (by linarith)⟩
      · rename_i hnc2
        split
        · rename_i hcr
          rw [AddPITOutput_log]
          obtain ⟨o1, o2⟩ := ord_logIf st.pit_output_enabled st.log
            (db + st.pit_max - (st.pit_index + p) + p) SPKR_POSITIVE_LEVEL ho
            (entriesLE_mono hb (by linarith [not_le.mp hnc2]))
          exact ⟨o1, entriesLE_mono o2 (by linarith)⟩
        · exact ⟨ho, entriesLE_mono hb (by linarith)⟩

theorem ord_forwardMode4 (st : SpkrState) (db p : ℚ) (hp : 0 ≤ p)
    (ho : edgesOrdered st.log.entries = true) (hb : entriesLE st.log.entries db) :
    edgesOrdered (forwardMode4 st db p).log.entries = true ∧
    entriesLE (forwardMode4 st db p).log.entries (db + p) := by
  unfold forwardMode4
  dsimp only
  split
  · rename_i hlt
    split
    · rename_i hcr
      rw [AddPITOutput_log]
      obtain ⟨o1, o2⟩ := ord_logIf st.pit_output_enabled st.log
        (db + (st.pit_max - st.pit_index)) SPKR_NEGATIVE_LEVEL ho
        (entriesLE_mono hb (by linarith))
      exact ⟨o1, entriesLE_mono o2 (by linarith)⟩
    · exact ⟨ho, entriesLE_mono hb (by linarith)⟩
  · exact ⟨ho, entriesLE_mono hb (by linarith)⟩

theorem alt_ForwardPIT (st : SpkrState) (t : ℚ) (h : AltLog st.log) :
    AltLog (ForwardPIT st t).log := by
  unfold ForwardPIT
  dsimp only
  split
  · exact h
  · split
    · exact alt_forwardMode0 _ _ _ h
    · split
      · exact alt_forwardMode1 _ _ _ h
      · split
        · exact alt_m2loop _ _ _ _ h
        · split
          · split
            · exact alt_m3loop _ _ _ _ h
            · exact h
          · split
            · exact alt_forwardMode4 _ _ _ h
            · exact h

theorem ord_ForwardPIT (st : SpkrState) (t : ℚ)
    (ho : edgesOrdered st.log.entries = true)
    (hb : entriesLE st.log.entries st.last_index)
    (hle : st.last_index ≤ t)
    (hm2 : st.pit_mode = 2 →
      0 ≤ st.pit_index ∧ st.pit_index ≤ st.pit_max ∧ st.pit_half ≤ st.pit_max)
    (hm3 : st.pit_mode = 3 ∧ st.pit_mode3_counting = true →
      0 ≤ st.pit_index ∧ st.pit_index ≤ st.pit_max ∧ st.pit_half ≤ st.pit_max ∧
        st.pit_half ≤ st.pit_new_max)
    (hnm : 0 < st.pit_new_max) (hnh : st.pit_new_half = st.pit_new_max / 2) :
    edgesOrdered (ForwardPIT st t).log.entries = true ∧
    entriesLE (ForwardPIT st t).log.entries t ∧
    ((ForwardPIT st t).pit_half = st.pit_half ∨
      (ForwardPIT st t).pit_half = st.pit_new_half) ∧
    (st.pit_mode = 2 →
      0 ≤ (ForwardPIT st t).pit_index ∧
      (ForwardPIT st t).pit_index ≤ (ForwardPIT st t).pit_max ∧
      (ForwardPIT st t).pit_half ≤ (ForwardPIT st t).pit_max) ∧
    (st.pit_mode = 3 ∧ st.pit_mode3_counting = true →
      0 ≤ (ForwardPIT st t).pit_index ∧
      (ForwardPIT st t).pit_index ≤ (ForwardPIT st t).pit_max ∧
      (ForwardPIT st t).pit_half ≤ (ForwardPIT st t).pit_max ∧
      (ForwardPIT st t).pit_half ≤ st.pit_new_max) := by
  unfold ForwardPIT
  dsimp only
  by_cases h6 : st.pit_mode = 6
  · rw [if_pos h6]
    exact ⟨ho, entriesLE_mono hb hle, Or.inl rfl, fun hm => hm2 hm, fun hm => hm3 hm⟩
  · rw [if_neg h6]
    by_cases h0 : st.pit_mode = 0
    · rw [if_pos h0]
      obtain ⟨o1, o2⟩ := ord_forwardMode0 { st with last_index := t }
        st.last_index (t - st.last_index) (by linarith) ho hb
      rw [show st.last_index + (t - st.last_index) = t from by ring] at o2
      exact ⟨o1, o2, Or.inl (forwardMode0_pit_half _ _ _),
        fun hm => absurd (h0.symm.trans hm) (by decide),
        fun hm => absurd (h0.symm.trans hm.1) (by decide)⟩
    · rw [if_neg h0]
      by_cases h1m : st.pit_mode = 1
      · rw [if_pos h1m]
        obtain ⟨o1, o2⟩ := ord_forwardMode1 { st with last_index := t }
          st.last_index (t - st.last_index) (by linarith) ho hb
        rw [show st.last_index + (t - st.last_index) = t from by ring] at o2
        exact ⟨o1, o2, Or.inl (forwardMode1_pit_half _ _ _),
          fun hm => absurd (h1m.symm.trans hm) (by decide),
          fun hm => absurd (h1m.symm.trans hm.1) (by decide)⟩
      · rw [if_neg h1m]
        by_cases h2m : st.pit_mode = 2
        · rw [if_pos h2m]
          obtain ⟨hA, hB, hC⟩ := hm2 h2m
          obtain ⟨c1, c2, c3, c4, c5, c6⟩ := ord_m2loop
            (loopFuel st.pit_index (t - st.last_index) st.pit_half st.pit_new_half)
            { st with last_index := t } st.last_index (t - st.last_index)
            hA hB hC (by linarith) ho hb
          rw [show st.last_index + (t - st.last_index) = t from by ring] at c2
          refine ⟨c1, c2, Or.inl c5, fun _ => ⟨c3, c4, ?_⟩,
            fun hm => absurd (h2m.symm.trans hm.1) (by decide)⟩
          rw [c5, c6]
          exact hC
        · rw [if_neg h2m]
          by_cases h3m : st.pit_mode = 3
          · rw [if_pos h3m]
            by_cases hcnt : st.pit_mode3_counting = true
            · rw [if_pos hcnt]
              obtain ⟨hA, hB, hC, hD⟩ := hm3 ⟨h3m, hcnt⟩
              obtain ⟨c1, c2, c3, c4, c5, c6, c7⟩ := ord_m3loop
                (loopFuel st.pit_index (t - st.last_index) st.pit_half
                  st.pit_new_half)
                { st with last_index := t } st.last_index (t - st.last_index)
                hA hB hC hD hnm hnh (by linarith) ho hb
              rw [show st.last_index + (t - st.last_index) = t from by ring] at c2
              exact ⟨c1, c2, c7,
                fun hm => absurd (h3m.symm.trans hm) (by decide),
                fun _ => ⟨c3, c4, c5, c6⟩⟩
            · rw [if_neg hcnt]
              exact ⟨ho, entriesLE_mono hb hle, Or.inl rfl,
                fun hm => hm2 hm, fun hm => hm3 hm⟩
          · rw [if_neg h3m]
            by_cases h4m : st.pit_mode = 4
            · rw [if_pos h4m]
              obtain ⟨o1, o2⟩ := ord_forwardMode4 { st with last_index := t }
                st.last_index (t - st.last_index) (by linarith) ho hb
              rw [show st.last_index + (t - st.last_index) = t from by ring] at o2
              exact ⟨o1, o2, Or.inl (forwardMode4_pit_half _ _ _),
                fun hm => absurd (h4m.symm.trans hm) (by decide),
                fun hm => absurd (h4m.symm.trans hm.1) (by decide)⟩
            · rw [if_neg h4m]
              exact ⟨ho, entriesLE_mono hb hle, Or.inl rfl,
                fun hm => hm2 hm, fun hm => hm3 hm⟩

/-!
## Claim C4: projection lemmas for the remaining engine steps
-/

theorem AddPITOutput_last_index (st : SpkrState) (i : ℚ) :
    (AddPITOutput st i).last_index = st.last_index := by
  rw [AddPITOutput_eq]

theorem AddPITOutput_pit_mode (st : SpkrState) (i : ℚ) :
    (AddPITOutput st i).pit_mode = st.pit_mode := by
  rw [AddPITOutput_eq]

theorem AddPITOutput_pit_mode3_counting (st : SpkrState) (i : ℚ) :
    (AddPITOutput st i).pit_mode3_counting = st.pit_mode3_counting := by
  rw [AddPITOutput_eq]

theorem AddPITOutput_pit_new_half (st : SpkrState) (i : ℚ) :
    (AddPITOutput st i).pit_new_half = st.pit_new_half := by
  rw [AddPITOutput_eq]

theorem AddPITOutput_pit_new_max (st : SpkrState) (i : ℚ) :
    (AddPITOutput st i).pit_new_max = st.pit_new_max := by
  rw [AddPITOutput_eq]

theorem AddPITOutput_minimum_counter (st : SpkrState) (i : ℚ) :
    (AddPITOutput st i).minimum_counter = st.minimum_counter := by
  rw [AddPITOutput_eq]

theorem add_impulse_state (st : SpkrState) (i a : ℚ) :
    (add_impulse st i a).pit_mode = st.pit_mode ∧
    (add_impulse st i a).pit_mode3_counting = st.pit_mode3_counting ∧
    (add_impulse st i a).pit_index = st.pit_index ∧
    (add_impulse st i a).pit_half = st.pit_half ∧
    (add_impulse st i a).pit_max = st.pit_max ∧
    (add_impulse st i a).pit_new_half = st.pit_new_half ∧
    (add_impulse st i a).pit_new_max = st.pit_new_max ∧
    (add_impulse st i a).minimum_counter = st.minimum_counter ∧
    (add_impulse st i a).last_index = st.last_index := by
  unfold add_impulse
  exact ⟨rfl, rfl, rfl, rfl, rfl, rfl, rfl, rfl, rfl⟩

theorem foldl_add_impulse_state (l : List DelayEntry) : ∀ st : SpkrState,
    (l.foldl (fun s e =>
      add_impulse s (clampQ e.index 0 1) (e.output_level : ℚ)) st).pit_mode =
        st.pit_mode ∧
    (l.foldl (fun s e =>
      add_impulse s (clampQ e.index 0 1) (e.output_level : ℚ)) st).pit_mode3_counting =
        st.pit_mode3_counting ∧
    (l.foldl (fun s e =>
      add_impulse s (clampQ e.index 0 1) (e.output_level : ℚ)) st).pit_index =
        st.pit_index ∧
    (l.foldl (fun s e =>
      add_impulse s (clampQ e.index 0 1) (e.output_level : ℚ)) st).pit_half =
        st.pit_half ∧
    (l.foldl (fun s e =>
      add_impulse s (clampQ e.index 0 1) (e.output_level : ℚ)) st).pit_max =
        st.pit_max ∧
    (l.foldl (fun s e =>
      add_impulse s (clampQ e.index 0 1) (e.output_level : ℚ)) st).pit_new_half =
        st.pit_new_half ∧
    (l.foldl (fun s e =>
      add_impulse s (clampQ e.index 0 1) (e.output_level : ℚ)) st).pit_new_max =
        st.pit_new_max ∧
    (l.foldl (fun s e =>
      add_impulse s (clampQ e.index 0 1) (e.output_level : ℚ)) st).minimum_counter =
        st.minimum_counter ∧
    (l.foldl (fun s e =>
      add_impulse s (clampQ e.index 0 1) (e.output_level : ℚ)) st).last_index =
        st.last_index := by
  induction l with
  | nil =>
    intro st
    exact ⟨rfl, rfl, rfl, rfl, rfl, rfl, rfl, rfl, rfl⟩
  | cons e rest ih =>
    intro st
    rw [List.foldl_cons]
    obtain ⟨i1, i2, i3, i4, i5, i6, i7, i8, i9⟩ :=
      ih (add_impulse st (clampQ e.index 0 1) (e.output_level : ℚ))
    obtain ⟨a1, a2, a3, a4, a5, a6, a7, a8, a9⟩ :=
      add_impulse_state st (clampQ e.index 0 1) (e.output_level : ℚ)
    exact ⟨i1.trans a1, i2.trans a2, i3.trans a3, i4.trans a4, i5.trans a5,
      i6.trans a6, i7.trans a7, i8.trans a8, i9.trans a9⟩

theorem spkrTickDrain_state (st : SpkrState) :
    (spkrTickDrain st).pit_mode = (ForwardPIT st 1).pit_mode ∧
    (spkrTickDrain st).pit_mode3_counting = (ForwardPIT st 1).pit_mode3_counting ∧
    (spkrTickDrain st).pit_index = (ForwardPIT st 1).pit_index ∧
    (spkrTickDrain st).pit_half = (ForwardPIT st 1).pit_half ∧
    (spkrTickDrain st).pit_max = (ForwardPIT st 1).pit_max ∧
    (spkrTickDrain st).pit_new_half = (ForwardPIT st 1).pit_new_half ∧
    (spkrTickDrain st).pit_new_max = (ForwardPIT st 1).pit_new_max ∧
    (spkrTickDrain st).minimum_counter = (ForwardPIT st 1).minimum_counter ∧
    (spkrTickDrain st).last_index = 0 ∧
    (spkrTickDrain st).log.entries = [] := by
  unfold spkrTickDrain
  dsimp only
  obtain ⟨f1, f2, f3, f4, f5, f6, f7, f8, f9⟩ :=
    foldl_add_impulse_state
      ({ ForwardPIT st 1 with last_index := 0 } : SpkrState).log.entries
      { ForwardPIT st 1 with last_index := 0 }
  exact ⟨f1, f2, f3, f4, f5, f6, f7, f8, f9, rfl⟩

theorem callBack_state (st : SpkrState) (len : ℕ) :
    ((PCSPEAKER_CallBack st len).2).pit_mode = (spkrTickDrain st).pit_mode ∧
    ((PCSPEAKER_CallBack st len).2).pit_mode3_counting =
      (spkrTickDrain st).pit_mode3_counting ∧
    ((PCSPEAKER_CallBack st len).2).pit_index = (spkrTickDrain st).pit_index ∧
    ((PCSPEAKER_CallBack st len).2).pit_half = (spkrTickDrain st).pit_half ∧
    ((PCSPEAKER_CallBack st len).2).pit_max = (spkrTickDrain st).pit_max ∧
    ((PCSPEAKER_CallBack st len).2).pit_new_half = (spkrTickDrain st).pit_new_half ∧
    ((PCSPEAKER_CallBack st len).2).pit_new_max = (spkrTickDrain st).pit_new_max ∧
    ((PCSPEAKER_CallBack st len).2).minimum_counter =
      (spkrTickDrain st).minimum_counter ∧
    ((PCSPEAKER_CallBack st len).2).last_index = (spkrTickDrain st).last_index ∧
    ((PCSPEAKER_CallBack st len).2).log = (spkrTickDrain st).log := by
  unfold PCSPEAKER_CallBack
  dsimp only
  exact ⟨rfl, rfl, rfl, rfl, rfl, rfl, rfl, rfl, rfl, rfl⟩

/-- Builds the C4 invariant for a state whose current position is a known
time `t`. -/
theorem C4Inv_mk (st : SpkrState) (t : ℚ)
    (ho : edgesOrdered st.log.entries = true)
    (hb : entriesLE st.log.entries t)
    (hlast : st.last_index = t)
    (h0 : 0 ≤ t) (h1 : t ≤ 1)
    (hnm : 0 < st.pit_new_max) (hnh : st.pit_new_half = st.pit_new_max / 2)
    (hmin : 2 ≤ st.minimum_counter)
    (hm2 : st.pit_mode = 2 →
      0 ≤ st.pit_index ∧ st.pit_index ≤ st.pit_max ∧ st.pit_half ≤ st.pit_max)
    (hm3 : st.pit_mode = 3 ∧ st.pit_mode3_counting = true →
      0 ≤ st.pit_index ∧ st.pit_index ≤ st.pit_max ∧ st.pit_half ≤ st.pit_max ∧
        st.pit_half ≤ st.pit_new_max) : C4Inv st := by
  refine ⟨ho, ?_, ?_, ?_, hnm, hnh, hmin, hm2, hm3⟩
  · rw [hlast]
    exact hb
  · rw [hlast]
    exact h0
  · rw [hlast]
    exact h1

/-!
## Claim C4: the alternation invariant holds across every inbound call
-/

theorem alt_SetPITControl (st : SpkrState) (t : ℚ) (mode : ℕ)
    (h : AltLog st.log) : AltLog (PCSPEAKER_SetPITControl st t mode).log := by
  have hf := alt_ForwardPIT st t h
  unfold PCSPEAKER_SetPITControl
  dsimp only
  split
  · rw [AddPITOutput_log]
    exact altLog_logIf _ _ _ _ hf
  · split
    · rw [AddPITOutput_log]
      exact altLog_logIf _ _ _ _ hf
    · exact hf

theorem alt_SetCounter (st : SpkrState) (t : ℚ) (cntr : ℤ) (mode : ℕ)
    (h : AltLog st.log) : AltLog (PCSPEAKER_SetCounter st t cntr mode).log := by
  have hf := alt_ForwardPIT st t h
  unfold PCSPEAKER_SetCounter
  dsimp only
  repeat' split
  all_goals try dsimp only
  all_goals
    first
      | (rw [AddPITOutput_log]; exact altLog_logIf _ _ _ _ hf)
      | exact hf

theorem alt_SetType (st : SpkrState) (t : ℚ) (gate out : Bool)
    (h : AltLog st.log) : AltLog (PCSPEAKER_SetType st t gate out).log := by
  have hf := alt_ForwardPIT st t h
  unfold PCSPEAKER_SetType
  dsimp only
  repeat' split
  all_goals try dsimp only
  all_goals exact altLog_AddDelayEntry _ _ _ hf

theorem alt_CallBack (st : SpkrState) (len : ℕ) :
    AltLog ((PCSPEAKER_CallBack st len).2).log := by
  obtain ⟨-, -, -, -, -, -, -, -, -, hlog⟩ := callBack_state st len
  obtain ⟨-, -, -, -, -, -, -, -, -, hent⟩ := spkrTickDrain_state st
  rw [hlog]
  refine ⟨?_, ?_, ?_⟩ <;> rw [hent]
  · rfl
  · norm_num [SPKR_ENTRIES]
  · intro _
    rfl

theorem alt_applyOp (st : SpkrState) (op : SpkrOp) (h : AltLog st.log) :
    AltLog (applyOp st op).log := by
  cases op with
  | setPITControl t mode => exact alt_SetPITControl st t mode h
  | setCounter t cntr mode => exact alt_SetCounter st t cntr mode h
  | setType t gate out => exact alt_SetType st t gate out h
  | callback len => exact alt_CallBack st len

theorem alt_applyOps (ops : List SpkrOp) : ∀ st : SpkrState,
    AltLog st.log → AltLog (applyOps st ops).log := by
  induction ops with
  | nil => intro st h; exact h
  | cons op rest ih =>
    intro st h
    exact ih (applyOp st op) (alt_applyOp st op h)

/-!
## Claim C4: the invariant survives every valid inbound call
-/

theorem c4_SetPITControl (st : SpkrState) (t : ℚ) (mode : ℕ)
    (hinv : C4Inv st) (ht1 : st.last_index ≤ t) (ht2 : t ≤ 1) :
    C4Inv (PCSPEAKER_SetPITControl st t mode) := by
  obtain ⟨ho, hb, hl0, hl1, hnm, hnh, hmin, hm2, hm3⟩ := hinv
  obtain ⟨f1, f2, f3, f4, f5⟩ := ord_ForwardPIT st t ho hb ht1 hm2 hm3 hnm hnh
  have ht0 : 0 ≤ t := le_trans hl0 ht1
  unfold PCSPEAKER_SetPITControl
  dsimp only
  split
  · refine C4Inv_mk _ t ?_ ?_ ?_ ht0 ht2 ?_ ?_ ?_ ?_ ?_
    · simp only [AddPITOutput_log, ForwardPIT_pit_output_enabled]
      exact (ord_logIf _ _ _ _ f1 f2).1
    · simp only [AddPITOutput_log, ForwardPIT_pit_output_enabled]
      exact (ord_logIf _ _ _ _ f1 f2).2
    · simp only [AddPITOutput_last_index, ForwardPIT_last_index]
    · simp only [AddPITOutput_pit_new_max, ForwardPIT_pit_new_max]
      exact hnm
    · simp only [AddPITOutput_pit_new_half, AddPITOutput_pit_new_max,
        ForwardPIT_pit_new_half, ForwardPIT_pit_new_max]
      exact hnh
    · simp only [AddPITOutput_minimum_counter, ForwardPIT_minimum_counter]
      exact hmin
    · simp only [AddPITOutput_pit_mode]
      intro hmm
      exact absurd hmm (by decide)
    · simp only [AddPITOutput_pit_mode]
      intro hmm
      exact absurd hmm.1 (by decide)
  · split
    · refine C4Inv_mk _ t ?_ ?_ ?_ ht0 ht2 ?_ ?_ ?_ ?_ ?_
      · simp only [AddPITOutput_log, ForwardPIT_pit_output_enabled]
        exact (ord_logIf _ _ _ _ f1 f2).1
      · simp only [AddPITOutput_log, ForwardPIT_pit_output_enabled]
        exact (ord_logIf _ _ _ _ f1 f2).2
      · simp only [AddPITOutput_last_index, ForwardPIT_last_index]
      · simp only [AddPITOutput_pit_new_max, ForwardPIT_pit_new_max]
        exact hnm
      · simp only [AddPITOutput_pit_new_half, AddPITOutput_pit_new_max,
          ForwardPIT_pit_new_half, ForwardPIT_pit_new_max]
        exact hnh
      · simp only [AddPITOutput_minimum_counter, ForwardPIT_minimum_counter]
        exact hmin
      · simp only [AddPITOutput_pit_mode]
        intro hmm
        exact absurd hmm (by decide)
      · simp only [AddPITOutput_pit_mode3_counting]
        intro hmm
        exact absurd hmm.2 (by decide)
    · refine C4Inv_mk _ t f1 f2 (ForwardPIT_last_index st t) ht0 ht2 ?_ ?_ ?_ ?_ ?_
      · simp only [ForwardPIT_pit_new_max]
        exact hnm
      · simp only [ForwardPIT_pit_new_half, ForwardPIT_pit_new_max]
        exact hnh
      · simp only [ForwardPIT_minimum_counter]
        exact hmin
      · simp only [ForwardPIT_pit_mode]
        exact f4
      · simp only [ForwardPIT_pit_mode, ForwardPIT_pit_mode3_counting,
          ForwardPIT_pit_new_max]
        exact f5

theorem c4_SetCounter (st : SpkrState) (t : ℚ) (cntr : ℤ) (mode : ℕ)
    (hinv : C4Inv st) (ht1 : st.last_index ≤ t) (ht2 : t ≤ 1)
    (hc2 : mode = 2 → 1 ≤ cntr)
    (hc3 : mode = 3 → st.pit_mode3_counting = true →
      st.pit_mode = 3 ∧ st.pit_half ≤ ms_per_pit_tick * (cntr : ℚ) ∧
        st.pit_new_half ≤ ms_per_pit_tick * (cntr : ℚ)) :
    C4Inv (PCSPEAKER_SetCounter st t cntr mode) := by
  obtain ⟨ho, hb, hl0, hl1, hnm, hnh, hmin, hm2, hm3⟩ := hinv
  obtain ⟨f1, f2, f3, f4, f5⟩ := ord_ForwardPIT st t ho hb ht1 hm2 hm3 hnm hnh
  have ht0 : 0 ≤ t := le_trans hl0 ht1
  have htick : (0 : ℚ) < ms_per_pit_tick := by
    norm_num [ms_per_pit_tick, PIT_TICK_RATE]
  unfold PCSPEAKER_SetCounter
  dsimp only
  split
  · -- mode = 0: one-shot low pulse, no period sanity required
    refine C4Inv_mk _ t ?_ ?_ ?_ ht0 ht2 ?_ ?_ ?_ ?_ ?_
    · simp only [AddPITOutput_log, ForwardPIT_pit_output_enabled]
      exact (ord_logIf _ _ _ _ f1 f2).1
    · simp only [AddPITOutput_log, ForwardPIT_pit_output_enabled]
      exact (ord_logIf _ _ _ _ f1 f2).2
    · simp only [AddPITOutput_last_index, ForwardPIT_last_index]
    · simp only [AddPITOutput_pit_new_max, ForwardPIT_pit_new_max]
      exact hnm
    · simp only [AddPITOutput_pit_new_half, AddPITOutput_pit_new_max,
        ForwardPIT_pit_new_half, ForwardPIT_pit_new_max]
      exact hnh
    · simp only [AddPITOutput_minimum_counter, ForwardPIT_minimum_counter]
      exact hmin
    · intro hmm
      simp [AddPITOutput_pit_mode] at hmm
    · intro hmm
      simp [AddPITOutput_pit_mode] at hmm
  · split
    · -- mode = 1: only the pending period is staged
      split
      · refine C4Inv_mk _ t f1 f2 (ForwardPIT_last_index st t) ht0 ht2 ?_ ?_ ?_ ?_ ?_
        · simp only [ForwardPIT_pit_new_max]
          exact hnm
        · simp only [ForwardPIT_pit_new_half, ForwardPIT_pit_new_max]
          exact hnh
        · simp only [ForwardPIT_minimum_counter]
          exact hmin
        · intro hmm
          simp [AddPITOutput_pit_mode] at hmm
        · intro hmm
          simp [AddPITOutput_pit_mode] at hmm
      · refine C4Inv_mk _ t f1 f2 (ForwardPIT_last_index st t) ht0 ht2 ?_ ?_ ?_ ?_ ?_
        · simp only [ForwardPIT_pit_new_max]
          exact hnm
        · simp only [ForwardPIT_pit_new_half, ForwardPIT_pit_new_max]
          exact hnh
        · simp only [ForwardPIT_minimum_counter]
          exact hmin
        · intro hmm
          simp [AddPITOutput_pit_mode] at hmm
        · intro hmm
          simp [AddPITOutput_pit_mode] at hmm
    · split
      · -- mode = 2: rate generator, loaded with one-tick half period
        rename_i hmode2
        have hc1 : (1 : ℚ) ≤ (cntr : ℚ) := by exact_mod_cast hc2 hmode2
        refine C4Inv_mk _ t ?_ ?_ ?_ ht0 ht2 ?_ ?_ ?_ ?_ ?_
        · simp only [AddPITOutput_log, ForwardPIT_pit_output_enabled]
          exact (ord_logIf _ _ _ _ f1 f2).1
        · simp only [AddPITOutput_log, ForwardPIT_pit_output_enabled]
          exact (ord_logIf _ _ _ _ f1 f2).2
        · simp only [AddPITOutput_last_index, ForwardPIT_last_index]
        · simp only [AddPITOutput_pit_new_max, ForwardPIT_pit_new_max]
          exact hnm
        · simp only [AddPITOutput_pit_new_half, AddPITOutput_pit_new_max,
            ForwardPIT_pit_new_half, ForwardPIT_pit_new_max]
          exact hnh
        · simp only [AddPITOutput_minimum_counter, ForwardPIT_minimum_counter]
          exact hmin
        · intro _
          refine ⟨?_, ?_, ?_⟩
          · simp only [AddPITOutput_pit_index]
            exact le_rfl
          · simp only [AddPITOutput_pit_index]
            nlinarith [htick, hc1]
          · show ms_per_pit_tick ≤ ms_per_pit_tick * (cntr : ℚ)
            nlinarith [htick, hc1]
        · intro hmm
          simp [AddPITOutput_pit_mode] at hmm
      · split
        · -- mode = 3: square wave
          rename_i hmode3
          split
          · -- below the minimum counter: degrade to the dummy mode
            refine C4Inv_mk _ t ?_ ?_ ?_ ht0 ht2 ?_ ?_ ?_ ?_ ?_
            · simp only [AddPITOutput_log, ForwardPIT_pit_output_enabled]
              exact (ord_logIf _ _ _ _ f1 f2).1
            · simp only [AddPITOutput_log, ForwardPIT_pit_output_enabled]
              exact (ord_logIf _ _ _ _ f1 f2).2
            · simp only [AddPITOutput_last_index, ForwardPIT_last_index]
            · simp only [AddPITOutput_pit_new_max, ForwardPIT_pit_new_max]
              exact hnm
            · simp only [AddPITOutput_pit_new_half, AddPITOutput_pit_new_max,
                ForwardPIT_pit_new_half, ForwardPIT_pit_new_max]
              exact hnh
            · simp only [AddPITOutput_minimum_counter, ForwardPIT_minimum_counter]
              exact hmin
            · simp only [AddPITOutput_pit_mode]
              intro hmm
              simp [AddPITOutput_pit_mode] at hmm
            · simp only [AddPITOutput_pit_mode]
              intro hmm
              simp [AddPITOutput_pit_mode] at hmm
          · rename_i hge
            have hge' : st.minimum_counter ≤ cntr := by
              have hh' := not_lt.mp hge
              rwa [ForwardPIT_minimum_counter] at hh'
            have hc2i : (2 : ℤ) ≤ cntr := le_trans hmin hge'
            have hdur : 0 < ms_per_pit_tick * (cntr : ℚ) := by
              have h2q : (2 : ℚ) ≤ (cntr : ℚ) := by exact_mod_cast hc2i
              nlinarith [htick]
            split
            · -- the square wave was not counting: full reload
              rename_i hncnt
              split
              · -- clock gate enabled: start counting and emit the high edge
                refine C4Inv_mk _ t ?_ ?_ ?_ ht0 ht2 ?_ ?_ ?_ ?_ ?_
                · simp only [AddPITOutput_log, ForwardPIT_pit_output_enabled]
                  exact (ord_logIf _ _ _ _ f1 f2).1
                · simp only [AddPITOutput_log, ForwardPIT_pit_output_enabled]
                  exact (ord_logIf _ _ _ _ f1 f2).2
                · simp only [AddPITOutput_last_index, ForwardPIT_last_index]
                · simp only [AddPITOutput_pit_new_max]
                  exact hdur
                · simp only [AddPITOutput_pit_new_half, AddPITOutput_pit_new_max]
                · simp only [AddPITOutput_minimum_counter, ForwardPIT_minimum_counter]
                  exact hmin
                · simp only [AddPITOutput_pit_mode]
                  intro hmm
                  simp [AddPITOutput_pit_mode] at hmm
                · intro _
                  refine ⟨?_, ?_, ?_, ?_⟩
                  · simp only [AddPITOutput_pit_index]
                    exact le_rfl
                  · simp only [AddPITOutput_pit_index, AddPITOutput_pit_max]
                    exact hdur.le
                  · simp only [AddPITOutput_pit_half, AddPITOutput_pit_max]
                    linarith [hdur]
                  · simp only [AddPITOutput_pit_half, AddPITOutput_pit_new_max]
                    linarith [hdur]
              · -- clock gate disabled: loaded but not counting
                refine C4Inv_mk _ t f1 f2 (ForwardPIT_last_index st t) ht0 ht2
                  hdur rfl ?_ ?_ ?_
                · simp only [ForwardPIT_minimum_counter]
                  exact hmin
                · intro hmm
                  simp at hmm
                · intro hmm
                  exact absurd hmm.2 hncnt
            · -- already counting: only the staged period changes
              rename_i hcnt
              have hfcnt : (ForwardPIT st t).pit_mode3_counting = true :=
                not_not.mp hcnt
              have hcc : st.pit_mode3_counting = true := by
                rwa [ForwardPIT_pit_mode3_counting] at hfcnt
              obtain ⟨hpm3, hhd, hnhd⟩ := hc3 hmode3 hcc
              obtain ⟨g1, g2, g3, g4⟩ := f5 ⟨hpm3, hcc⟩
              have hfh : (ForwardPIT st t).pit_half ≤ ms_per_pit_tick * (cntr : ℚ) := by
                rcases f3 with h | h
                · rw [h]
                  exact hhd
                · rw [h]
                  exact hnhd
              refine C4Inv_mk _ t f1 f2 (ForwardPIT_last_index st t) ht0 ht2
                hdur rfl ?_ ?_ ?_
              · simp only [ForwardPIT_minimum_counter]
                exact hmin
              · intro hmm
                simp at hmm
              · intro _
                exact ⟨g1, g2, g3, hfh⟩
        · split
          · -- mode = 4: software strobe
            refine C4Inv_mk _ t ?_ ?_ ?_ ht0 ht2 ?_ ?_ ?_ ?_ ?_
            · simp only [AddPITOutput_log, ForwardPIT_pit_output_enabled]
              exact (ord_logIf _ _ _ _ f1 f2).1
            · simp only [AddPITOutput_log, ForwardPIT_pit_output_enabled]
              exact (ord_logIf _ _ _ _ f1 f2).2
            · simp only [AddPITOutput_last_index, ForwardPIT_last_index]
            · simp only [AddPITOutput_pit_new_max, ForwardPIT_pit_new_max]
              exact hnm
            · simp only [AddPITOutput_pit_new_half, AddPITOutput_pit_new_max,
                ForwardPIT_pit_new_half, ForwardPIT_pit_new_max]
              exact hnh
            · simp only [AddPITOutput_minimum_counter, ForwardPIT_minimum_counter]
              exact hmin
            · intro hmm
              simp [AddPITOutput_pit_mode] at hmm
            · intro hmm
              simp [AddPITOutput_pit_mode] at hmm
          · -- unknown mode: only the forward advancement happened
            refine C4Inv_mk _ t f1 f2 (ForwardPIT_last_index st t) ht0 ht2 ?_ ?_ ?_ ?_ ?_
            · simp only [ForwardPIT_pit_new_max]
              exact hnm
            · simp only [ForwardPIT_pit_new_half, ForwardPIT_pit_new_max]
              exact hnh
            · simp only [ForwardPIT_minimum_counter]
              exact hmin
            · simp only [ForwardPIT_pit_mode]
              exact f4
            · simp only [ForwardPIT_pit_mode, ForwardPIT_pit_mode3_counting,
                ForwardPIT_pit_new_max]
              exact f5

/-- Appending one submission at the current time keeps the C4 invariant. -/
theorem c4_postLog (s : SpkrState) (t : ℚ) (lvl : ℤ)
    (ho : edgesOrdered s.log.entries = true)
    (hb : entriesLE s.log.entries t)
    (hlast : s.last_index = t) (h0 : 0 ≤ t) (h1 : t ≤ 1)
    (hnm : 0 < s.pit_new_max) (hnh : s.pit_new_half = s.pit_new_max / 2)
    (hmin : 2 ≤ s.minimum_counter)
    (hm2 : s.pit_mode = 2 →
      0 ≤ s.pit_index ∧ s.pit_index ≤ s.pit_max ∧ s.pit_half ≤ s.pit_max)
    (hm3 : s.pit_mode = 3 ∧ s.pit_mode3_counting = true →
      0 ≤ s.pit_index ∧ s.pit_index ≤ s.pit_max ∧ s.pit_half ≤ s.pit_max ∧
        s.pit_half ≤ s.pit_new_max) :
    C4Inv { s with log := AddDelayEntry s.log t lvl } := by
  obtain ⟨o1, o2⟩ := ord_AddDelayEntry s.log t lvl ho hb
  exact C4Inv_mk _ t o1 o2 hlast h0 h1 hnm hnh hmin hm2 hm3

theorem c4_SetType (st : SpkrState) (t : ℚ) (gate out : Bool)
    (hinv : C4Inv st) (ht1 : st.last_index ≤ t) (ht2 : t ≤ 1) :
    C4Inv (PCSPEAKER_SetType st t gate out) := by
  obtain ⟨ho, hb, hl0, hl1, hnm, hnh, hmin, hm2, hm3⟩ := hinv
  obtain ⟨f1, f2, f3, f4, f5⟩ := ord_ForwardPIT st t ho hb ht1 hm2 hm3 hnm hnh
  have ht0 : 0 ≤ t := le_trans hl0 ht1
  unfold PCSPEAKER_SetType
  dsimp only
  split
  · split
    · -- a gate rising edge (trigger) was delivered
      split
      · -- mode 1, trigger
        rename_i hm1
        simp only [ForwardPIT_pit_mode] at hm1
        split
        · -- still waiting for the counter: nothing happens
          refine c4_postLog _ t _ f1 f2 (ForwardPIT_last_index st t) ht0 ht2 ?_ ?_ ?_ ?_ ?_
          · simp only [ForwardPIT_pit_new_max]
            exact hnm
          · simp only [ForwardPIT_pit_new_half, ForwardPIT_pit_new_max]
            exact hnh
          · simp only [ForwardPIT_minimum_counter]
            exact hmin
          · simp only [ForwardPIT_pit_mode]
            exact f4
          · simp only [ForwardPIT_pit_mode, ForwardPIT_pit_mode3_counting,
              ForwardPIT_pit_new_max]
            exact f5
        · -- armed one-shot: period loaded from the pending value
          refine c4_postLog _ t _ f1 f2 (ForwardPIT_last_index st t) ht0 ht2 ?_ ?_ ?_ ?_ ?_
          · simp only [ForwardPIT_pit_new_max]
            exact hnm
          · simp only [ForwardPIT_pit_new_half, ForwardPIT_pit_new_max]
            exact hnh
          · simp only [ForwardPIT_minimum_counter]
            exact hmin
          · simp only [ForwardPIT_pit_mode]
            intro hmm
            omega
          · simp only [ForwardPIT_pit_mode]
            intro hmm
            obtain ⟨ha, -⟩ := hmm
            omega
      · split
        · -- mode 3, trigger: restart the square wave from the staged period
          rename_i hm3t
          simp only [ForwardPIT_pit_mode] at hm3t
          refine c4_postLog _ t _ f1 f2 (ForwardPIT_last_index st t) ht0 ht2 ?_ ?_ ?_ ?_ ?_
          · simp only [ForwardPIT_pit_new_max]
            exact hnm
          · rfl
          · simp only [ForwardPIT_minimum_counter]
            exact hmin
          · simp only [ForwardPIT_pit_mode]
            intro hmm
            omega
          · intro _
            refine ⟨le_rfl, ?_, ?_, ?_⟩
            · simp only [ForwardPIT_pit_new_max]
              exact hnm.le
            · simp only [ForwardPIT_pit_new_max]
              linarith [hnm]
            · simp only [ForwardPIT_pit_new_max]
              linarith [hnm]
        · -- trigger in any other mode: nothing happens
          refine c4_postLog _ t _ f1 f2 (ForwardPIT_last_index st t) ht0 ht2 ?_ ?_ ?_ ?_ ?_
          · simp only [ForwardPIT_pit_new_max]
            exact hnm
          · simp only [ForwardPIT_pit_new_half, ForwardPIT_pit_new_max]
            exact hnh
          · simp only [ForwardPIT_minimum_counter]
            exact hmin
          · simp only [ForwardPIT_pit_mode]
            exact f4
          · simp only [ForwardPIT_pit_mode, ForwardPIT_pit_mode3_counting,
              ForwardPIT_pit_new_max]
            exact f5
    · split
      · -- clock gate lowered
        split
        · -- mode 1: nothing happens
          refine c4_postLog _ t _ f1 f2 (ForwardPIT_last_index st t) ht0 ht2 ?_ ?_ ?_ ?_ ?_
          · simp only [ForwardPIT_pit_new_max]
            exact hnm
          · simp only [ForwardPIT_pit_new_half, ForwardPIT_pit_new_max]
            exact hnh
          · simp only [ForwardPIT_minimum_counter]
            exact hmin
          · simp only [ForwardPIT_pit_mode]
            exact f4
          · simp only [ForwardPIT_pit_mode, ForwardPIT_pit_mode3_counting,
              ForwardPIT_pit_new_max]
            exact f5
        · split
          · -- mode 3: the square wave stops counting
            refine c4_postLog _ t _ f1 f2 (ForwardPIT_last_index st t) ht0 ht2 ?_ ?_ ?_ ?_ ?_
            · simp only [ForwardPIT_pit_new_max]
              exact hnm
            · simp only [ForwardPIT_pit_new_half, ForwardPIT_pit_new_max]
              exact hnh
            · simp only [ForwardPIT_minimum_counter]
              exact hmin
            · simp only [ForwardPIT_pit_mode]
              exact f4
            · intro hmm
              simp at hmm
          · -- any other mode: nothing happens
            refine c4_postLog _ t _ f1 f2 (ForwardPIT_last_index st t) ht0 ht2 ?_ ?_ ?_ ?_ ?_
            · simp only [ForwardPIT_pit_new_max]
              exact hnm
            · simp only [ForwardPIT_pit_new_half, ForwardPIT_pit_new_max]
              exact hnh
            · simp only [ForwardPIT_minimum_counter]
              exact hmin
            · simp only [ForwardPIT_pit_mode]
              exact f4
            · simp only [ForwardPIT_pit_mode, ForwardPIT_pit_mode3_counting,
                ForwardPIT_pit_new_max]
              exact f5
      · -- gate stays enabled: nothing happens
        refine c4_postLog _ t _ f1 f2 (ForwardPIT_last_index st t) ht0 ht2 ?_ ?_ ?_ ?_ ?_
        · simp only [ForwardPIT_pit_new_max]
          exact hnm
        · simp only [ForwardPIT_pit_new_half, ForwardPIT_pit_new_max]
          exact hnh
        · simp only [ForwardPIT_minimum_counter]
          exact hmin
        · simp only [ForwardPIT_pit_mode]
          exact f4
        · simp only [ForwardPIT_pit_mode, ForwardPIT_pit_mode3_counting,
            ForwardPIT_pit_new_max]
          exact f5
  · split
    · -- a gate rising edge (trigger) was delivered
      split
      · -- mode 1, trigger
        rename_i hm1
        simp only [ForwardPIT_pit_mode] at hm1
        split
        · -- still waiting for the counter: nothing happens
          refine c4_postLog _ t _ f1 f2 (ForwardPIT_last_index st t) ht0 ht2 ?_ ?_ ?_ ?_ ?_
          · simp only [ForwardPIT_pit_new_max]
            exact hnm
          · simp only [ForwardPIT_pit_new_half, ForwardPIT_pit_new_max]
            exact hnh
          · simp only [ForwardPIT_minimum_counter]
            exact hmin
          · simp only [ForwardPIT_pit_mode]
            exact f4
          · simp only [ForwardPIT_pit_mode, ForwardPIT_pit_mode3_counting,
              ForwardPIT_pit_new_max]
            exact f5
        · -- armed one-shot: period loaded from the pending value
          refine c4_postLog _ t _ f1 f2 (ForwardPIT_last_index st t) ht0 ht2 ?_ ?_ ?_ ?_ ?_
          · simp only [ForwardPIT_pit_new_max]
            exact hnm
          · simp only [ForwardPIT_pit_new_half, ForwardPIT_pit_new_max]
            exact hnh
          · simp only [ForwardPIT_minimum_counter]
            exact hmin
          · simp only [ForwardPIT_pit_mode]
            intro hmm
            omega
          · simp only [ForwardPIT_pit_mode]
            intro hmm
            obtain ⟨ha, -⟩ := hmm
            omega
      · split
        · -- mode 3, trigger: restart the square wave from the staged period
          rename_i hm3t
          simp only [ForwardPIT_pit_mode] at hm3t
          refine c4_postLog _ t _ f1 f2 (ForwardPIT_last_index st t) ht0 ht2 ?_ ?_ ?_ ?_ ?_
          · simp only [ForwardPIT_pit_new_max]
            exact hnm
          · rfl
          · simp only [ForwardPIT_minimum_counter]
            exact hmin
          · simp only [ForwardPIT_pit_mode]
            intro hmm
            omega
          · intro _
            refine ⟨le_rfl, ?_, ?_, ?_⟩
            · simp only [ForwardPIT_pit_new_max]
              exact hnm.le
            · simp only [ForwardPIT_pit_new_max]
              linarith [hnm]
            · simp only [ForwardPIT_pit_new_max]
              linarith [hnm]
        · -- trigger in any other mode: nothing happens
          refine c4_postLog _ t _ f1 f2 (ForwardPIT_last_index st t) ht0 ht2 ?_ ?_ ?_ ?_ ?_
          · simp only [ForwardPIT_pit_new_max]
            exact hnm
          · simp only [ForwardPIT_pit_new_half, ForwardPIT_pit_new_max]
            exact hnh
          · simp only [ForwardPIT_minimum_counter]
            exact hmin
          · simp only [ForwardPIT_pit_mode]
            exact f4
          · simp only [ForwardPIT_pit_mode, ForwardPIT_pit_mode3_counting,
              ForwardPIT_pit_new_max]
            exact f5
    · split
      · -- clock gate lowered
        split
        · -- mode 1: nothing happens
          refine c4_postLog _ t _ f1 f2 (ForwardPIT_last_index st t) ht0 ht2 ?_ ?_ ?_ ?_ ?_
          · simp only [ForwardPIT_pit_new_max]
            exact hnm
          · simp only [ForwardPIT_pit_new_half, ForwardPIT_pit_new_max]
            exact hnh
          · simp only [ForwardPIT_minimum_counter]
            exact hmin
          · simp only [ForwardPIT_pit_mode]
            exact f4
          · simp only [ForwardPIT_pit_mode, ForwardPIT_pit_mode3_counting,
              ForwardPIT_pit_new_max]
            exact f5
        · split
          · -- mode 3: the square wave stops counting
            refine c4_postLog _ t _ f1 f2 (ForwardPIT_last_index st t) ht0 ht2 ?_ ?_ ?_ ?_ ?_
            · simp only [ForwardPIT_pit_new_max]
              exact hnm
            · simp only [ForwardPIT_pit_new_half, ForwardPIT_pit_new_max]
              exact hnh
            · simp only [ForwardPIT_minimum_counter]
              exact hmin
            · simp only [ForwardPIT_pit_mode]
              exact f4
            · intro hmm
              simp at hmm
          · -- any other mode: nothing happens
            refine c4_postLog _ t _ f1 f2 (ForwardPIT_last_index st t) ht0 ht2 ?_ ?_ ?_ ?_ ?_
            · simp only [ForwardPIT_pit_new_max]
              exact hnm
            · simp only [ForwardPIT_pit_new_half, ForwardPIT_pit_new_max]
              exact hnh
            · simp only [ForwardPIT_minimum_counter]
              exact hmin
            · simp only [ForwardPIT_pit_mode]
              exact f4
            · simp only [ForwardPIT_pit_mode, ForwardPIT_pit_mode3_counting,
                ForwardPIT_pit_new_max]
              exact f5
      · -- gate stays enabled: nothing happens
        refine c4_postLog _ t _ f1 f2 (ForwardPIT_last_index st t) ht0 ht2 ?_ ?_ ?_ ?_ ?_
        · simp only [ForwardPIT_pit_new_max]
          exact hnm
        · simp only [ForwardPIT_pit_new_half, ForwardPIT_pit_new_max]
          exact hnh
        · simp only [ForwardPIT_minimum_counter]
          exact hmin
        · simp only [ForwardPIT_pit_mode]
          exact f4
        · simp only [ForwardPIT_pit_mode, ForwardPIT_pit_mode3_counting,
            ForwardPIT_pit_new_max]
          exact f5

theorem c4_CallBack (st : SpkrState) (len : ℕ) (hinv : C4Inv st) :
    C4Inv ((PCSPEAKER_CallBack st len).2) := by
  obtain ⟨ho, hb, hl0, hl1, hnm, hnh, hmin, hm2, hm3⟩ := hinv
  obtain ⟨f1, f2, f3, f4, f5⟩ := ord_ForwardPIT st 1 ho hb hl1 hm2 hm3 hnm hnh
  obtain ⟨d1, d2, d3, d4, d5, d6, d7, d8, d9, d10⟩ := spkrTickDrain_state st
  obtain ⟨c1, c2, c3, c4, c5, c6, c7, c8, c9, c10⟩ := callBack_state st len
  refine ⟨?_, ?_, ?_, ?_, ?_, ?_, ?_, ?_, ?_⟩
  · rw [c10, d10]
    rfl
  · rw [c10, d10]
    intro e he
    exact absurd he (List.not_mem_nil e)
  · rw [c9, d9]
  · rw [c9, d9]
    norm_num
  · rw [c7, d7, ForwardPIT_pit_new_max]
    exact hnm
  · rw [c6, d6, ForwardPIT_pit_new_half, c7, d7, ForwardPIT_pit_new_max]
    exact hnh
  · rw [c8, d8, ForwardPIT_minimum_counter]
    exact hmin
  · intro hmm
    rw [c1, d1, ForwardPIT_pit_mode] at hmm
    obtain ⟨g1, g2, g3⟩ := f4 hmm
    refine ⟨?_, ?_, ?_⟩
    · rw [c3, d3]
      exact g1
    · rw [c3, d3, c5, d5]
      exact g2
    · rw [c4, d4, c5, d5]
      exact g3
  · intro hmm
    obtain ⟨hmA, hmB⟩ := hmm
    rw [c1, d1, ForwardPIT_pit_mode] at hmA
    rw [c2, d2, ForwardPIT_pit_mode3_counting] at hmB
    obtain ⟨g1, g2, g3, g4⟩ := f5 ⟨hmA, hmB⟩
    refine ⟨?_, ?_, ?_, ?_⟩
    · rw [c3, d3]
      exact g1
    · rw [c3, d3, c5, d5]
      exact g2
    · rw [c4, d4, c5, d5]
      exact g3
    · rw [c4, d4, c7, d7, ForwardPIT_pit_new_max]
      exact g4

theorem c4_applyOp (st : SpkrState) (op : SpkrOp)
    (hv : validOp st op = true) (hinv : C4Inv st) : C4Inv (applyOp st op) := by
  cases op with
  | setPITControl t mode =>
    simp only [validOp, Bool.and_eq_true, decide_eq_true_eq] at hv
    exact c4_SetPITControl st t mode hinv hv.1 hv.2
  | setCounter t cntr mode =>
    simp only [validOp, Bool.and_eq_true, decide_eq_true_eq] at hv
    refine c4_SetCounter st t cntr mode hinv hv.1.1.1 hv.1.1.2 ?_ ?_
    · intro hmode2
      have h2' := hv.1.2
      rw [if_pos hmode2] at h2'
      exact of_decide_eq_true h2'
    · intro hmode3 hcnt
      have h3' := hv.2
      rw [if_pos hmode3] at h3'
      rw [Bool.and_eq_true] at h3'
      have h4' := h3'.2
      rw [if_pos hcnt] at h4'
      simp only [Bool.and_eq_true, decide_eq_true_eq] at h4'
      exact ⟨h4'.1.1, h4'.1.2, h4'.2⟩
  | setType t gate out =>
    simp only [validOp, Bool.and_eq_true, decide_eq_true_eq] at hv
    exact c4_SetType st t gate out hinv hv.1 hv.2
  | callback len => exact c4_CallBack st len hinv

theorem c4_applyOps (ops : List SpkrOp) : ∀ st : SpkrState,
    C4Inv st → validOps st ops = true → C4Inv (applyOps st ops) := by
  induction ops with
  | nil =>
    intro st h _
    exact h
  | cons op rest ih =>
    intro st h hv
    simp only [validOps, Bool.and_eq_true] at hv
    exact ih (applyOp st op) (c4_applyOp st op hv.1 h) hv.2

theorem c4_initState (rate : ℤ) (h1 : 8000 ≤ rate)
    (h2 : rate ≤ (PIT_TICK_RATE : ℤ)) : C4Inv (initState rate) := by
  refine ⟨rfl, ?_, le_rfl, ?_, ?_, rfl, ?_, ?_, ?_⟩
  · intro e he
    exact absurd he (List.not_mem_nil e)
  · show (0 : ℚ) ≤ 1
    norm_num
  · show (0 : ℚ) < ms_per_pit_tick * 1320
    norm_num [ms_per_pit_tick, PIT_TICK_RATE]
  · show (2 : ℤ) ≤ 2 * (PIT_TICK_RATE : ℤ) / rate
    rw [Int.le_ediv_iff_mul_le (by omega : (0 : ℤ) < rate)]
    norm_num [PIT_TICK_RATE] at h2 ⊢
    omega
  · intro hmm
    simp [initState] at hmm
  · intro hmm
    simp [initState] at hmm

/-- C4 (amended): the deduplication in `AddDelayEntry` keeps the Edge Log
levels strictly alternating across EVERY sequence of inbound calls; and
under the sane-input envelope `validOps` (timestamps inside the current
tick and non-decreasing, mode-2 loads of at least one tick, mode-3
staging only while actually in mode 3 and never shrinking the period
below the active or staged half-period) the Edge Log times additionally
stay in non-decreasing order, starting from the constructor state of any
configured rate between 8000 Hz and the PIT tick rate.  The unqualified
time-ordering statement of the original claim is refuted by
`claim_c4_counterexample`. -/
theorem claim_c4 (rate : ℤ) (h1 : 8000 ≤ rate)
    (h2 : rate ≤ (PIT_TICK_RATE : ℤ)) (ops : List SpkrOp) :
    edgesAlternating (applyOps (initState rate) ops).log.entries = true ∧
    (validOps (initState rate) ops = true →
      edgesOrdered (applyOps (initState rate) ops).log.entries = true) := by
  constructor
  · have hinit : AltLog (initState rate).log := by
      refine ⟨rfl, ?_, fun _ => rfl⟩
      show (0 : ℕ) ≤ SPKR_ENTRIES
      norm_num
    exact (alt_applyOps ops (initState rate) hinit).1
  · intro hv
    exact (c4_applyOps ops (initState rate) (c4_initState rate h1 h2) hv).1

/-- Witness for C4 at rate 8000 with a single mode-3 counter load. -/
theorem claim_c4_witness :
    edgesAlternating
      (applyOps (initState 8000) [SpkrOp.setCounter 0 1000 3]).log.entries = true ∧
    (validOps (initState 8000) [SpkrOp.setCounter 0 1000 3] = true →
      edgesOrdered
        (applyOps (initState 8000) [SpkrOp.setCounter 0 1000 3]).log.entries =
          true) :=
  claim_c4 8000 (by decide) (by decide) [SpkrOp.setCounter 0 1000 3]

set_option maxRecDepth 100000 in
/-- Counterexample to the original claim C4: the calls of `c4Ops` carry
monotonically non-decreasing timestamps, yet the resulting Edge Log is
out of time order (the shrunken mode-3 period is loaded at a sub-period
boundary while the running index still sits at the old, larger
half-period, so the next crossing logs an edge earlier than its
predecessor); deduplication still keeps the levels alternating. -/
theorem claim_c4_counterexample :
    qsNonDecreasing (c4Ops.filterMap opTime) = true ∧
    edgesOrdered (applyOps (initState 8000) c4Ops).log.entries = false ∧
    edgesAlternating (applyOps (initState 8000) c4Ops).log.entries = true := by
  with_unfolding_all decide

end PCSpeaker
